import Mathlib

/-!
# Buffer pool manager (`buffer_mgr.c`)

A shallow embedding of the buffer pool of `src/buffer_mgr.c` and proofs of
properties of its frame table, replacement engine and pin / unpin protocol.

Conventions of the embedding

* C arrays are lists; `a[i] = v` is `List.set`, `a[i]` is `List.getD` with the
  frame written by `initBufferPool` as the default.  The loops `for (i = 0;
  i < numPages; i++)` run over `frames.take numPages`.
* A C function that returns an index or `-1` returns `Option Nat`
  (`none` is `-1`).
* `int` and `long long` counters (`fixCount`, `tick`, `numReadIO`,
  `numWriteIO`) are kept as mathematical integers, and `++` is `+ 1`.  The
  32-bit field `int fixCount` holds the count reduced to 32 bits
  (`Frame.cFixCount`), which is the count itself as long as it has not passed
  `INT_MAX`; `staysInRange` tells the runs on which this is so.
* The page file (`storage_mgr`) is not part of the sources; it is a parameter
  `StorageMgr σ` whose operations transform a file state `σ` and return a
  return code.
* The coarse mutex (`BM_THREADSAFE`) is not modelled: every operation is a
  state transformer.
-/

namespace BufferManager

/-- Modelled from the spec: the error-code registry `dberror.h` is not among the
sources.  The five codes used by the buffer manager are named; any other code a
collaborator may return is `other`. -/
inductive RC where
  | RC_OK
  | RC_FILE_NOT_FOUND
  | RC_FILE_HANDLE_NOT_INIT
  | RC_WRITE_FAILED
  | RC_READ_NON_EXISTING_PAGE
  | other (code : Int)
  deriving DecidableEq, Repr

/-- Modelled from the spec: the strategy tags of `buffer_mgr.h` (section 6.2 of the
specification lists exactly these four). -/
inductive ReplacementStrategy where
  | RS_FIFO
  | RS_LRU
  | RS_CLOCK
  | RS_LRU_K
  deriving DecidableEq, Repr

abbrev PageNumber := Int

/-- Modelled from the spec: the sentinel `NO_PAGE` of `buffer_mgr.h`, "conventionally −1". -/
def NO_PAGE : PageNumber := -1

/-- The bytes of one page (a `char[PAGE_SIZE]` slice of `frameMem`). -/
abbrev PageData := List Nat

/-- The C `struct Frame`.  `data` holds the bytes the C pointer `data` points to;
`hist[0]`, `hist[1]` are `hist0`, `hist1`. -/
structure Frame where
  pageNum : PageNumber
  fixCount : Int
  dirty : Bool
  data : PageData
  loadTick : Int
  accessTick : Int
  ref : Nat
  hist0 : Int
  hist1 : Int
  kCount : Nat
  kPos : Nat
  deriving DecidableEq, Repr

/-- The frame as `initBufferPool` writes it (lines 228-240), with the given bytes. -/
def Frame.empty (bytes : PageData) : Frame :=
  { pageNum := NO_PAGE, fixCount := 0, dirty := false, data := bytes, loadTick := 0,
    accessTick := 0, ref := 0, hist0 := 0, hist1 := 0, kCount := 0, kPos := 0 }

instance : Inhabited Frame := ⟨Frame.empty []⟩

/-- The largest value of the 32-bit `int` of the source (`INT_MAX` of `limits.h`). -/
def INT_MAX : Int := 2147483647

/-- The C `BM_PageHandle`.  The pointer `data` always points at the data slot of a
frame; it is represented by the index of that frame. -/
structure BM_PageHandle where
  pageNum : PageNumber
  data : Nat
  deriving DecidableEq, Repr

/-- Modelled from the spec: the page-file collaborator `storage_mgr` (section 6.1), whose
source is not among the sources.  Every operation takes the file state and returns a
return code and the new file state; `readBlock` also takes the old bytes of the
destination buffer and returns its new bytes. -/
structure StorageMgr (σ : Type) where
  openPageFile : String → RC × σ
  closePageFile : σ → RC × σ
  ensureCapacity : Int → σ → RC × σ
  readBlock : PageNumber → σ → PageData → RC × σ × PageData
  writeBlock : PageNumber → σ → PageData → RC × σ

/-- The C `struct BM_MgmtData`. -/
structure BM_MgmtData (σ : Type) where
  fhandle : σ
  frames : List Frame
  frameContents : List PageNumber
  dirtyFlags : List Bool
  fixCounts : List Int
  tick : Int
  numReadIO : Int
  numWriteIO : Int
  clockHand : Nat

/-- The C `BM_BufferPool`; `mgmtData = none` is the null pointer of an
uninitialised (or shut down) pool. -/
structure BM_BufferPool (σ : Type) where
  pageFile : String
  numPages : Nat
  strategy : ReplacementStrategy
  mgmtData : Option (BM_MgmtData σ)

/-! ## Internal helpers -/

/-- First index, counted from `i`, of a frame satisfying `P`: the shape of the two
linear scans `findFrameByPageNP` and `findEmptyFrame`. -/
def scanFrom (P : Frame → Bool) : List Frame → Nat → Option Nat
  | [], _ => none
  | fr :: rest, i => if P fr then some i else scanFrom P rest (i + 1)

/-- Lines 64-69. -/
def findFrameByPageNP {σ : Type} (md : BM_MgmtData σ) (numPages : Nat) (p : PageNumber) :
    Option Nat :=
  scanFrom (fun fr => fr.pageNum == p) (md.frames.take numPages) 0

/-- Lines 72-76. -/
def sync_stats_slot {σ : Type} (md : BM_MgmtData σ) (idx : Nat) : BM_MgmtData σ :=
  { md with
    frameContents := md.frameContents.set idx (md.frames.getD idx default).pageNum
    dirtyFlags := md.dirtyFlags.set idx (md.frames.getD idx default).dirty
    fixCounts := md.fixCounts.set idx (md.frames.getD idx default).fixCount }

/-- Lines 79-82. -/
def ensure_page_exists {σ : Type} (pf : StorageMgr σ) (md : BM_MgmtData σ)
    (pageNum : PageNumber) : RC × BM_MgmtData σ :=
  ((pf.ensureCapacity (pageNum + 1) md.fhandle).1,
    { md with fhandle := (pf.ensureCapacity (pageNum + 1) md.fhandle).2 })

/-- Lines 85-101. -/
def writeBackIfDirty {σ : Type} (pf : StorageMgr σ) (md : BM_MgmtData σ) (fIdx : Nat) :
    RC × BM_MgmtData σ :=
  let fr := md.frames.getD fIdx default
  if fr.dirty then
    let r1 := ensure_page_exists pf md fr.pageNum
    if r1.1 ≠ RC.RC_OK then r1
    else
      let r2 := pf.writeBlock fr.pageNum r1.2.fhandle fr.data
      if r2.1 ≠ RC.RC_OK then (r2.1, { r1.2 with fhandle := r2.2 })
      else
        (RC.RC_OK,
          { r1.2 with
            fhandle := r2.2
            numWriteIO := BM_MgmtData.numWriteIO r1.2 + 1
            frames := r1.2.frames.set fIdx { fr with dirty := false }
            dirtyFlags := r1.2.dirtyFlags.set fIdx false })
  else (RC.RC_OK, md)

/-- Lines 104-110; the frame pointer is given by its index. -/
def record_access {σ : Type} (md : BM_MgmtData σ) (idx : Nat) : BM_MgmtData σ :=
  let fr := md.frames.getD idx default
  let t := md.tick + 1
  { md with
    tick := t
    frames := md.frames.set idx
      { fr with
        accessTick := t
        hist0 := if fr.kPos = 0 then t else fr.hist0
        hist1 := if fr.kPos = 0 then fr.hist1 else t
        kPos := (fr.kPos + 1) % 2
        kCount := if fr.kCount < 2 then fr.kCount + 1 else fr.kCount
        ref := 1 } }

/-- Lines 113-120. -/
def victim_key (strategy : ReplacementStrategy) (fr : Frame) : Int :=
  match strategy with
  | .RS_FIFO => fr.loadTick
  | .RS_LRU => fr.accessTick
  | .RS_LRU_K => fr.accessTick
  | _ => fr.accessTick

/-- The `while (steps < 2 * n)` loop of `selectVictim` (lines 131-141); the first
argument is the number of iterations left, `2 * n - steps`. -/
def clockSweep {σ : Type} (n : Nat) : Nat → BM_MgmtData σ → Option Nat × BM_MgmtData σ
  | 0, md => (none, md)
  | left + 1, md =>
    let idx := md.clockHand
    let fr := md.frames.getD idx default
    let md1 := { md with clockHand := (md.clockHand + 1) % n }
    if fr.pageNum ≠ NO_PAGE ∧ fr.fixCount = 0 then
      if fr.ref = 0 then (some idx, md1)
      else clockSweep n left { md1 with frames := md1.frames.set idx { fr with ref := 0 } }
    else clockSweep n left md1

/-- The `for` loop of `selectVictim` (lines 146-158) from index `i` on, with the
current `best` and `bestKey`. -/
def keyScan (strategy : ReplacementStrategy) :
    List Frame → Nat → Option Nat → Int → Option Nat
  | [], _, best, _ => best
  | fr :: rest, i, best, bestKey =>
    if fr.fixCount = 0 ∧ fr.pageNum ≠ NO_PAGE then
      if best = none ∨ victim_key strategy fr < bestKey then
        keyScan strategy rest (i + 1) (some i) (victim_key strategy fr)
      else keyScan strategy rest (i + 1) best bestKey
    else keyScan strategy rest (i + 1) best bestKey

/-- Lines 123-159.  The CLOCK sweep moves the hand and clears ref bits, so the
state is returned with the victim. -/
def selectVictim {σ : Type} (strategy : ReplacementStrategy) (numPages : Nat)
    (md : BM_MgmtData σ) : Option Nat × BM_MgmtData σ :=
  if strategy = .RS_CLOCK then
    if numPages = 0 then (none, md)
    else clockSweep numPages (2 * numPages) md
  else (keyScan strategy (md.frames.take numPages) 0 none 0, md)

/-- Lines 162-167. -/
def findEmptyFrame {σ : Type} (md : BM_MgmtData σ) (numPages : Nat) : Option Nat :=
  scanFrom (fun fr => fr.pageNum == NO_PAGE) (md.frames.take numPages) 0

/-- Lines 170-194. -/
def readPageIntoFrame {σ : Type} (pf : StorageMgr σ) (md : BM_MgmtData σ) (fIdx : Nat)
    (p : PageNumber) : RC × BM_MgmtData σ :=
  let r1 := ensure_page_exists pf md p
  if r1.1 ≠ RC.RC_OK then r1
  else
    let fr := r1.2.frames.getD fIdx default
    let r2 := pf.readBlock p r1.2.fhandle fr.data
    let md2 : BM_MgmtData σ :=
      { r1.2 with fhandle := r2.2.1, frames := r1.2.frames.set fIdx { fr with data := r2.2.2 } }
    if r2.1 ≠ RC.RC_OK then (r2.1, md2)
    else
      let t := md2.tick + 1
      let md3 : BM_MgmtData σ :=
        { md2 with
          numReadIO := md2.numReadIO + 1
          tick := t
          frames := md2.frames.set fIdx
            { pageNum := p, fixCount := 0, dirty := false, data := r2.2.2, loadTick := t,
              accessTick := t, ref := 1, hist0 := 0, hist1 := 0, kCount := 0, kPos := 0 } }
      (RC.RC_OK, sync_stats_slot md3 fIdx)

/-! ## Public operations -/

/-- Lines 198-272.  `bm` is the caller's pool structure; `allocOk` tells whether
`calloc` / `malloc` succeed; `mem i` is the (uninitialised) content of data slot `i` of
the fresh `frameMem` block. -/
def initBufferPool {σ : Type} (pf : StorageMgr σ) (bm : BM_BufferPool σ)
    (pageFileName : String) (numPages : Nat) (strategy : ReplacementStrategy)
    (allocOk : Bool) (mem : Nat → PageData) : RC × BM_BufferPool σ :=
  let r := pf.openPageFile pageFileName
  if r.1 ≠ RC.RC_OK then (RC.RC_FILE_NOT_FOUND, bm)
  else if allocOk = false then (RC.RC_WRITE_FAILED, bm)
  else
    (RC.RC_OK,
      { pageFile := pageFileName
        numPages := numPages
        strategy := strategy
        mgmtData := some
          { fhandle := r.2
            tick := 0
            numReadIO := 0
            numWriteIO := 0
            clockHand := 0
            frames := (List.range numPages).map fun i => Frame.empty (mem i)
            frameContents := List.replicate numPages NO_PAGE
            dirtyFlags := List.replicate numPages false
            fixCounts := List.replicate numPages 0 } })

/-- The loop of `shutdownBufferPool` (lines 285-295) from index `i` on; `todo` is the
number of iterations left. -/
def shutdownLoop {σ : Type} (pf : StorageMgr σ) :
    Nat → Nat → BM_MgmtData σ → RC × BM_MgmtData σ
  | 0, _, md => (RC.RC_OK, md)
  | todo + 1, i, md =>
    let fr := md.frames.getD i default
    if fr.pageNum ≠ NO_PAGE ∧ fr.dirty = true then
      let r := writeBackIfDirty pf md i
      if r.1 ≠ RC.RC_OK then r else shutdownLoop pf todo (i + 1) r.2
    else shutdownLoop pf todo (i + 1) md

/-- Lines 274-320.  Returns the code, the pool and, when the pool was released, the
page file as `closePageFile` leaves it (the pool no longer refers to it then). -/
def shutdownBufferPool {σ : Type} (pf : StorageMgr σ) (bm : BM_BufferPool σ) :
    RC × BM_BufferPool σ × Option σ :=
  match bm.mgmtData with
  | none => (RC.RC_FILE_HANDLE_NOT_INIT, bm, none)
  | some md =>
    let r := shutdownLoop pf bm.numPages 0 md
    if r.1 ≠ RC.RC_OK then (r.1, { bm with mgmtData := some r.2 }, none)
    else
      let c := pf.closePageFile r.2.fhandle
      if c.1 ≠ RC.RC_OK then
        (c.1, { bm with mgmtData := some { r.2 with fhandle := c.2 } }, none)
      else (RC.RC_OK, { bm with mgmtData := none }, some c.2)

/-- The loop of `forceFlushPool` (lines 328-336) from index `i` on; `todo` is the
number of iterations left. -/
def flushLoop {σ : Type} (pf : StorageMgr σ) : Nat → Nat → BM_MgmtData σ → RC × BM_MgmtData σ
  | 0, _, md => (RC.RC_OK, md)
  | todo + 1, i, md =>
    let fr := md.frames.getD i default
    if fr.pageNum ≠ NO_PAGE ∧ fr.dirty = true ∧ fr.fixCount = 0 then
      let r := writeBackIfDirty pf md i
      if r.1 ≠ RC.RC_OK then r else flushLoop pf todo (i + 1) r.2
    else flushLoop pf todo (i + 1) md

/-- Lines 322-338. -/
def forceFlushPool {σ : Type} (pf : StorageMgr σ) (bm : BM_BufferPool σ) :
    RC × BM_BufferPool σ :=
  match bm.mgmtData with
  | none => (RC.RC_FILE_HANDLE_NOT_INIT, bm)
  | some md =>
    let r := flushLoop pf bm.numPages 0 md
    (r.1, { bm with mgmtData := some r.2 })

/-- Lines 340-353; `page = none` is the null handle. -/
def markDirty {σ : Type} (bm : BM_BufferPool σ) (page : Option BM_PageHandle) :
    RC × BM_BufferPool σ :=
  match bm.mgmtData with
  | none => (RC.RC_FILE_HANDLE_NOT_INIT, bm)
  | some md =>
    match page with
    | none => (RC.RC_READ_NON_EXISTING_PAGE, bm)
    | some h =>
      match findFrameByPageNP md bm.numPages h.pageNum with
      | none => (RC.RC_READ_NON_EXISTING_PAGE, bm)
      | some f =>
        (RC.RC_OK,
          { bm with
            mgmtData := some
              { md with
                frames := md.frames.set f { md.frames.getD f default with dirty := true }
                dirtyFlags := md.dirtyFlags.set f true } })

/-- Lines 355-371. -/
def unpinPage {σ : Type} (bm : BM_BufferPool σ) (page : Option BM_PageHandle) :
    RC × BM_BufferPool σ :=
  match bm.mgmtData with
  | none => (RC.RC_FILE_HANDLE_NOT_INIT, bm)
  | some md =>
    match page with
    | none => (RC.RC_READ_NON_EXISTING_PAGE, bm)
    | some h =>
      match findFrameByPageNP md bm.numPages h.pageNum with
      | none => (RC.RC_READ_NON_EXISTING_PAGE, bm)
      | some f =>
        let fr := md.frames.getD f default
        if fr.fixCount ≤ 0 then (RC.RC_READ_NON_EXISTING_PAGE, bm)
        else
          (RC.RC_OK,
            { bm with
              mgmtData := some
                { md with
                  frames := md.frames.set f { fr with fixCount := fr.fixCount - 1 }
                  fixCounts := md.fixCounts.set f (fr.fixCount - 1) } })

/-- Lines 373-396. -/
def forcePage {σ : Type} (pf : StorageMgr σ) (bm : BM_BufferPool σ)
    (page : Option BM_PageHandle) : RC × BM_BufferPool σ :=
  match bm.mgmtData with
  | none => (RC.RC_FILE_HANDLE_NOT_INIT, bm)
  | some md =>
    match page with
    | none => (RC.RC_READ_NON_EXISTING_PAGE, bm)
    | some h =>
      match findFrameByPageNP md bm.numPages h.pageNum with
      | none => (RC.RC_READ_NON_EXISTING_PAGE, bm)
      | some f =>
        let fr := md.frames.getD f default
        let r1 := ensure_page_exists pf md fr.pageNum
        if r1.1 ≠ RC.RC_OK then (r1.1, { bm with mgmtData := some r1.2 })
        else
          let r2 := pf.writeBlock fr.pageNum r1.2.fhandle fr.data
          let md2 : BM_MgmtData σ := { r1.2 with fhandle := r2.2 }
          if r2.1 ≠ RC.RC_OK then (r2.1, { bm with mgmtData := some md2 })
          else if fr.dirty then
            (RC.RC_OK,
              { bm with
                mgmtData := some
                  { md2 with
                    numWriteIO := md2.numWriteIO + 1
                    frames := md2.frames.set f { fr with dirty := false }
                    dirtyFlags := md2.dirtyFlags.set f false } })
          else (RC.RC_OK, { bm with mgmtData := some md2 })

/-- The hit path of `pinPage` (lines 408-411) on frame `f`.  The unguarded `fixCount++`
adds 1 to the count; the `int` field holds `Frame.cFixCount` of it, so that a count of
`INT_MAX + 1` is stored as `-2147483648`. -/
def pinHit {σ : Type} (md : BM_MgmtData σ) (f : Nat) : BM_MgmtData σ :=
  let fr := md.frames.getD f default
  record_access
    { md with
      frames := md.frames.set f { fr with fixCount := fr.fixCount + 1 }
      fixCounts := md.fixCounts.set f (fr.fixCount + 1) } f

/-- The choice of the target frame in `pinPage` (lines 419-429): an empty frame, else
a victim, written back when dirty.  The code is `RC_OK` exactly when loading goes on;
the index is the value of `target`. -/
def pickTarget {σ : Type} (pf : StorageMgr σ) (strategy : ReplacementStrategy)
    (numPages : Nat) (md : BM_MgmtData σ) : RC × Option Nat × BM_MgmtData σ :=
  match findEmptyFrame md numPages with
  | some target => (RC.RC_OK, some target, md)
  | none =>
    match selectVictim strategy numPages md with
    | (none, md1) => (RC.RC_WRITE_FAILED, none, md1)
    | (some target, md1) =>
      ((writeBackIfDirty pf md1 target).1, some target, (writeBackIfDirty pf md1 target).2)

/-- Loading and pinning in `pinPage` (lines 432-445). -/
def pinLoad {σ : Type} (pf : StorageMgr σ) (md : BM_MgmtData σ) (target : Nat)
    (pageNum : PageNumber) : RC × BM_MgmtData σ :=
  let r := readPageIntoFrame pf md target pageNum
  if r.1 ≠ RC.RC_OK then r
  else
    let md1 : BM_MgmtData σ :=
      { r.2 with
        frames := r.2.frames.set target { r.2.frames.getD target default with fixCount := 1 }
        fixCounts := r.2.fixCounts.set target 1 }
    (RC.RC_OK, sync_stats_slot (record_access md1 target) target)

/-- Lines 398-447.  Returns the code, the pool and the caller's handle. -/
def pinPage {σ : Type} (pf : StorageMgr σ) (bm : BM_BufferPool σ)
    (page : Option BM_PageHandle) (pageNum : PageNumber) :
    RC × BM_BufferPool σ × Option BM_PageHandle :=
  match bm.mgmtData with
  | none => (RC.RC_FILE_HANDLE_NOT_INIT, bm, page)
  | some md =>
    if pageNum < 0 then (RC.RC_READ_NON_EXISTING_PAGE, bm, page)
    else
      match page with
      | none => (RC.RC_READ_NON_EXISTING_PAGE, bm, page)
      | some h =>
        match findFrameByPageNP md bm.numPages pageNum with
        | some f =>
          (RC.RC_OK, { bm with mgmtData := some (pinHit md f) },
            some { pageNum := pageNum, data := f })
        | none =>
          match pickTarget pf bm.strategy bm.numPages md with
          | (_, none, md1) => (RC.RC_WRITE_FAILED, { bm with mgmtData := some md1 }, some h)
          | (rc, some target, md1) =>
            if rc ≠ RC.RC_OK then (rc, { bm with mgmtData := some md1 }, some h)
            else
              let r := pinLoad pf md1 target pageNum
              if r.1 ≠ RC.RC_OK then (r.1, { bm with mgmtData := some r.2 }, some h)
              else
                (RC.RC_OK, { bm with mgmtData := some r.2 },
                  some { pageNum := pageNum, data := target })

/-! ## Statistics interface (lines 451-465)

Each getter dereferences `mgmtData`; on an uninitialised pool (undefined in C) the
model returns an empty array or zero. -/

def getFrameContents {σ : Type} (bm : BM_BufferPool σ) : List PageNumber :=
  match bm.mgmtData with
  | some md => md.frameContents
  | none => []

def getDirtyFlags {σ : Type} (bm : BM_BufferPool σ) : List Bool :=
  match bm.mgmtData with
  | some md => md.dirtyFlags
  | none => []

def getFixCounts {σ : Type} (bm : BM_BufferPool σ) : List Int :=
  match bm.mgmtData with
  | some md => md.fixCounts
  | none => []

def getNumReadIO {σ : Type} (bm : BM_BufferPool σ) : Int :=
  match bm.mgmtData with
  | some md => md.numReadIO
  | none => 0

def getNumWriteIO {σ : Type} (bm : BM_BufferPool σ) : Int :=
  match bm.mgmtData with
  | some md => md.numWriteIO
  | none => 0

/-! ## Traces of calls -/

/-- One call of a client on an initialised pool.  `write f bytes` is the client
storing `bytes` through a handle whose `data` points at slot `f`. -/
inductive Op where
  | pin (page : Option BM_PageHandle) (pageNum : PageNumber)
  | unpin (page : Option BM_PageHandle)
  | dirty (page : Option BM_PageHandle)
  | force (page : Option BM_PageHandle)
  | flush
  | write (f : Nat) (bytes : PageData)
  deriving DecidableEq, Repr

/-- The client's store through a `data` pointer into slot `f`. -/
def writeData {σ : Type} (bm : BM_BufferPool σ) (f : Nat) (bytes : PageData) :
    BM_BufferPool σ :=
  match bm.mgmtData with
  | none => bm
  | some md =>
    { bm with
      mgmtData := some
        { md with frames := md.frames.set f { md.frames.getD f default with data := bytes } } }

/-- The return code and the pool after one call. -/
def step {σ : Type} (pf : StorageMgr σ) (bm : BM_BufferPool σ) : Op → RC × BM_BufferPool σ
  | .pin page pageNum => ((pinPage pf bm page pageNum).1, (pinPage pf bm page pageNum).2.1)
  | .unpin page => unpinPage bm page
  | .dirty page => markDirty bm page
  | .force page => forcePage pf bm page
  | .flush => forceFlushPool pf bm
  | .write f bytes => (RC.RC_OK, writeData bm f bytes)

/-- The pool after a sequence of calls. -/
def run {σ : Type} (pf : StorageMgr σ) : BM_BufferPool σ → List Op → BM_BufferPool σ
  | bm, [] => bm
  | bm, op :: ops => run pf (step pf bm op).2 ops

/-- A pool is reachable when it results from a successful `initBufferPool` followed by
any sequence of calls, successful or not. -/
def Reachable {σ : Type} (pf : StorageMgr σ) (bm : BM_BufferPool σ) : Prop :=
  ∃ (bm0 : BM_BufferPool σ) (name : String) (n : Nat) (s : ReplacementStrategy)
    (mem : Nat → PageData) (ops : List Op),
    (initBufferPool pf bm0 name n s true mem).1 = RC.RC_OK ∧
      bm = run pf (initBufferPool pf bm0 name n s true mem).2 ops

/-! ## An ideal page file -/

/-- An ideal page file: the blocks written so far, newest first. -/
structure IdealFile where
  blocks : List (PageNumber × PageData)
  deriving DecidableEq, Repr

/-- The bytes of page `p`: the block written last, zeros when never written. -/
def IdealFile.page (pageSize : Nat) (d : IdealFile) (p : PageNumber) : PageData :=
  match d.blocks.find? (fun b => b.1 == p) with
  | some b => b.2
  | none => List.replicate pageSize 0

/-- A page file all of whose operations succeed, `readBlock` returning the bytes
stored last by `writeBlock` and zeros for a page never written. -/
def idealFile (pageSize : Nat) : StorageMgr IdealFile where
  openPageFile := fun _ => (RC.RC_OK, { blocks := [] })
  closePageFile := fun d => (RC.RC_OK, d)
  ensureCapacity := fun _ d => (RC.RC_OK, d)
  readBlock := fun p d _ => (RC.RC_OK, d, d.page pageSize p)
  writeBlock := fun p d bytes => (RC.RC_OK, { blocks := (p, bytes) :: d.blocks })

/-! ## Invariants -/

/-- Frame-table invariants (I1), (I2) of the specification. -/
structure FramesOK (l : List Frame) : Prop where
  uniq : ∀ (i j : Nat) (fi fj : Frame), l[i]? = some fi → l[j]? = some fj → fi.pageNum = fj.pageNum →
    fi.pageNum ≠ NO_PAGE → i = j
  emptyFix : ∀ (i : Nat) (fr : Frame), l[i]? = some fr → fr.pageNum = NO_PAGE → fr.fixCount = 0
  nonneg : ∀ (i : Nat) (fr : Frame), l[i]? = some fr → 0 ≤ fr.fixCount

/-- The invariant of an initialised pool of `n` frames. -/
structure Inv {σ : Type} (n : Nat) (md : BM_MgmtData σ) : Prop where
  len : md.frames.length = n
  contents : md.frameContents = md.frames.map (fun fr => fr.pageNum)
  dirtyF : md.dirtyFlags = md.frames.map (fun fr => fr.dirty)
  fixC : md.fixCounts = md.frames.map (fun fr => fr.fixCount)
  hand : n ≠ 0 → md.clockHand < n
  ok : FramesOK md.frames


/-- A frame is a candidate for eviction when it is resident and unpinned. -/
def Frame.evictable (fr : Frame) : Prop := fr.pageNum ≠ NO_PAGE ∧ fr.fixCount = 0

instance (fr : Frame) : Decidable fr.evictable := by
  unfold Frame.evictable
  exact inferInstance

/-- The frame with its CLOCK reference bit cleared. -/
def Frame.clearRef (fr : Frame) : Frame := { fr with ref := 0 }

/-- The frames `l2` are the frames `l1` with the reference bits of some evictable
frames cleared. -/
def RefCleared (l1 l2 : List Frame) : Prop :=
  ∀ j : Nat, l2[j]? = l1[j]? ∨
    ∃ fr : Frame, l1[j]? = some fr ∧ fr.evictable ∧ l2[j]? = some fr.clearRef

/-- An initialised pool whose management data satisfies the invariant. -/
def PoolInv {σ : Type} (bm : BM_BufferPool σ) : Prop :=
  ∃ md, bm.mgmtData = some md ∧ Inv bm.numPages md

/-- A frame that `forceFlushPool` writes back: resident, dirty and unpinned. -/
def Frame.flushable (fr : Frame) : Prop :=
  fr.pageNum ≠ NO_PAGE ∧ fr.dirty = true ∧ fr.fixCount = 0

instance (fr : Frame) : Decidable fr.flushable := by
  unfold Frame.flushable
  exact inferInstance

/-! ## Auxiliary definitions for the statements -/

/-- The file state after the `ensureCapacity` and `readBlock` calls of a load of page
`p` into slot `t`. -/
def loadedFile {σ : Type} (pf : StorageMgr σ) (md : BM_MgmtData σ) (t : Nat)
    (p : PageNumber) : σ :=
  (pf.readBlock p (pf.ensureCapacity (p + 1) md.fhandle).2
    (md.frames.getD t default).data).2.1

/-- The bytes that the `readBlock` call of a load of page `p` leaves in slot `t`. -/
def loadedBytes {σ : Type} (pf : StorageMgr σ) (md : BM_MgmtData σ) (t : Nat)
    (p : PageNumber) : PageData :=
  (pf.readBlock p (pf.ensureCapacity (p + 1) md.fhandle).2
    (md.frames.getD t default).data).2.2

/-- The frame that a successful miss of `pinPage` installs: page `p` with bytes `d`,
loaded at tick `tick + 1` and accessed at tick `tick + 2`, pinned once. -/
def pinnedFrame (p : PageNumber) (d : PageData) (tick : Int) : Frame :=
  { pageNum := p, fixCount := 1, dirty := false, data := d, loadTick := tick + 1,
    accessTick := tick + 2, ref := 1, hist0 := tick + 2, hist1 := 0, kCount := 1, kPos := 1 }

/-- The file state after the `ensureCapacity` and `writeBlock` calls that write frame
`i` back. -/
def writtenFile {σ : Type} (pf : StorageMgr σ) (md : BM_MgmtData σ) (i : Nat) : σ :=
  (pf.writeBlock (md.frames.getD i default).pageNum
    (pf.ensureCapacity ((md.frames.getD i default).pageNum + 1) md.fhandle).2
    (md.frames.getD i default).data).2

/-- The frame `fr` after a hit of `pinPage` at tick `tick`: one more pin, and the access
recorded. -/
def hitFrame (fr : Frame) (tick : Int) : Frame :=
  { fr with
    fixCount := fr.fixCount + 1
    accessTick := tick + 1
    hist0 := if fr.kPos = 0 then tick + 1 else fr.hist0
    hist1 := if fr.kPos = 0 then fr.hist1 else tick + 1
    kPos := (fr.kPos + 1) % 2
    kCount := if fr.kCount < 2 then fr.kCount + 1 else fr.kCount
    ref := 1 }

/-! ## Concrete pools used as examples -/

/-- A caller's pool structure before `initBufferPool`. -/
def blankPool : BM_BufferPool IdealFile :=
  { pageFile := "", numPages := 0, strategy := .RS_FIFO, mgmtData := none }

/-- A fresh pool of `n` frames over an empty ideal page file with pages of 4 bytes. -/
def freshPool (n : Nat) (s : ReplacementStrategy) : BM_BufferPool IdealFile :=
  (initBufferPool (idealFile 4) blankPool "pages.bin" n s true (fun _ => [])).2

/-- The calls "pin page `p`, then unpin it". -/
def pinUnpin (p : PageNumber) : List Op :=
  [.pin (some { pageNum := 0, data := 0 }) p, .unpin (some { pageNum := p, data := 0 })]

/-- The management data of an initialised pool (of a blank one when uninitialised). -/
def mgmtOf {σ : Type} (bm : BM_BufferPool σ) (x : σ) : BM_MgmtData σ :=
  match bm.mgmtData with
  | some md => md
  | none =>
    { fhandle := x, frames := [], frameContents := [], dirtyFlags := [], fixCounts := [],
      tick := 0, numReadIO := 0, numWriteIO := 0, clockHand := 0 }

/-- The frames of a pool (none when uninitialised). -/
def framesOf {σ : Type} (bm : BM_BufferPool σ) : List Frame :=
  match bm.mgmtData with
  | some md => md.frames
  | none => []

/-- A miss of `pinPage` evicts a dirty victim: no frame is empty and the frame that
`selectVictim` returns is dirty. -/
def evictsDirty {σ : Type} (s : ReplacementStrategy) (n : Nat) (md : BM_MgmtData σ) : Prop :=
  findEmptyFrame md n = none ∧
    ∃ v, (selectVictim s n md).1 = some v ∧ (md.frames.getD v default).dirty = true

instance {σ : Type} (s : ReplacementStrategy) (n : Nat) (md : BM_MgmtData σ) :
    Decidable (evictsDirty s n md) := by
  unfold evictsDirty
  cases h : (selectVictim s n md).1 with
  | none => exact isFalse (by rintro ⟨_, v, hv, _⟩; cases hv)
  | some v =>
    exact decidable_of_iff
      (findEmptyFrame md n = none ∧ (md.frames.getD v default).dirty = true)
      ⟨fun ⟨a, b⟩ => ⟨a, v, rfl, b⟩, fun ⟨a, w, hw, b⟩ => ⟨a, by cases hw; exact b⟩⟩

/-- Reference definition of the victim of a tick-based policy: frame `v` of `l` is
evictable, no evictable frame has a smaller key, and every evictable frame before it has
a strictly larger key (so `v` is the lowest index among the evictable frames of minimal
key). -/
def IsFirstMin (key : Frame → Int) (l : List Frame) (v : Nat) : Prop :=
  ∃ fr, l[v]? = some fr ∧ fr.evictable ∧
    ∀ (j : Nat) (fj : Frame), l[j]? = some fj → fj.evictable →
      key fr ≤ key fj ∧ (j < v → key fr < key fj)

/-- The pool of 2 under CLOCK after pin+unpin 0, pin+unpin 1, re-pin+unpin 0: both
frames are resident and unpinned with their reference bits set, the hand is at 0. -/
def clockExample : BM_MgmtData IdealFile :=
  mgmtOf (run (idealFile 4) (freshPool 2 .RS_CLOCK) (pinUnpin 0 ++ pinUnpin 1 ++ pinUnpin 0))
    { blocks := [] }

/-- The pool of 1 frame under LRU after pin 0, markDirty, unpin: page 0 is resident,
dirty and unpinned. -/
def dirtyExample : BM_BufferPool IdealFile :=
  run (idealFile 4) (freshPool 1 .RS_LRU)
    [Op.pin (some { pageNum := 0, data := 0 }) 0, Op.dirty (some { pageNum := 0, data := 0 }),
      Op.unpin (some { pageNum := 0, data := 0 })]

/-- A call that concerns a page other than `p`: a `pinPage` of another page or an
`unpinPage` with a handle of another page (or with no handle). -/
def Op.avoids (p : PageNumber) : Op → Prop
  | .pin _ q => q ≠ p
  | .unpin (some h) => h.pageNum ≠ p
  | .unpin none => True
  | _ => False

instance (p : PageNumber) (op : Op) : Decidable (op.avoids p) := by
  cases op with
  | pin page q => exact inferInstanceAs (Decidable (q ≠ p))
  | unpin page =>
    cases page with
    | none => exact isTrue trivial
    | some h => exact inferInstanceAs (Decidable (h.pageNum ≠ p))
  | dirty page => exact isFalse (fun h => h)
  | force page => exact isFalse (fun h => h)
  | flush => exact isFalse (fun h => h)
  | write f bytes => exact isFalse (fun h => h)

/-- The bytes `b` of page `p` are safe in a pool over an ideal page file: either a frame
holds page `p` with bytes `b` and is dirty or agrees with the file, or no frame holds `p`
and the file has `b` for it. -/
def Keeps (pageSize : Nat) (p : PageNumber) (b : PageData) (md : BM_MgmtData IdealFile) :
    Prop :=
  (∃ (f : Nat) (fr : Frame), md.frames[f]? = some fr ∧ fr.pageNum = p ∧ fr.data = b ∧
      (fr.dirty = true ∨ md.fhandle.page pageSize p = b)) ∨
    ((∀ fr ∈ md.frames, fr.pageNum ≠ p) ∧ md.fhandle.page pageSize p = b)

/-- The pool is initialised, satisfies the invariant and keeps the bytes `b` of `p` safe. -/
def KeepsPool (pageSize : Nat) (p : PageNumber) (b : PageData) (bm : BM_BufferPool IdealFile) :
    Prop :=
  ∃ md, bm.mgmtData = some md ∧ Inv bm.numPages md ∧ Keeps pageSize p b md

/-! ## Scenario pools -/

/-- The pool of 1 frame of the dirty write-back scenario after its first five calls:
pin 0, store the byte 'A' (65) in `data[0]`, markDirty, unpin, pin 1. -/
def dirtyWriteBack (s : ReplacementStrategy) : BM_BufferPool IdealFile :=
  run (idealFile 4) (freshPool 1 s)
    [Op.pin (some { pageNum := 0, data := 0 }) 0, Op.write 0 [65, 0, 0, 0],
      Op.dirty (some { pageNum := 0, data := 0 }), Op.unpin (some { pageNum := 0, data := 0 }),
      Op.pin (some { pageNum := 0, data := 0 }) 1]

/-- The pool of 2 frames under LRU after pin 0, store 'A' in `data[0]`, markDirty, pin 1:
frame 0 holds page 0, pinned and dirty, frame 1 holds page 1, pinned and clean; nothing
was written to the page file. -/
def pinnedDirtyExample : BM_BufferPool IdealFile :=
  run (idealFile 4) (freshPool 2 .RS_LRU)
    [Op.pin (some { pageNum := 0, data := 0 }) 0, Op.write 0 [65, 0, 0, 0],
      Op.dirty (some { pageNum := 0, data := 0 }), Op.pin (some { pageNum := 0, data := 0 }) 1]

/-! ## Blocks written by a shutdown -/

/-- The blocks `(pageNum, bytes)` of the resident dirty frames of `l`, in frame order. -/
def dirtyBlocks (l : List Frame) : List (PageNumber × PageData) :=
  (l.filter (fun fr => decide (fr.pageNum ≠ NO_PAGE ∧ fr.dirty = true))).map
    (fun fr => (fr.pageNum, fr.data))

/-- The blocks `(pageNum, bytes)` of the flushable frames of `l`, in frame order. -/
def flushBlocks (l : List Frame) : List (PageNumber × PageData) :=
  (l.filter (fun fr => decide fr.flushable)).map (fun fr => (fr.pageNum, fr.data))

/-! ## Error codes of the page file -/

/-- The code that writing frame `fr` back to the file `x` returns: the code of
`ensureCapacity` when that fails, else the code of `writeBlock`. -/
def writeBackCode {σ : Type} (pf : StorageMgr σ) (x : σ) (fr : Frame) : RC :=
  if (pf.ensureCapacity (fr.pageNum + 1) x).1 ≠ RC.RC_OK then
    (pf.ensureCapacity (fr.pageNum + 1) x).1
  else (pf.writeBlock fr.pageNum (pf.ensureCapacity (fr.pageNum + 1) x).2 fr.data).1

/-- The code that loading page `p` from the file `x` into a buffer holding `d` returns:
the code of `ensureCapacity` when that fails, else the code of `readBlock`. -/
def loadCode {σ : Type} (pf : StorageMgr σ) (x : σ) (p : PageNumber) (d : PageData) : RC :=
  if (pf.ensureCapacity (p + 1) x).1 ≠ RC.RC_OK then (pf.ensureCapacity (p + 1) x).1
  else (pf.readBlock p (pf.ensureCapacity (p + 1) x).2 d).1

/-- A page file like the ideal one (pages of 4 bytes) on which every `writeBlock` fails
with code 3 and `readBlock` of page 9 fails with code 4. -/
def faultyFile : StorageMgr IdealFile where
  openPageFile := fun _ => (RC.RC_OK, { blocks := [] })
  closePageFile := fun d => (RC.RC_OK, d)
  ensureCapacity := fun _ d => (RC.RC_OK, d)
  readBlock := fun p d bytes =>
    if p = 9 then (RC.other 4, d, bytes) else (RC.RC_OK, d, d.page 4 p)
  writeBlock := fun _ d _ => (RC.other 3, d)

/-- A pool of `n` frames over the faulty page file after the calls `ops`. -/
def faultyPool (n : Nat) (s : ReplacementStrategy) (ops : List Op) : BM_BufferPool IdealFile :=
  run faultyFile (initBufferPool faultyFile blankPool "pages.bin" n s true (fun _ => [])).2 ops

/-! ## Empty frames -/

/-- The empty frames of `l` form a suffix: every frame after an empty one is empty. -/
def EmptySuffix (l : List Frame) : Prop :=
  ∀ (i j : Nat) (fi fj : Frame), i < j → l[i]? = some fi → l[j]? = some fj →
    fi.pageNum = NO_PAGE → fj.pageNum = NO_PAGE

/-! ## Runs within the range of `int` -/

/-- No frame of the pool has a count of outstanding pins past `INT_MAX`, so every field
`int fixCount` holds its count. -/
def IntRange {σ : Type} (bm : BM_BufferPool σ) : Prop :=
  ∀ fr ∈ framesOf bm, fr.fixCount ≤ INT_MAX

instance {σ : Type} (bm : BM_BufferPool σ) : Decidable (IntRange bm) :=
  inferInstanceAs (Decidable (∀ fr ∈ framesOf bm, fr.fixCount ≤ INT_MAX))

/-- Every pool met while the calls `ops` run from `bm`, the first and the last included,
is within the range of `int`: no `fixCount++` has overflowed. -/
def staysInRange {σ : Type} (pf : StorageMgr σ) : BM_BufferPool σ → List Op → Prop
  | bm, [] => IntRange bm
  | bm, op :: ops => IntRange bm ∧ staysInRange pf (step pf bm op).2 ops

instance decStaysInRange {σ : Type} (pf : StorageMgr σ) :
    (bm : BM_BufferPool σ) → (ops : List Op) → Decidable (staysInRange pf bm ops)
  | bm, [] => inferInstanceAs (Decidable (IntRange bm))
  | bm, op :: ops =>
    @instDecidableAnd _ _ (inferInstanceAs (Decidable (IntRange bm)))
      (decStaysInRange pf (step pf bm op).2 ops)

/-! ## Lists and scans -/

theorem getD_set_self {α : Type} (l : List α) (i : Nat) (a d : α) (h : i < l.length) :
    (l.set i a).getD i d = a := by
  simp [List.getElem?_set, h]

theorem set_getD_self {α : Type} (l : List α) (i : Nat) (d : α) :
    l.set i (l.getD i d) = l := by
  apply List.ext_getElem?
  intro j
  by_cases h : i = j
  · subst h
    by_cases hi : i < l.length
    · simp [List.getElem?_set, hi]
    · simp [List.getElem?_set, hi]
      omega
  · simp [List.getElem?_set, h]

theorem scanFrom_none (P : Frame → Bool) (l : List Frame) (i : Nat) :
    scanFrom P l i = none ↔ ∀ fr ∈ l, P fr = false := by
  induction l generalizing i with
  | nil => simp [scanFrom]
  | cons a l ih =>
    by_cases h : P a <;> simp [scanFrom, h, ih]

theorem scanFrom_some (P : Frame → Bool) (l : List Frame) (i k : Nat) :
    scanFrom P l i = some k ↔
      ∃ j fr, k = i + j ∧ l[j]? = some fr ∧ P fr = true ∧
        ∀ j' fr', j' < j → l[j']? = some fr' → P fr' = false := by
  induction l generalizing i with
  | nil => simp [scanFrom]
  | cons a l ih =>
    by_cases h : P a
    · simp only [scanFrom, h, if_true, Option.some.injEq]
      constructor
      · intro hk
        exact ⟨0, a, by omega, by simp, h, by intro j' fr' hj; omega⟩
      · rintro ⟨j, fr, hk, hj, hP, hmin⟩
        cases j with
        | zero => omega
        | succ j =>
          have := hmin 0 a (by omega) (by simp)
          simp [h] at this
    · have hf : P a = false := by simpa using h
      simp only [scanFrom, hf, ih]
      simp only [Bool.false_eq_true, if_false]
      rw [ih]
      constructor
      · rintro ⟨j, fr, hk, hj, hP, hmin⟩
        refine ⟨j + 1, fr, by omega, by simpa using hj, hP, ?_⟩
        intro j' fr' hj' hfr'
        cases j' with
        | zero => simp at hfr'; subst hfr'; exact hf
        | succ j' => exact hmin j' fr' (by omega) (by simpa using hfr')
      · rintro ⟨j, fr, hk, hj, hP, hmin⟩
        cases j with
        | zero => simp at hj; subst hj; exact absurd hP h
        | succ j =>
          refine ⟨j, fr, by omega, by simpa using hj, hP, ?_⟩
          intro j' fr' hj' hfr'
          exact hmin (j' + 1) fr' (by omega) (by simpa using hfr')



theorem map_set_same {α β : Type} (f : α → β) (l : List α) (i : Nat) (a : α)
    (h : ∀ x, l[i]? = some x → f a = f x) : (l.set i a).map f = l.map f := by
  apply List.ext_getElem?
  intro j
  by_cases hij : i = j
  · subst hij
    by_cases hlt : i < l.length
    · have := h l[i] (List.getElem?_eq_getElem hlt)
      simp [List.getElem?_set, hlt, this]
    · have hle : l.length ≤ i := by omega
      simp [List.set_eq_of_length_le hle]
  · simp [List.getElem?_set, hij]

/-- Replacing frame `i` by a frame with the same page, or with a page held by no
other frame, keeps the frame-table invariants. -/
theorem FramesOK.set {l : List Frame} (h : FramesOK l) (i : Nat) (a : Frame)
    (hp : (∀ x, l[i]? = some x → a.pageNum = x.pageNum) ∨
      (∀ j x, l[j]? = some x → j ≠ i → x.pageNum ≠ a.pageNum))
    (he : a.pageNum = NO_PAGE → a.fixCount = 0) (hn : 0 ≤ a.fixCount) :
    FramesOK (l.set i a) := by
  constructor
  · intro j k fj fk hj hk hjk hne
    rw [List.getElem?_set] at hj hk
    by_cases hij : i = j
    · by_cases hik : i = k
      · omega
      · subst hij
        simp only [if_true, hik, if_false] at hj hk
        split at hj
        · cases hj
          rcases hp with hp | hp
          · cases hx : l[i]? with
            | none => simp at hx; omega
            | some x =>
              have := h.uniq i k x fk hx hk (by rw [← hp x hx]; exact hjk)
                (by rw [← hp x hx]; exact hne)
              omega
          · exact absurd hjk.symm (hp k fk hk (by omega))
        · cases hj
    · by_cases hik : i = k
      · subst hik
        simp only [if_true, hij, if_false] at hj hk
        split at hk
        · cases hk
          rcases hp with hp | hp
          · cases hx : l[i]? with
            | none => simp at hx; omega
            | some x =>
              have := h.uniq j i fj x hj hx (by rw [← hp x hx]; exact hjk) hne
              omega
          · exact absurd hjk (hp j fj hj (by omega))
        · cases hk
      · simp only [hij, hik, if_false] at hj hk
        exact h.uniq j k fj fk hj hk hjk hne
  · intro j fr hj hpn
    rw [List.getElem?_set] at hj
    split at hj
    · split at hj
      · cases hj; exact he hpn
      · cases hj
    · exact h.emptyFix j fr hj hpn
  · intro j fr hj
    rw [List.getElem?_set] at hj
    split at hj
    · split at hj
      · cases hj; exact hn
      · cases hj
    · exact h.nonneg j fr hj


theorem writeBackIfDirty_clean {σ : Type} (pf : StorageMgr σ) (md : BM_MgmtData σ) (i : Nat)
    (h : (md.frames.getD i default).dirty = false) :
    writeBackIfDirty pf md i = (RC.RC_OK, md) := by
  simp only [writeBackIfDirty, h]
  simp

theorem writeBackIfDirty_ok {σ : Type} (pf : StorageMgr σ) (md : BM_MgmtData σ) (i : Nat)
    (h : (md.frames.getD i default).dirty = true)
    (hrc : (writeBackIfDirty pf md i).1 = RC.RC_OK) :
    (writeBackIfDirty pf md i).2 =
      { md with
        fhandle := writtenFile pf md i
        numWriteIO := md.numWriteIO + 1
        frames := md.frames.set i { md.frames.getD i default with dirty := false }
        dirtyFlags := md.dirtyFlags.set i false } := by
  revert hrc
  simp only [writeBackIfDirty, h, ensure_page_exists, writtenFile]
  simp only [if_true]
  split
  · intro hrc; simp_all
  · split
    · intro hrc; simp_all
    · intro _; rfl

theorem writeBackIfDirty_fail {σ : Type} (pf : StorageMgr σ) (md : BM_MgmtData σ) (i : Nat)
    (hrc : (writeBackIfDirty pf md i).1 ≠ RC.RC_OK) :
    (md.frames.getD i default).dirty = true ∧
      ∃ x, (writeBackIfDirty pf md i).2 = { md with fhandle := x } := by
  cases hd : (md.frames.getD i default).dirty with
  | false => rw [writeBackIfDirty_clean pf md i hd] at hrc; exact absurd rfl hrc
  | true =>
    refine ⟨rfl, ?_⟩
    revert hrc
    simp only [writeBackIfDirty, hd, ensure_page_exists]
    simp only [if_true]
    split
    · intro _; exact ⟨_, rfl⟩
    · split
      · intro _; exact ⟨_, rfl⟩
      · intro hrc; exact absurd rfl hrc


theorem readPageIntoFrame_ensure_fail {σ : Type} (pf : StorageMgr σ) (md : BM_MgmtData σ)
    (t : Nat) (p : PageNumber) (h1 : (pf.ensureCapacity (p + 1) md.fhandle).1 ≠ RC.RC_OK) :
    readPageIntoFrame pf md t p =
      ((pf.ensureCapacity (p + 1) md.fhandle).1,
        { md with fhandle := (pf.ensureCapacity (p + 1) md.fhandle).2 }) := by
  dsimp only [readPageIntoFrame, ensure_page_exists]
  rw [if_pos h1]

theorem readPageIntoFrame_read_fail {σ : Type} (pf : StorageMgr σ) (md : BM_MgmtData σ)
    (t : Nat) (p : PageNumber) (h1 : (pf.ensureCapacity (p + 1) md.fhandle).1 = RC.RC_OK)
    (h2 : (pf.readBlock p (pf.ensureCapacity (p + 1) md.fhandle).2
      (md.frames.getD t default).data).1 ≠ RC.RC_OK) :
    readPageIntoFrame pf md t p =
      ((pf.readBlock p (pf.ensureCapacity (p + 1) md.fhandle).2
          (md.frames.getD t default).data).1,
        { md with
          fhandle := loadedFile pf md t p
          frames := md.frames.set t
            { md.frames.getD t default with data := loadedBytes pf md t p } }) := by
  dsimp only [readPageIntoFrame, ensure_page_exists, loadedFile, loadedBytes]
  rw [if_neg (not_not.mpr h1), if_pos h2]

theorem readPageIntoFrame_ok_eq {σ : Type} (pf : StorageMgr σ) (md : BM_MgmtData σ)
    (t : Nat) (p : PageNumber) (h1 : (pf.ensureCapacity (p + 1) md.fhandle).1 = RC.RC_OK)
    (h2 : (pf.readBlock p (pf.ensureCapacity (p + 1) md.fhandle).2
      (md.frames.getD t default).data).1 = RC.RC_OK) :
    readPageIntoFrame pf md t p =
      (RC.RC_OK,
        sync_stats_slot
          { md with
            fhandle := loadedFile pf md t p
            numReadIO := md.numReadIO + 1
            tick := md.tick + 1
            frames := md.frames.set t
              { pageNum := p, fixCount := 0, dirty := false, data := loadedBytes pf md t p,
                loadTick := md.tick + 1, accessTick := md.tick + 1, ref := 1, hist0 := 0,
                hist1 := 0, kCount := 0, kPos := 0 } } t) := by
  dsimp only [readPageIntoFrame, ensure_page_exists, loadedFile, loadedBytes]
  rw [if_neg (not_not.mpr h1), if_neg (not_not.mpr h2), List.set_set]

theorem readPageIntoFrame_fail {σ : Type} (pf : StorageMgr σ) (md : BM_MgmtData σ) (t : Nat)
    (p : PageNumber) (hrc : (readPageIntoFrame pf md t p).1 ≠ RC.RC_OK) :
    ∃ x d, (readPageIntoFrame pf md t p).2 =
      { md with
        fhandle := x
        frames := md.frames.set t { md.frames.getD t default with data := d } } := by
  by_cases h1 : (pf.ensureCapacity (p + 1) md.fhandle).1 = RC.RC_OK
  · by_cases h2 : (pf.readBlock p (pf.ensureCapacity (p + 1) md.fhandle).2
        (md.frames.getD t default).data).1 = RC.RC_OK
    · rw [readPageIntoFrame_ok_eq pf md t p h1 h2] at hrc
      exact absurd rfl hrc
    · rw [readPageIntoFrame_read_fail pf md t p h1 h2]
      exact ⟨_, _, rfl⟩
  · rw [readPageIntoFrame_ensure_fail pf md t p h1]
    refine ⟨(pf.ensureCapacity (p + 1) md.fhandle).2, (md.frames.getD t default).data, ?_⟩
    show _ = { md with fhandle := _, frames := md.frames.set t (md.frames.getD t default) }
    rw [set_getD_self]

theorem pinLoad_fail {σ : Type} (pf : StorageMgr σ) (md : BM_MgmtData σ) (t : Nat)
    (p : PageNumber) (hrc : (pinLoad pf md t p).1 ≠ RC.RC_OK) :
    (pinLoad pf md t p) = readPageIntoFrame pf md t p ∧
    ∃ x d, (pinLoad pf md t p).2 =
      { md with
        fhandle := x
        frames := md.frames.set t { md.frames.getD t default with data := d } } := by
  have hr : pinLoad pf md t p = readPageIntoFrame pf md t p ∨
      (pinLoad pf md t p).1 = RC.RC_OK := by
    simp only [pinLoad]
    split
    · exact Or.inl rfl
    · exact Or.inr rfl
  rcases hr with hr | hr
  · refine ⟨hr, ?_⟩
    rw [hr] at hrc ⊢
    exact readPageIntoFrame_fail pf md t p hrc
  · exact absurd hr hrc

theorem pinLoad_ok {σ : Type} (pf : StorageMgr σ) (md : BM_MgmtData σ) (n t : Nat)
    (p : PageNumber) (hinv : Inv n md) (hrc : (pinLoad pf md t p).1 = RC.RC_OK) :
    (pinLoad pf md t p).2 =
      { fhandle := loadedFile pf md t p
        frames := md.frames.set t (pinnedFrame p (loadedBytes pf md t p) md.tick)
        frameContents := md.frameContents.set t p
        dirtyFlags := md.dirtyFlags.set t false
        fixCounts := md.fixCounts.set t 1
        tick := md.tick + 2
        numReadIO := md.numReadIO + 1
        numWriteIO := md.numWriteIO
        clockHand := md.clockHand } := by
  by_cases h1 : (pf.ensureCapacity (p + 1) md.fhandle).1 = RC.RC_OK
  · by_cases h2 : (pf.readBlock p (pf.ensureCapacity (p + 1) md.fhandle).2
        (md.frames.getD t default).data).1 = RC.RC_OK
    · dsimp only [pinLoad]
      rw [readPageIntoFrame_ok_eq pf md t p h1 h2]
      dsimp only
      rw [if_neg (not_not.mpr rfl)]
      simp only [sync_stats_slot, record_access, List.set_set, pinnedFrame]
      have hc := hinv.contents
      have hd := hinv.dirtyF
      have hf := hinv.fixC
      by_cases ht : t < md.frames.length
      · have ht1 : t < md.frameContents.length := by rw [hc]; simpa using ht
        have ht2 : t < md.dirtyFlags.length := by rw [hd]; simpa using ht
        have ht3 : t < md.fixCounts.length := by rw [hf]; simpa using ht
        simp only [getD_set_self _ _ _ _ ht, List.set_set]
        have e : md.tick + 1 + 1 = md.tick + 2 := by ring
        simp only [e]
        rfl
      · have hle : md.frames.length ≤ t := by omega
        have ht1 : md.frameContents.length ≤ t := by rw [hc]; simpa using hle
        have ht2 : md.dirtyFlags.length ≤ t := by rw [hd]; simpa using hle
        have ht3 : md.fixCounts.length ≤ t := by rw [hf]; simpa using hle
        have e : md.tick + 1 + 1 = md.tick + 2 := by ring
        simp only [List.set_eq_of_length_le hle, List.set_eq_of_length_le ht1,
          List.set_eq_of_length_le ht2, List.set_eq_of_length_le ht3, e]
    · exfalso
      have := readPageIntoFrame_read_fail pf md t p h1 h2
      dsimp only [pinLoad] at hrc
      rw [this] at hrc
      dsimp only at hrc
      rw [if_pos h2] at hrc
      exact h2 hrc
  · exfalso
    have := readPageIntoFrame_ensure_fail pf md t p h1
    dsimp only [pinLoad] at hrc
    rw [this] at hrc
    dsimp only at hrc
    rw [if_pos h1] at hrc
    exact h1 hrc

theorem RefCleared.refl (l : List Frame) : RefCleared l l := fun _ => Or.inl rfl

theorem RefCleared.trans {l1 l2 l3 : List Frame} (h12 : RefCleared l1 l2)
    (h23 : RefCleared l2 l3) : RefCleared l1 l3 := by
  intro j
  rcases h12 j with h | ⟨fr, h1, hc, h2⟩
  · rcases h23 j with h' | ⟨fr', h1', hc', h2'⟩
    · exact Or.inl (h'.trans h)
    · exact Or.inr ⟨fr', h ▸ h1', hc', h2'⟩
  · rcases h23 j with h' | ⟨fr', h1', hc', h2'⟩
    · exact Or.inr ⟨fr, h1, hc, h'.trans h2⟩
    · rw [h2] at h1'
      cases h1'
      exact Or.inr ⟨fr, h1, hc, h2'⟩

theorem RefCleared.set_clear (l : List Frame) (i : Nat) (fr : Frame) (h : l[i]? = some fr)
    (hc : fr.evictable) : RefCleared l (l.set i fr.clearRef) := by
  intro j
  by_cases hij : i = j
  · subst hij
    right
    have hlt : i < l.length := by
      by_contra hn
      have : l[i]? = none := by simp; omega
      rw [this] at h; cases h
    exact ⟨fr, h, hc, by simp [List.getElem?_set, hlt]⟩
  · left
    simp [List.getElem?_set, hij]

theorem RefCleared.length {l1 l2 : List Frame} (h : RefCleared l1 l2) :
    l2.length = l1.length := by
  have key : ∀ j : Nat, l2[j]? = none ↔ l1[j]? = none := by
    intro j
    rcases h j with h | ⟨fr, h1, _, h2⟩
    · rw [h]
    · simp [h1, h2]
  rcases Nat.lt_trichotomy l2.length l1.length with hlt | heq | hgt
  · have := (key l2.length).1 (by simp)
    simp at this; omega
  · exact heq
  · have := (key l1.length).2 (by simp)
    simp at this; omega

theorem RefCleared.map_eq {β : Type} {l1 l2 : List Frame} (h : RefCleared l1 l2)
    (g : Frame → β) (hg : ∀ fr : Frame, g fr.clearRef = g fr) : l2.map g = l1.map g := by
  apply List.ext_getElem?
  intro j
  rcases h j with h | ⟨fr, h1, _, h2⟩
  · simp [h]
  · simp [h1, h2, hg]

theorem RefCleared.get {l1 l2 : List Frame} (h : RefCleared l1 l2) (j : Nat) (fr2 : Frame)
    (h2 : l2[j]? = some fr2) :
    ∃ fr1, l1[j]? = some fr1 ∧ (fr2 = fr1 ∨ (fr1.evictable ∧ fr2 = fr1.clearRef)) := by
  rcases h j with h | ⟨fr, h1, hc, h2'⟩
  · exact ⟨fr2, h ▸ h2, Or.inl rfl⟩
  · rw [h2'] at h2
    cases h2
    exact ⟨fr, h1, Or.inr ⟨hc, rfl⟩⟩

theorem RefCleared.framesOK {l1 l2 : List Frame} (h : RefCleared l1 l2) (hok : FramesOK l1) :
    FramesOK l2 := by
  constructor
  · intro i j fi fj hi hj hij hne
    obtain ⟨fi1, hi1, hfi⟩ := h.get i fi hi
    obtain ⟨fj1, hj1, hfj⟩ := h.get j fj hj
    have e1 : fi.pageNum = fi1.pageNum := by
      rcases hfi with h | ⟨_, h⟩
      · rw [h]
      · rw [h]; rfl
    have e2 : fj.pageNum = fj1.pageNum := by
      rcases hfj with h | ⟨_, h⟩
      · rw [h]
      · rw [h]; rfl
    exact hok.uniq i j fi1 fj1 hi1 hj1 (by rw [← e1, ← e2]; exact hij) (by rw [← e1]; exact hne)
  · intro i fr hi hp
    obtain ⟨fr1, h1, hfr⟩ := h.get i fr hi
    rcases hfr with h | ⟨_, h⟩
    · subst h; exact hok.emptyFix i _ h1 hp
    · subst h; exact hok.emptyFix i fr1 h1 hp
  · intro i fr hi
    obtain ⟨fr1, h1, hfr⟩ := h.get i fr hi
    rcases hfr with h | ⟨_, h⟩
    · subst h; exact hok.nonneg i _ h1
    · subst h; exact hok.nonneg i fr1 h1

/-- What the CLOCK sweep leaves: only the hand and reference bits of evictable frames
change, the hand stays in range, and a victim is an evictable frame with a clear bit. -/
theorem clockSweep_spec {σ : Type} (n : Nat) (k : Nat) (md : BM_MgmtData σ) :
    (clockSweep n k md).2 =
        { md with
          clockHand := (clockSweep n k md).2.clockHand
          frames := (clockSweep n k md).2.frames } ∧
      RefCleared md.frames (clockSweep n k md).2.frames ∧
      (n ≠ 0 → md.clockHand < n → (clockSweep n k md).2.clockHand < n) ∧
      (∀ v, (clockSweep n k md).1 = some v →
        ∃ fr, (clockSweep n k md).2.frames[v]? = some fr ∧ fr.evictable ∧ fr.ref = 0) := by
  induction k generalizing md with
  | zero =>
    refine ⟨rfl, RefCleared.refl _, fun _ h => h, ?_⟩
    intro v hv
    simp [clockSweep] at hv
  | succ k ih =>
    have hmod : n ≠ 0 → (md.clockHand + 1) % n < n := fun hn => Nat.mod_lt _ (by omega)
    by_cases hc : (md.frames.getD md.clockHand default).pageNum ≠ NO_PAGE ∧
        (md.frames.getD md.clockHand default).fixCount = 0
    · by_cases hr : (md.frames.getD md.clockHand default).ref = 0
      · have e : clockSweep n (k + 1) md =
            (some md.clockHand, { md with clockHand := (md.clockHand + 1) % n }) := by
          dsimp only [clockSweep]
          rw [if_pos hc, if_pos hr]
        rw [e]
        refine ⟨rfl, RefCleared.refl _, fun hn _ => hmod hn, ?_⟩
        intro v hv
        cases hv
        cases hx : md.frames[md.clockHand]? with
        | none =>
          exfalso
          have : md.frames.getD md.clockHand default = default := by simp [hx]
          rw [this] at hc
          exact hc.1 rfl
        | some fr =>
          have : md.frames.getD md.clockHand default = fr := by simp [hx]
          rw [this] at hc hr
          exact ⟨fr, rfl, hc, hr⟩
      · have e : clockSweep n (k + 1) md =
            clockSweep n k
              { md with
                clockHand := (md.clockHand + 1) % n
                frames := md.frames.set md.clockHand
                  { md.frames.getD md.clockHand default with ref := 0 } } := by
          conv => lhs; unfold clockSweep
          dsimp only
          rw [if_pos hc, if_neg hr]
        rw [e]
        obtain ⟨h1, h2, h3, h4⟩ := ih
          { md with
            clockHand := (md.clockHand + 1) % n
            frames := md.frames.set md.clockHand
              { md.frames.getD md.clockHand default with ref := 0 } }
        refine ⟨?_, ?_, fun hn _ => h3 hn (hmod hn), h4⟩
        · rw [h1]
        · refine RefCleared.trans ?_ h2
          cases hx : md.frames[md.clockHand]? with
          | none =>
            have : md.frames.length ≤ md.clockHand := by simpa using hx
            dsimp only
            rw [List.set_eq_of_length_le this]
            exact RefCleared.refl _
          | some fr =>
            have : md.frames.getD md.clockHand default = fr := by simp [hx]
            rw [this] at hc
            dsimp only
            rw [this]
            exact RefCleared.set_clear _ _ fr hx hc
    · have e : clockSweep n (k + 1) md =
          clockSweep n k { md with clockHand := (md.clockHand + 1) % n } := by
        conv => lhs; unfold clockSweep
        dsimp only
        rw [if_neg hc]
      rw [e]
      obtain ⟨h1, h2, h3, h4⟩ := ih { md with clockHand := (md.clockHand + 1) % n }
      refine ⟨?_, h2, fun hn _ => h3 hn (hmod hn), h4⟩
      rw [h1]

/-- The loop of the tick-based policies: the result is the current `best`, or the
first evictable frame of the rest whose key is minimal and below `bestKey`. -/
theorem keyScan_some (s : ReplacementStrategy) (l : List Frame) (i : Nat) (best : Option Nat)
    (bestKey : Int) (v : Nat) (h : keyScan s l i best bestKey = some v) :
    (best = some v ∧
        ∀ (j : Nat) (fj : Frame), l[j]? = some fj → fj.evictable →
          bestKey ≤ victim_key s fj) ∨
      ∃ (j : Nat) (fr : Frame), v = i + j ∧ l[j]? = some fr ∧ fr.evictable ∧
        (best ≠ none → victim_key s fr < bestKey) ∧
        ∀ (j' : Nat) (fj : Frame), l[j']? = some fj → fj.evictable →
          victim_key s fr ≤ victim_key s fj ∧ (j' < j → victim_key s fr < victim_key s fj) := by
  induction l generalizing i best bestKey with
  | nil =>
    left
    simp only [keyScan] at h
    exact ⟨h, by intro j fj hj; simp at hj⟩
  | cons a l ih =>
    by_cases hc : a.fixCount = 0 ∧ a.pageNum ≠ NO_PAGE
    · have hev : a.evictable := ⟨hc.2, hc.1⟩
      by_cases hb : best = none ∨ victim_key s a < bestKey
      · have e : keyScan s (a :: l) i best bestKey =
            keyScan s l (i + 1) (some i) (victim_key s a) := by
          conv => lhs; unfold keyScan
          rw [if_pos hc, if_pos hb]
        rw [e] at h
        rcases ih (i + 1) (some i) (victim_key s a) h with ⟨hv, hmin⟩ | ⟨j, fr, hv, hj, hfr, hlt, hmin⟩
        · right
          cases hv
          refine ⟨0, a, rfl, by simp, hev, ?_, ?_⟩
          · intro hne
            rcases hb with hb | hb
            · exact absurd hb hne
            · exact hb
          · intro j' fj hj' hfj
            cases j' with
            | zero =>
              simp at hj'; subst hj'
              exact ⟨le_refl _, fun h0 => absurd h0 (lt_irrefl 0)⟩
            | succ j' =>
              exact ⟨hmin j' fj (by simpa using hj') hfj, fun h0 => absurd h0 (by omega)⟩
        · right
          have hlt' := hlt (by simp)
          refine ⟨j + 1, fr, by omega, by simpa using hj, hfr, ?_, ?_⟩
          · intro hne
            rcases hb with hb | hb
            · exact absurd hb hne
            · exact lt_trans hlt' hb
          · intro j' fj hj' hfj
            cases j' with
            | zero =>
              simp at hj'; subst hj'
              exact ⟨le_of_lt hlt', fun _ => hlt'⟩
            | succ j' =>
              have := hmin j' fj (by simpa using hj') hfj
              exact ⟨this.1, fun h0 => this.2 (by omega)⟩
      · have e : keyScan s (a :: l) i best bestKey = keyScan s l (i + 1) best bestKey := by
          conv => lhs; unfold keyScan
          rw [if_pos hc, if_neg hb]
        rw [e] at h
        have hb1 : best ≠ none := fun hn => hb (Or.inl hn)
        have hb2 : bestKey ≤ victim_key s a := by
          have : ¬ victim_key s a < bestKey := fun hn => hb (Or.inr hn)
          omega
        rcases ih (i + 1) best bestKey h with ⟨hv, hmin⟩ | ⟨j, fr, hv, hj, hfr, hlt, hmin⟩
        · left
          refine ⟨hv, ?_⟩
          intro j' fj hj' hfj
          cases j' with
          | zero => simp at hj'; subst hj'; exact hb2
          | succ j' => exact hmin j' fj (by simpa using hj') hfj
        · right
          have hlt' := hlt hb1
          refine ⟨j + 1, fr, by omega, by simpa using hj, hfr, hlt, ?_⟩
          intro j' fj hj' hfj
          cases j' with
          | zero =>
            simp at hj'; subst hj'
            exact ⟨by omega, fun _ => by omega⟩
          | succ j' =>
            have := hmin j' fj (by simpa using hj') hfj
            exact ⟨this.1, fun h0 => this.2 (by omega)⟩
    · have e : keyScan s (a :: l) i best bestKey = keyScan s l (i + 1) best bestKey := by
        conv => lhs; unfold keyScan
        rw [if_neg hc]
      rw [e] at h
      have hna : ¬ a.evictable := fun hev => hc ⟨hev.2, hev.1⟩
      rcases ih (i + 1) best bestKey h with ⟨hv, hmin⟩ | ⟨j, fr, hv, hj, hfr, hlt, hmin⟩
      · left
        refine ⟨hv, ?_⟩
        intro j' fj hj' hfj
        cases j' with
        | zero => simp at hj'; subst hj'; exact absurd hfj hna
        | succ j' => exact hmin j' fj (by simpa using hj') hfj
      · right
        refine ⟨j + 1, fr, by omega, by simpa using hj, hfr, hlt, ?_⟩
        intro j' fj hj' hfj
        cases j' with
        | zero => simp at hj'; subst hj'; exact absurd hfj hna
        | succ j' =>
          have := hmin j' fj (by simpa using hj') hfj
          exact ⟨this.1, fun h0 => this.2 (by omega)⟩

theorem keyScan_none (s : ReplacementStrategy) (l : List Frame) (i : Nat) (best : Option Nat)
    (bestKey : Int) :
    keyScan s l i best bestKey = none ↔ best = none ∧ ∀ fr ∈ l, ¬ fr.evictable := by
  induction l generalizing i best bestKey with
  | nil => simp [keyScan]
  | cons a l ih =>
    by_cases hc : a.fixCount = 0 ∧ a.pageNum ≠ NO_PAGE
    · have hev : a.evictable := ⟨hc.2, hc.1⟩
      by_cases hb : best = none ∨ victim_key s a < bestKey
      · have e : keyScan s (a :: l) i best bestKey =
            keyScan s l (i + 1) (some i) (victim_key s a) := by
          conv => lhs; unfold keyScan
          rw [if_pos hc, if_pos hb]
        rw [e, ih]
        constructor
        · rintro ⟨h, _⟩; cases h
        · rintro ⟨_, h⟩; exact absurd hev (h a (by simp))
      · have e : keyScan s (a :: l) i best bestKey = keyScan s l (i + 1) best bestKey := by
          conv => lhs; unfold keyScan
          rw [if_pos hc, if_neg hb]
        rw [e, ih]
        constructor
        · rintro ⟨h, _⟩; exact absurd (Or.inl h) hb
        · rintro ⟨_, h⟩; exact absurd hev (h a (by simp))
    · have e : keyScan s (a :: l) i best bestKey = keyScan s l (i + 1) best bestKey := by
        conv => lhs; unfold keyScan
        rw [if_neg hc]
      have hna : ¬ a.evictable := fun hev => hc ⟨hev.2, hev.1⟩
      rw [e, ih]
      constructor
      · rintro ⟨h, h2⟩
        refine ⟨h, ?_⟩
        intro fr hfr
        simp at hfr
        rcases hfr with hfr | hfr
        · subst hfr; exact hna
        · exact h2 fr hfr
      · rintro ⟨h, h2⟩
        exact ⟨h, fun fr hfr => h2 fr (by simp [hfr])⟩

theorem getElem?_take_some {α : Type} (l : List α) (n j : Nat) (a : α)
    (h : (l.take n)[j]? = some a) : l[j]? = some a ∧ j < n := by
  rw [List.getElem?_take] at h
  split at h
  · exact ⟨h, by assumption⟩
  · cases h

theorem mirror_upd {β : Type} (g : Frame → β) (l : List Frame) (m : List β) (i : Nat)
    (a : Frame) (hm : m = l.map g) : m.set i (g a) = (l.set i a).map g := by
  rw [List.map_set, hm]

theorem mirror_same {β : Type} (g : Frame → β) (l : List Frame) (m : List β) (i : Nat)
    (a : Frame) (hm : m = l.map g) (hs : ∀ x, l[i]? = some x → g a = g x) :
    m = (l.set i a).map g := by
  rw [map_set_same g l i a hs, hm]

theorem getD_of_getElem? {α : Type} (l : List α) (i : Nat) (d x : α) (h : l[i]? = some x) :
    l.getD i d = x := by
  simp [h]

theorem getD_of_none {α : Type} (l : List α) (i : Nat) (d : α) (h : l[i]? = none) :
    l.getD i d = d := by
  simp [h]

/-- The invariant after frame `i` is replaced by `a` and the mirrors follow. -/
theorem Inv.update {σ : Type} {n : Nat} {md md1 : BM_MgmtData σ} (h : Inv n md) (i : Nat)
    (a : Frame) (hf : md1.frames = md.frames.set i a)
    (hc : md1.frameContents = (md.frames.set i a).map (fun fr => fr.pageNum))
    (hd : md1.dirtyFlags = (md.frames.set i a).map (fun fr => fr.dirty))
    (hx : md1.fixCounts = (md.frames.set i a).map (fun fr => fr.fixCount))
    (hh : md1.clockHand = md.clockHand)
    (hp : (∀ x, md.frames[i]? = some x → a.pageNum = x.pageNum) ∨
      (∀ j x, md.frames[j]? = some x → j ≠ i → x.pageNum ≠ a.pageNum))
    (he : a.pageNum = NO_PAGE → a.fixCount = 0) (hn : 0 ≤ a.fixCount) : Inv n md1 := by
  constructor
  · rw [hf, List.length_set]; exact h.len
  · rw [hc, hf]
  · rw [hd, hf]
  · rw [hx, hf]
  · rw [hh]; exact h.hand
  · rw [hf]; exact h.ok.set i a hp he hn

/-- The invariant after a change of the file state and of bytes of slot `i` only. -/
theorem Inv.data {σ : Type} {n : Nat} {md : BM_MgmtData σ} (h : Inv n md) (i : Nat)
    (x : σ) (d : PageData) :
    Inv n { md with
      fhandle := x
      frames := md.frames.set i { md.frames.getD i default with data := d } } := by
  have key : ∀ y, md.frames[i]? = some y →
      ({ md.frames.getD i default with data := d } : Frame) = { y with data := d } := by
    intro y hy; rw [getD_of_getElem? _ _ _ _ hy]
  refine h.update i { md.frames.getD i default with data := d } rfl ?_ ?_ ?_ rfl (Or.inl ?_) ?_ ?_
  · exact mirror_same _ _ _ _ _ h.contents (fun y hy => by rw [key y hy])
  · exact mirror_same _ _ _ _ _ h.dirtyF (fun y hy => by rw [key y hy])
  · exact mirror_same _ _ _ _ _ h.fixC (fun y hy => by rw [key y hy])
  · intro y hy; rw [key y hy]
  · cases hy : md.frames[i]? with
    | none => intro _; rw [getD_of_none _ _ _ hy]; rfl
    | some y => rw [key y hy]; exact h.ok.emptyFix i y hy
  · cases hy : md.frames[i]? with
    | none => rw [getD_of_none _ _ _ hy]; exact le_refl _
    | some y => rw [key y hy]; exact h.ok.nonneg i y hy

theorem Inv.of_refCleared {σ : Type} {n : Nat} {md : BM_MgmtData σ} (h : Inv n md)
    (c : Nat) (l : List Frame) (hl : RefCleared md.frames l) (hc : n ≠ 0 → c < n) :
    Inv n { md with clockHand := c, frames := l } := by
  constructor
  · show l.length = n
    rw [hl.length, h.len]
  · show md.frameContents = l.map _
    rw [hl.map_eq (fun fr => fr.pageNum) (fun _ => rfl)]; exact h.contents
  · show md.dirtyFlags = l.map _
    rw [hl.map_eq (fun fr => fr.dirty) (fun _ => rfl)]; exact h.dirtyF
  · show md.fixCounts = l.map _
    rw [hl.map_eq (fun fr => fr.fixCount) (fun _ => rfl)]; exact h.fixC
  · exact hc
  · exact hl.framesOK h.ok

/-- Victim selection changes only the CLOCK hand and reference bits of evictable frames,
and a victim is an evictable frame. -/
theorem selectVictim_spec {σ : Type} (s : ReplacementStrategy) (n : Nat) (md : BM_MgmtData σ) :
    (selectVictim s n md).2 =
        { md with
          clockHand := (selectVictim s n md).2.clockHand
          frames := (selectVictim s n md).2.frames } ∧
      RefCleared md.frames (selectVictim s n md).2.frames ∧
      (n ≠ 0 → md.clockHand < n → (selectVictim s n md).2.clockHand < n) ∧
      (∀ v, (selectVictim s n md).1 = some v →
        ∃ fr, (selectVictim s n md).2.frames[v]? = some fr ∧ fr.evictable) := by
  by_cases hs : s = .RS_CLOCK
  · by_cases hn : n = 0
    · have e : selectVictim s n md = (none, md) := by
        simp only [selectVictim, hs, hn, if_true]
      rw [e]
      exact ⟨rfl, RefCleared.refl _, fun _ h => h, fun v hv => by cases hv⟩
    · have e : selectVictim s n md = clockSweep n (2 * n) md := by
        simp only [selectVictim, hs, hn, if_true, if_false]
      rw [e]
      obtain ⟨h1, h2, h3, h4⟩ := clockSweep_spec n (2 * n) md
      refine ⟨h1, h2, h3, ?_⟩
      intro v hv
      obtain ⟨fr, hfr, hev, _⟩ := h4 v hv
      exact ⟨fr, hfr, hev⟩
  · have e : selectVictim s n md = (keyScan s (md.frames.take n) 0 none 0, md) := by
      simp only [selectVictim, hs, if_false]
    rw [e]
    refine ⟨rfl, RefCleared.refl _, fun _ h => h, ?_⟩
    intro v hv
    rcases keyScan_some s _ 0 none 0 v hv with ⟨hb, _⟩ | ⟨j, fr, hvj, hj, hfr, _, _⟩
    · cases hb
    · have := getElem?_take_some _ _ _ _ hj
      exact ⟨fr, by rw [hvj, Nat.zero_add]; exact this.1, hfr⟩

theorem selectVictim_inv {σ : Type} (s : ReplacementStrategy) (n : Nat) (md : BM_MgmtData σ)
    (h : Inv n md) : Inv n (selectVictim s n md).2 := by
  obtain ⟨h1, h2, h3, _⟩ := selectVictim_spec s n md
  rw [h1]
  exact h.of_refCleared _ _ h2 (fun hn => h3 hn (h.hand hn))

theorem writeBackIfDirty_inv {σ : Type} (pf : StorageMgr σ) (n : Nat) (md : BM_MgmtData σ)
    (i : Nat) (h : Inv n md) : Inv n (writeBackIfDirty pf md i).2 := by
  by_cases hrc : (writeBackIfDirty pf md i).1 = RC.RC_OK
  · cases hd : (md.frames.getD i default).dirty with
    | false => rw [writeBackIfDirty_clean pf md i hd]; exact h
    | true =>
      rw [writeBackIfDirty_ok pf md i hd hrc]
      have key : ∀ y, md.frames[i]? = some y →
          ({ md.frames.getD i default with dirty := false } : Frame) =
            { y with dirty := false } := by
        intro y hy; rw [getD_of_getElem? _ _ _ _ hy]
      refine h.update i { md.frames.getD i default with dirty := false } rfl ?_ ?_ ?_ rfl
        (Or.inl ?_) ?_ ?_
      · exact mirror_same _ _ _ _ _ h.contents (fun y hy => by rw [key y hy])
      · exact mirror_upd (fun fr => fr.dirty) md.frames md.dirtyFlags i
          { md.frames.getD i default with dirty := false } h.dirtyF
      · exact mirror_same _ _ _ _ _ h.fixC (fun y hy => by rw [key y hy])
      · intro y hy; rw [key y hy]
      · cases hy : md.frames[i]? with
        | none => intro _; rw [getD_of_none _ _ _ hy]; rfl
        | some y => rw [key y hy]; exact h.ok.emptyFix i y hy
      · cases hy : md.frames[i]? with
        | none => rw [getD_of_none _ _ _ hy]; exact le_refl _
        | some y => rw [key y hy]; exact h.ok.nonneg i y hy
  · obtain ⟨_, x, hx⟩ := writeBackIfDirty_fail pf md i hrc
    rw [hx]
    exact ⟨h.len, h.contents, h.dirtyF, h.fixC, h.hand, h.ok⟩

theorem findFrameByPageNP_some {σ : Type} (md : BM_MgmtData σ) (n : Nat) (p : PageNumber)
    (f : Nat) (hlen : md.frames.length = n) :
    findFrameByPageNP md n p = some f ↔
      ∃ fr, md.frames[f]? = some fr ∧ fr.pageNum = p ∧
        ∀ (j : Nat) (fj : Frame), j < f → md.frames[j]? = some fj → fj.pageNum ≠ p := by
  unfold findFrameByPageNP
  rw [List.take_of_length_le (by omega), scanFrom_some]
  constructor
  · rintro ⟨j, fr, hj, hfr, hp, hmin⟩
    rw [Nat.zero_add] at hj
    subst hj
    refine ⟨fr, hfr, by simpa using hp, ?_⟩
    intro j' fj hlt hfj
    simpa using hmin j' fj hlt hfj
  · rintro ⟨fr, hfr, hp, hmin⟩
    refine ⟨f, fr, by omega, hfr, by simpa using hp, ?_⟩
    intro j' fj hlt hfj
    simpa using hmin j' fj hlt hfj

theorem findFrameByPageNP_none {σ : Type} (md : BM_MgmtData σ) (n : Nat) (p : PageNumber)
    (hlen : md.frames.length = n) :
    findFrameByPageNP md n p = none ↔
      ∀ (j : Nat) (fj : Frame), md.frames[j]? = some fj → fj.pageNum ≠ p := by
  unfold findFrameByPageNP
  rw [List.take_of_length_le (by omega), scanFrom_none]
  constructor
  · intro h j fj hj
    have := h fj (List.getElem?_mem hj)
    simpa using this
  · intro h fr hfr
    obtain ⟨j, hj⟩ := List.getElem?_of_mem hfr
    simpa using h j fr hj

theorem findEmptyFrame_some {σ : Type} (md : BM_MgmtData σ) (n : Nat)
    (f : Nat) (hlen : md.frames.length = n) :
    findEmptyFrame md n = some f ↔
      ∃ fr, md.frames[f]? = some fr ∧ fr.pageNum = NO_PAGE ∧
        ∀ (j : Nat) (fj : Frame), j < f → md.frames[j]? = some fj → fj.pageNum ≠ NO_PAGE := by
  unfold findEmptyFrame
  rw [List.take_of_length_le (by omega), scanFrom_some]
  constructor
  · rintro ⟨j, fr, hj, hfr, hp, hmin⟩
    rw [Nat.zero_add] at hj
    subst hj
    refine ⟨fr, hfr, by simpa using hp, ?_⟩
    intro j' fj hlt hfj
    simpa using hmin j' fj hlt hfj
  · rintro ⟨fr, hfr, hp, hmin⟩
    refine ⟨f, fr, by omega, hfr, by simpa using hp, ?_⟩
    intro j' fj hlt hfj
    simpa using hmin j' fj hlt hfj

theorem findEmptyFrame_none {σ : Type} (md : BM_MgmtData σ) (n : Nat)
    (hlen : md.frames.length = n) :
    findEmptyFrame md n = none ↔
      ∀ (j : Nat) (fj : Frame), md.frames[j]? = some fj → fj.pageNum ≠ NO_PAGE := by
  unfold findEmptyFrame
  rw [List.take_of_length_le (by omega), scanFrom_none]
  constructor
  · intro h j fj hj
    have := h fj (List.getElem?_mem hj)
    simpa using this
  · intro h fr hfr
    obtain ⟨j, hj⟩ := List.getElem?_of_mem hfr
    simpa using h j fr hj

/-- The three ways `pinPage` chooses its target: an empty frame; no frame at all; a
victim, which is clean, written back, or whose write-back fails. -/
theorem pickTarget_cases {σ : Type} (pf : StorageMgr σ) (s : ReplacementStrategy) (n : Nat)
    (md : BM_MgmtData σ) (hinv : Inv n md) :
    (∃ t fr, findEmptyFrame md n = some t ∧ md.frames[t]? = some fr ∧ fr.pageNum = NO_PAGE ∧
        pickTarget pf s n md = (RC.RC_OK, some t, md)) ∨
      (findEmptyFrame md n = none ∧ ∃ c l, RefCleared md.frames l ∧ (n ≠ 0 → c < n) ∧
        selectVictim s n md = (none, { md with clockHand := c, frames := l }) ∧
        pickTarget pf s n md =
          (RC.RC_WRITE_FAILED, none, { md with clockHand := c, frames := l })) ∨
      (findEmptyFrame md n = none ∧ ∃ c l v fr, RefCleared md.frames l ∧ (n ≠ 0 → c < n) ∧
        selectVictim s n md = (some v, { md with clockHand := c, frames := l }) ∧
        l[v]? = some fr ∧ fr.evictable ∧
        ((fr.dirty = false ∧
            pickTarget pf s n md =
              (RC.RC_OK, some v, { md with clockHand := c, frames := l })) ∨
          (fr.dirty = true ∧
            pickTarget pf s n md =
              (RC.RC_OK, some v,
                { md with
                  clockHand := c
                  fhandle := writtenFile pf { md with clockHand := c, frames := l } v
                  numWriteIO := md.numWriteIO + 1
                  frames := l.set v { fr with dirty := false }
                  dirtyFlags := md.dirtyFlags.set v false })) ∨
          (fr.dirty = true ∧ ∃ rc x, rc ≠ RC.RC_OK ∧
            pickTarget pf s n md =
              (rc, some v, { md with clockHand := c, frames := l, fhandle := x })))) := by
  cases he : findEmptyFrame md n with
  | some t =>
    left
    obtain ⟨fr, hfr, hp, _⟩ := (findEmptyFrame_some md n t hinv.len).1 he
    exact ⟨t, fr, rfl, hfr, hp, by simp only [pickTarget, he]⟩
  | none =>
    right
    obtain ⟨h1, h2, h3, h4⟩ := selectVictim_spec s n md
    have hc := fun hn => h3 hn (hinv.hand hn)
    have hp : pickTarget pf s n md =
        match selectVictim s n md with
        | (none, md1) => (RC.RC_WRITE_FAILED, none, md1)
        | (some target, md1) =>
          ((writeBackIfDirty pf md1 target).1, some target,
            (writeBackIfDirty pf md1 target).2) := by
      simp only [pickTarget, he]
    generalize hcc : (selectVictim s n md).2.clockHand = c at h1 h2 h3 h4 hc
    generalize hll : (selectVictim s n md).2.frames = l at h1 h2 h3 h4 hc
    have e : selectVictim s n md =
        ((selectVictim s n md).1, { md with clockHand := c, frames := l }) := by
      rw [← h1]
    cases hv : (selectVictim s n md).1 with
    | none =>
      left
      rw [hv] at e
      refine ⟨rfl, c, l, h2, hc, e, ?_⟩
      rw [hp, e]
    | some v =>
      right
      rw [hv] at e
      obtain ⟨fr, hfr, hev⟩ := h4 v hv
      refine ⟨rfl, c, l, v, fr, h2, hc, e, hfr, hev, ?_⟩
      rw [hp, e]
      dsimp only
      have hg : ({ md with clockHand := c, frames := l } : BM_MgmtData σ).frames.getD v default
          = fr := getD_of_getElem? _ _ _ _ hfr
      by_cases hrc : (writeBackIfDirty pf { md with clockHand := c, frames := l } v).1 = RC.RC_OK
      · cases hd : fr.dirty with
        | false =>
          left
          refine ⟨rfl, ?_⟩
          rw [writeBackIfDirty_clean pf _ v (by rw [hg]; exact hd)]
        | true =>
          right; left
          refine ⟨rfl, ?_⟩
          have := writeBackIfDirty_ok pf _ v (by rw [hg]; exact hd) hrc
          rw [this, hrc, hg]
      · right; right
        obtain ⟨hd, x, hx⟩ := writeBackIfDirty_fail pf _ v hrc
        rw [hg] at hd
        refine ⟨hd, _, x, hrc, ?_⟩
        rw [hx]

theorem mirror_upd2 {β : Type} (g : Frame → β) (l : List Frame) (m : List β) (i : Nat)
    (a : Frame) (v : β) (hm : m = l.map g) (hv : g a = v) :
    m.set i v = (l.set i a).map g := by
  rw [List.map_set, hm, hv]

theorem pickTarget_none {σ : Type} (pf : StorageMgr σ) (s : ReplacementStrategy) (n : Nat)
    (md : BM_MgmtData σ) (h : (pickTarget pf s n md).2.1 = none) :
    (pickTarget pf s n md).1 = RC.RC_WRITE_FAILED := by
  revert h
  unfold pickTarget
  split
  · intro h; cases h
  · split
    · intro _; rfl
    · intro h; cases h

/-- The paths of `pinPage` on an initialised pool: rejected arguments, a hit, a miss
without a usable target, a miss whose load fails, a successful miss. -/
theorem pinPage_cases {σ : Type} (pf : StorageMgr σ) (bm : BM_BufferPool σ)
    (md : BM_MgmtData σ) (page : Option BM_PageHandle) (p : PageNumber)
    (hmd : bm.mgmtData = some md) :
    ((p < 0 ∨ page = none) ∧
        pinPage pf bm page p = (RC.RC_READ_NON_EXISTING_PAGE, bm, page)) ∨
      (0 ≤ p ∧ ∃ h, page = some h ∧
        ((∃ f, findFrameByPageNP md bm.numPages p = some f ∧
            pinPage pf bm page p =
              (RC.RC_OK, { bm with mgmtData := some (pinHit md f) },
                some { pageNum := p, data := f })) ∨
          (findFrameByPageNP md bm.numPages p = none ∧
            (pickTarget pf bm.strategy bm.numPages md).1 ≠ RC.RC_OK ∧
            pinPage pf bm page p =
              ((pickTarget pf bm.strategy bm.numPages md).1,
                { bm with mgmtData := some (pickTarget pf bm.strategy bm.numPages md).2.2 },
                some h)) ∨
          (findFrameByPageNP md bm.numPages p = none ∧
            (pickTarget pf bm.strategy bm.numPages md).1 = RC.RC_OK ∧
            ∃ t, (pickTarget pf bm.strategy bm.numPages md).2.1 = some t ∧
              (((pinLoad pf (pickTarget pf bm.strategy bm.numPages md).2.2 t p).1 ≠ RC.RC_OK ∧
                  pinPage pf bm page p =
                    ((pinLoad pf (pickTarget pf bm.strategy bm.numPages md).2.2 t p).1,
                      { bm with
                        mgmtData := some
                          (pinLoad pf (pickTarget pf bm.strategy bm.numPages md).2.2 t p).2 },
                      some h)) ∨
                ((pinLoad pf (pickTarget pf bm.strategy bm.numPages md).2.2 t p).1 = RC.RC_OK ∧
                  pinPage pf bm page p =
                    (RC.RC_OK,
                      { bm with
                        mgmtData := some
                          (pinLoad pf (pickTarget pf bm.strategy bm.numPages md).2.2 t p).2 },
                      some { pageNum := p, data := t })))))) := by
  by_cases hp : p < 0
  · left
    exact ⟨Or.inl hp, by simp only [pinPage, hmd, hp, if_true]⟩
  · cases page with
    | none =>
      left
      exact ⟨Or.inr rfl, by simp only [pinPage, hmd, hp, if_false]⟩
    | some h =>
      right
      refine ⟨not_lt.mp hp, h, rfl, ?_⟩
      cases hf : findFrameByPageNP md bm.numPages p with
      | some f =>
        left
        exact ⟨f, rfl, by simp only [pinPage, hmd, hp, if_false, hf]⟩
      | none =>
        right
        have hnone := pickTarget_none pf bm.strategy bm.numPages md
        rcases hpt : pickTarget pf bm.strategy bm.numPages md with ⟨rc, topt, md1⟩
        rw [hpt] at hnone
        cases topt with
        | none =>
          left
          have hrc : rc = RC.RC_WRITE_FAILED := hnone rfl
          subst hrc
          refine ⟨rfl, ?_, ?_⟩
          · intro hx; cases hx
          simp only [pinPage, hmd, hp, if_false, hf, hpt]
        | some t =>
          by_cases hrc : rc = RC.RC_OK
          · right
            subst hrc
            refine ⟨rfl, rfl, t, rfl, ?_⟩
            by_cases hl : (pinLoad pf md1 t p).1 = RC.RC_OK
            · right
              refine ⟨hl, ?_⟩
              simp only [pinPage, hmd, hp, if_false, hf, hpt, hl, ne_eq, not_true_eq_false]
            · left
              refine ⟨hl, ?_⟩
              simp only [pinPage, hmd, hp, if_false, hf, hpt, hl, ne_eq, not_true_eq_false,
                not_false_eq_true, if_true]
          · left
            refine ⟨rfl, hrc, ?_⟩
            simp only [pinPage, hmd, hp, if_false, hf, hpt, hrc, ne_eq, not_false_eq_true,
              if_true]

theorem pickTarget_inv {σ : Type} (pf : StorageMgr σ) (s : ReplacementStrategy) (n : Nat)
    (md : BM_MgmtData σ) (hinv : Inv n md) : Inv n (pickTarget pf s n md).2.2 := by
  unfold pickTarget
  split
  · exact hinv
  · split
    · rename_i md1 hsv
      have := selectVictim_inv s n md hinv
      rw [hsv] at this
      exact this
    · rename_i t md1 hsv
      have := selectVictim_inv s n md hinv
      rw [hsv] at this
      exact writeBackIfDirty_inv pf n md1 t this

theorem pinHit_inv {σ : Type} (n : Nat) (md : BM_MgmtData σ) (f : Nat) (fr : Frame)
    (hinv : Inv n md) (hf : md.frames[f]? = some fr) (hres : fr.pageNum ≠ NO_PAGE) :
    Inv n (pinHit md f) := by
  have hlt : f < md.frames.length := by
    by_contra hn
    have : md.frames[f]? = none := by simp; omega
    rw [this] at hf; cases hf
  have hg : md.frames.getD f default = fr := getD_of_getElem? _ _ _ _ hf
  have e : pinHit md f =
      { md with
        tick := md.tick + 1
        fixCounts := md.fixCounts.set f (fr.fixCount + 1)
        frames := md.frames.set f
          { fr with
            fixCount := fr.fixCount + 1
            accessTick := md.tick + 1
            hist0 := if fr.kPos = 0 then md.tick + 1 else fr.hist0
            hist1 := if fr.kPos = 0 then fr.hist1 else md.tick + 1
            kPos := (fr.kPos + 1) % 2
            kCount := if fr.kCount < 2 then fr.kCount + 1 else fr.kCount
            ref := 1 } } := by
    simp only [pinHit, record_access, hg, getD_set_self _ _ _ _ hlt, List.set_set]
  rw [e]
  have hnn := hinv.ok.nonneg f fr hf
  refine hinv.update f _ rfl ?_ ?_ ?_ rfl (Or.inl ?_) ?_ ?_
  · exact mirror_same _ _ _ _ _ hinv.contents (fun y hy => by rw [hf] at hy; cases hy; rfl)
  · exact mirror_same _ _ _ _ _ hinv.dirtyF (fun y hy => by rw [hf] at hy; cases hy; rfl)
  · exact mirror_upd2 (fun fr => fr.fixCount) _ _ _ _ _ hinv.fixC rfl
  · intro y hy; rw [hf] at hy; cases hy; rfl
  · intro h; exact absurd h hres
  · show 0 ≤ fr.fixCount + 1
    omega

theorem pinLoad_inv {σ : Type} (pf : StorageMgr σ) (n : Nat) (md : BM_MgmtData σ) (t : Nat)
    (p : PageNumber) (hinv : Inv n md) (hp : p ≠ NO_PAGE)
    (hnew : ∀ (j : Nat) (fj : Frame), md.frames[j]? = some fj → fj.pageNum ≠ p) :
    Inv n (pinLoad pf md t p).2 := by
  by_cases hrc : (pinLoad pf md t p).1 = RC.RC_OK
  · rw [pinLoad_ok pf md n t p hinv hrc]
    refine hinv.update t (pinnedFrame p (loadedBytes pf md t p) md.tick) rfl ?_ ?_ ?_ rfl
      (Or.inr ?_) ?_ ?_
    · exact mirror_upd2 (fun fr => fr.pageNum) _ _ _ _ _ hinv.contents rfl
    · exact mirror_upd2 (fun fr => fr.dirty) _ _ _ _ _ hinv.dirtyF rfl
    · exact mirror_upd2 (fun fr => fr.fixCount) _ _ _ _ _ hinv.fixC rfl
    · intro j x hx _; exact hnew j x hx
    · intro h; exact absurd h hp
    · show (0 : Int) ≤ 1
      decide
  · obtain ⟨_, x, d, hx⟩ := pinLoad_fail pf md t p hrc
    rw [hx]
    exact hinv.data t x d

theorem getElem?_lt {α : Type} {l : List α} {i : Nat} {a : α} (h : l[i]? = some a) :
    i < l.length := by
  by_contra hn
  have : l[i]? = none := by simp; omega
  rw [this] at h; cases h

/-- The two outcomes of `unpinPage` on an initialised pool. -/
theorem unpinPage_cases {σ : Type} (bm : BM_BufferPool σ) (md : BM_MgmtData σ)
    (page : Option BM_PageHandle) (hmd : bm.mgmtData = some md)
    (hlen : md.frames.length = bm.numPages) :
    (unpinPage bm page = (RC.RC_READ_NON_EXISTING_PAGE, bm) ∧
        (page = none ∨ ∃ h, page = some h ∧
          (findFrameByPageNP md bm.numPages h.pageNum = none ∨
            ∃ f fr, findFrameByPageNP md bm.numPages h.pageNum = some f ∧
              md.frames[f]? = some fr ∧ fr.fixCount ≤ 0))) ∨
      ∃ h f fr, page = some h ∧ findFrameByPageNP md bm.numPages h.pageNum = some f ∧
        md.frames[f]? = some fr ∧ fr.pageNum = h.pageNum ∧ 0 < fr.fixCount ∧
        unpinPage bm page =
          (RC.RC_OK,
            { bm with
              mgmtData := some
                { md with
                  frames := md.frames.set f { fr with fixCount := fr.fixCount - 1 }
                  fixCounts := md.fixCounts.set f (fr.fixCount - 1) } }) := by
  cases page with
  | none => left; exact ⟨by simp only [unpinPage, hmd], Or.inl rfl⟩
  | some h =>
    cases hf : findFrameByPageNP md bm.numPages h.pageNum with
    | none => left; exact ⟨by simp only [unpinPage, hmd, hf], Or.inr ⟨h, rfl, Or.inl hf⟩⟩
    | some f =>
      obtain ⟨fr, hfr, hp, _⟩ := (findFrameByPageNP_some md _ _ f hlen).1 hf
      have hg : md.frames.getD f default = fr := getD_of_getElem? _ _ _ _ hfr
      by_cases hc : fr.fixCount ≤ 0
      · left
        refine ⟨?_, Or.inr ⟨h, rfl, Or.inr ⟨f, fr, hf, hfr, hc⟩⟩⟩
        simp only [unpinPage, hmd, hf, hg, hc, if_true]
      · right
        refine ⟨h, f, fr, rfl, hf, hfr, hp, by omega, ?_⟩
        simp only [unpinPage, hmd, hf, hg, hc, if_false]

/-- The two outcomes of `markDirty` on an initialised pool. -/
theorem markDirty_cases {σ : Type} (bm : BM_BufferPool σ) (md : BM_MgmtData σ)
    (page : Option BM_PageHandle) (hmd : bm.mgmtData = some md)
    (hlen : md.frames.length = bm.numPages) :
    (markDirty bm page = (RC.RC_READ_NON_EXISTING_PAGE, bm) ∧
        (page = none ∨ ∃ h, page = some h ∧
          findFrameByPageNP md bm.numPages h.pageNum = none)) ∨
      ∃ h f fr, page = some h ∧ findFrameByPageNP md bm.numPages h.pageNum = some f ∧
        md.frames[f]? = some fr ∧ fr.pageNum = h.pageNum ∧
        markDirty bm page =
          (RC.RC_OK,
            { bm with
              mgmtData := some
                { md with
                  frames := md.frames.set f { fr with dirty := true }
                  dirtyFlags := md.dirtyFlags.set f true } }) := by
  cases page with
  | none => left; exact ⟨by simp only [markDirty, hmd], Or.inl rfl⟩
  | some h =>
    cases hf : findFrameByPageNP md bm.numPages h.pageNum with
    | none => left; exact ⟨by simp only [markDirty, hmd, hf], Or.inr ⟨h, rfl, hf⟩⟩
    | some f =>
      obtain ⟨fr, hfr, hp, _⟩ := (findFrameByPageNP_some md _ _ f hlen).1 hf
      have hg : md.frames.getD f default = fr := getD_of_getElem? _ _ _ _ hfr
      right
      refine ⟨h, f, fr, rfl, hf, hfr, hp, ?_⟩
      simp only [markDirty, hmd, hf, hg]

/-- The outcomes of `forcePage` on an initialised pool. -/
theorem forcePage_cases {σ : Type} (pf : StorageMgr σ) (bm : BM_BufferPool σ)
    (md : BM_MgmtData σ) (page : Option BM_PageHandle) (hmd : bm.mgmtData = some md)
    (hlen : md.frames.length = bm.numPages) :
    (forcePage pf bm page = (RC.RC_READ_NON_EXISTING_PAGE, bm) ∧
        (page = none ∨ ∃ h, page = some h ∧
          findFrameByPageNP md bm.numPages h.pageNum = none)) ∨
      ∃ h f fr, page = some h ∧ findFrameByPageNP md bm.numPages h.pageNum = some f ∧
        md.frames[f]? = some fr ∧ fr.pageNum = h.pageNum ∧
        ((∃ rc x, rc ≠ RC.RC_OK ∧
            forcePage pf bm page = (rc, { bm with mgmtData := some { md with fhandle := x } })) ∨
          (fr.dirty = false ∧
            forcePage pf bm page =
              (RC.RC_OK, { bm with mgmtData := some { md with fhandle := writtenFile pf md f } })) ∨
          (fr.dirty = true ∧
            forcePage pf bm page =
              (RC.RC_OK,
                { bm with
                  mgmtData := some
                    { md with
                      fhandle := writtenFile pf md f
                      numWriteIO := md.numWriteIO + 1
                      frames := md.frames.set f { fr with dirty := false }
                      dirtyFlags := md.dirtyFlags.set f false } }))) := by
  cases page with
  | none => left; exact ⟨by simp only [forcePage, hmd], Or.inl rfl⟩
  | some h =>
    cases hf : findFrameByPageNP md bm.numPages h.pageNum with
    | none => left; exact ⟨by simp only [forcePage, hmd, hf], Or.inr ⟨h, rfl, hf⟩⟩
    | some f =>
      obtain ⟨fr, hfr, hp, _⟩ := (findFrameByPageNP_some md _ _ f hlen).1 hf
      have hg : md.frames.getD f default = fr := getD_of_getElem? _ _ _ _ hfr
      right
      refine ⟨h, f, fr, rfl, hf, hfr, hp, ?_⟩
      by_cases h1 : (pf.ensureCapacity (fr.pageNum + 1) md.fhandle).1 = RC.RC_OK
      · by_cases h2 : (pf.writeBlock fr.pageNum (pf.ensureCapacity (fr.pageNum + 1) md.fhandle).2
            fr.data).1 = RC.RC_OK
        · right
          cases hd : fr.dirty with
          | false =>
            left
            refine ⟨rfl, ?_⟩
            simp only [forcePage, hmd, hf, hg, ensure_page_exists, h1, h2, hd, writtenFile,
              ne_eq, not_true_eq_false, if_false, Bool.false_eq_true]
          | true =>
            right
            refine ⟨rfl, ?_⟩
            simp only [forcePage, hmd, hf, hg, ensure_page_exists, h1, h2, hd, writtenFile,
              ne_eq, not_true_eq_false, if_false, if_true]
        · left
          refine ⟨_, (pf.writeBlock fr.pageNum (pf.ensureCapacity (fr.pageNum + 1) md.fhandle).2
            fr.data).2, h2, ?_⟩
          simp only [forcePage, hmd, hf, hg, ensure_page_exists, h1, h2,
              ne_eq, not_true_eq_false, if_false, not_false_eq_true, if_true]
      · left
        refine ⟨_, (pf.ensureCapacity (fr.pageNum + 1) md.fhandle).2, h1, ?_⟩
        simp only [forcePage, hmd, hf, hg, ensure_page_exists, h1,
              ne_eq, not_false_eq_true, if_true]

theorem flushLoop_inv {σ : Type} (pf : StorageMgr σ) (n k i : Nat) (md : BM_MgmtData σ)
    (h : Inv n md) : Inv n (flushLoop pf k i md).2 := by
  induction k generalizing i md with
  | zero => exact h
  | succ k ih =>
    unfold flushLoop
    dsimp only
    split
    · split
      · exact writeBackIfDirty_inv pf n md i h
      · exact ih _ _ (writeBackIfDirty_inv pf n md i h)
    · exact ih _ _ h

theorem Inv.setDirty {σ : Type} {n : Nat} {md : BM_MgmtData σ} (h : Inv n md) (f : Nat)
    (fr : Frame) (hf : md.frames[f]? = some fr) (b : Bool) (x : σ) (w : Int) :
    Inv n { md with
      fhandle := x
      numWriteIO := w
      frames := md.frames.set f { fr with dirty := b }
      dirtyFlags := md.dirtyFlags.set f b } := by
  refine h.update f { fr with dirty := b } rfl ?_ ?_ ?_ rfl (Or.inl ?_) ?_ ?_
  · exact mirror_same _ _ _ _ _ h.contents (fun y hy => by rw [hf] at hy; cases hy; rfl)
  · exact mirror_upd2 (fun fr => fr.dirty) _ _ _ _ _ h.dirtyF rfl
  · exact mirror_same _ _ _ _ _ h.fixC (fun y hy => by rw [hf] at hy; cases hy; rfl)
  · intro y hy; rw [hf] at hy; cases hy; rfl
  · exact h.ok.emptyFix f fr hf
  · exact h.ok.nonneg f fr hf

theorem Inv.file {σ : Type} {n : Nat} {md : BM_MgmtData σ} (h : Inv n md) (x : σ) :
    Inv n { md with fhandle := x } :=
  ⟨h.len, h.contents, h.dirtyF, h.fixC, h.hand, h.ok⟩

theorem map_range_const {β : Type} (n : Nat) (c : β) (g : Nat → β) (hg : ∀ i, g i = c) :
    (List.range n).map g = List.replicate n c := by
  have : g = fun _ => c := funext hg
  rw [this, List.map_const', List.length_range]

theorem pinPage_poolInv {σ : Type} (pf : StorageMgr σ) (bm : BM_BufferPool σ)
    (page : Option BM_PageHandle) (p : PageNumber) (h : PoolInv bm) :
    PoolInv (pinPage pf bm page p).2.1 := by
  obtain ⟨md, hmd, hinv⟩ := h
  rcases pinPage_cases pf bm md page p hmd with ⟨_, e⟩ | ⟨hp, hd, _, hc⟩
  · rw [e]; exact ⟨md, hmd, hinv⟩
  · have hne : p ≠ NO_PAGE := by
      intro hx; rw [hx] at hp; exact absurd hp (by decide)
    rcases hc with ⟨f, hf, e⟩ | ⟨_, _, e⟩ | ⟨hf, _, t, _, hl⟩
    · rw [e]
      obtain ⟨fr, hfr, hfp, _⟩ := (findFrameByPageNP_some md _ _ f hinv.len).1 hf
      exact ⟨_, rfl, pinHit_inv _ md f fr hinv hfr (by rw [hfp]; exact hne)⟩
    · rw [e]
      exact ⟨_, rfl, pickTarget_inv pf _ _ md hinv⟩
    · have h1 := pickTarget_inv pf bm.strategy bm.numPages md hinv
      have hnew : ∀ (j : Nat) (fj : Frame),
          (pickTarget pf bm.strategy bm.numPages md).2.2.frames[j]? = some fj →
            fj.pageNum ≠ p := by
        intro j fj hj hpj
        have hm : (pickTarget pf bm.strategy bm.numPages md).2.2.frames.map
            (fun fr => fr.pageNum) = md.frames.map (fun fr => fr.pageNum) := by
          rw [← h1.contents, ← hinv.contents]
          rcases pickTarget_cases pf bm.strategy bm.numPages md hinv with
            ⟨_, _, _, _, _, e⟩ | ⟨_, _, _, _, _, _, e⟩ |
            ⟨_, _, _, _, _, _, _, _, _, _, ⟨_, e⟩ | ⟨_, e⟩ | ⟨_, _, _, _, e⟩⟩ <;> rw [e]
        have : (md.frames.map (fun fr => fr.pageNum))[j]? = some p := by
          rw [← hm]; simp [hj, hpj]
        simp only [List.getElem?_map, Option.map_eq_some'] at this
        obtain ⟨a, ha, hap⟩ := this
        exact (findFrameByPageNP_none md _ p hinv.len).1 hf j a ha hap
      have h2 := pinLoad_inv pf bm.numPages _ t p h1 hne hnew
      rcases hl with ⟨_, e⟩ | ⟨_, e⟩ <;> rw [e] <;> exact ⟨_, rfl, h2⟩

theorem unpinPage_poolInv {σ : Type} (bm : BM_BufferPool σ) (page : Option BM_PageHandle)
    (h : PoolInv bm) : PoolInv (unpinPage bm page).2 := by
  obtain ⟨md, hmd, hinv⟩ := h
  rcases unpinPage_cases bm md page hmd hinv.len with ⟨e, _⟩ | ⟨h, f, fr, _, _, hfr, _, hpos, e⟩
  · rw [e]; exact ⟨md, hmd, hinv⟩
  · rw [e]
    refine ⟨_, rfl, ?_⟩
    refine hinv.update f { fr with fixCount := fr.fixCount - 1 } rfl ?_ ?_ ?_ rfl (Or.inl ?_) ?_ ?_
    · exact mirror_same _ _ _ _ _ hinv.contents (fun y hy => by rw [hfr] at hy; cases hy; rfl)
    · exact mirror_same _ _ _ _ _ hinv.dirtyF (fun y hy => by rw [hfr] at hy; cases hy; rfl)
    · exact mirror_upd2 (fun fr => fr.fixCount) _ _ _ _ _ hinv.fixC rfl
    · intro y hy; rw [hfr] at hy; cases hy; rfl
    · intro hp
      have := hinv.ok.emptyFix f fr hfr hp
      omega
    · show 0 ≤ fr.fixCount - 1
      omega

theorem markDirty_poolInv {σ : Type} (bm : BM_BufferPool σ) (page : Option BM_PageHandle)
    (h : PoolInv bm) : PoolInv (markDirty bm page).2 := by
  obtain ⟨md, hmd, hinv⟩ := h
  rcases markDirty_cases bm md page hmd hinv.len with ⟨e, _⟩ | ⟨h, f, fr, _, _, hfr, _, e⟩
  · rw [e]; exact ⟨md, hmd, hinv⟩
  · rw [e]
    exact ⟨_, rfl, hinv.setDirty f fr hfr true md.fhandle md.numWriteIO⟩

theorem forcePage_poolInv {σ : Type} (pf : StorageMgr σ) (bm : BM_BufferPool σ)
    (page : Option BM_PageHandle) (h : PoolInv bm) : PoolInv (forcePage pf bm page).2 := by
  obtain ⟨md, hmd, hinv⟩ := h
  rcases forcePage_cases pf bm md page hmd hinv.len with
    ⟨e, _⟩ | ⟨h, f, fr, _, _, hfr, _, ⟨rc, x, _, e⟩ | ⟨_, e⟩ | ⟨_, e⟩⟩
  · rw [e]; exact ⟨md, hmd, hinv⟩
  · rw [e]; exact ⟨_, rfl, hinv.file x⟩
  · rw [e]; exact ⟨_, rfl, hinv.file _⟩
  · rw [e]; exact ⟨_, rfl, hinv.setDirty f fr hfr false _ _⟩

theorem forceFlushPool_poolInv {σ : Type} (pf : StorageMgr σ) (bm : BM_BufferPool σ)
    (h : PoolInv bm) : PoolInv (forceFlushPool pf bm).2 := by
  obtain ⟨md, hmd, hinv⟩ := h
  simp only [forceFlushPool, hmd]
  exact ⟨_, rfl, flushLoop_inv pf _ _ _ md hinv⟩

theorem writeData_poolInv {σ : Type} (bm : BM_BufferPool σ) (f : Nat) (bytes : PageData)
    (h : PoolInv bm) : PoolInv (writeData bm f bytes) := by
  obtain ⟨md, hmd, hinv⟩ := h
  simp only [writeData, hmd]
  exact ⟨_, rfl, hinv.data f md.fhandle bytes⟩

theorem step_poolInv {σ : Type} (pf : StorageMgr σ) (bm : BM_BufferPool σ) (op : Op)
    (h : PoolInv bm) : PoolInv (step pf bm op).2 := by
  cases op with
  | pin page p => exact pinPage_poolInv pf bm page p h
  | unpin page => exact unpinPage_poolInv bm page h
  | dirty page => exact markDirty_poolInv bm page h
  | force page => exact forcePage_poolInv pf bm page h
  | flush => exact forceFlushPool_poolInv pf bm h
  | write f bytes => exact writeData_poolInv bm f bytes h

theorem run_poolInv {σ : Type} (pf : StorageMgr σ) (bm : BM_BufferPool σ) (ops : List Op)
    (h : PoolInv bm) : PoolInv (run pf bm ops) := by
  induction ops generalizing bm with
  | nil => exact h
  | cons op ops ih => exact ih _ (step_poolInv pf bm op h)

theorem initBufferPool_poolInv {σ : Type} (pf : StorageMgr σ) (bm0 : BM_BufferPool σ)
    (name : String) (n : Nat) (s : ReplacementStrategy) (a : Bool) (mem : Nat → PageData)
    (h : (initBufferPool pf bm0 name n s a mem).1 = RC.RC_OK) :
    PoolInv (initBufferPool pf bm0 name n s a mem).2 := by
  revert h
  unfold initBufferPool
  dsimp only
  split
  · intro h; cases h
  · split
    · intro h; cases h
    · intro _
      refine ⟨_, rfl, ?_⟩
      constructor
      · simp
      · show List.replicate n NO_PAGE = _
        rw [List.map_map]
        exact (map_range_const n NO_PAGE _ (fun _ => rfl)).symm
      · show List.replicate n false = _
        rw [List.map_map]
        exact (map_range_const n false _ (fun _ => rfl)).symm
      · show List.replicate n (0 : Int) = _
        rw [List.map_map]
        exact (map_range_const n (0 : Int) _ (fun _ => rfl)).symm
      · intro hn
        show 0 < n
        exact Nat.pos_of_ne_zero hn
      · constructor
        · intro i j fi fj hi _ _ hne
          simp only [List.getElem?_map, Option.map_eq_some'] at hi
          obtain ⟨_, _, hfi⟩ := hi
          rw [← hfi] at hne
          exact absurd rfl hne
        · intro i fr hi _
          simp only [List.getElem?_map, Option.map_eq_some'] at hi
          obtain ⟨_, _, hfi⟩ := hi
          rw [← hfi]; rfl
        · intro i fr hi
          simp only [List.getElem?_map, Option.map_eq_some'] at hi
          obtain ⟨_, _, hfi⟩ := hi
          rw [← hfi]; exact le_refl _

/-- Every reachable pool is initialised and satisfies the invariant. -/
theorem Reachable.poolInv {σ : Type} {pf : StorageMgr σ} {bm : BM_BufferPool σ}
    (h : Reachable pf bm) : PoolInv bm := by
  obtain ⟨bm0, name, n, s, mem, ops, hok, e⟩ := h
  rw [e]
  exact run_poolInv pf _ ops (initBufferPool_poolInv pf bm0 name n s true mem hok)

theorem run_append {σ : Type} (pf : StorageMgr σ) (b : BM_BufferPool σ) (ops : List Op)
    (op : Op) : run pf b (ops ++ [op]) = (step pf (run pf b ops) op).2 := by
  induction ops generalizing b with
  | nil => rfl
  | cons o ops ih => exact ih (step pf b o).2

theorem Reachable.after_step {σ : Type} {pf : StorageMgr σ} {bm : BM_BufferPool σ}
    (h : Reachable pf bm) (op : Op) : Reachable pf (step pf bm op).2 := by
  obtain ⟨bm0, name, n, s, mem, ops, hok, e⟩ := h
  refine ⟨bm0, name, n, s, mem, ops ++ [op], hok, ?_⟩
  rw [e, run_append]

theorem getElem?_set_self_of {α : Type} {l : List α} {i : Nat} {x : α} (a : α)
    (h : l[i]? = some x) : (l.set i a)[i]? = some a := by
  simp [List.getElem?_set, getElem?_lt h]

theorem getElem?_set_other {α : Type} (l : List α) {i j : Nat} (a : α) (h : i ≠ j) :
    (l.set i a)[j]? = l[j]? := by
  simp [List.getElem?_set, h]

/-- What choosing the target does to a frame: page, fix count, bytes and ticks stay; the
dirty flag changes only on a written-back victim; the reference bit only on an
evictable frame. -/
theorem pickTarget_frame {σ : Type} (pf : StorageMgr σ) (s : ReplacementStrategy) (n : Nat)
    (md : BM_MgmtData σ) (hinv : Inv n md) (i : Nat) (fr : Frame)
    (hfr : md.frames[i]? = some fr) :
    ∃ fr1, (pickTarget pf s n md).2.2.frames[i]? = some fr1 ∧
      fr1 = { fr with dirty := fr1.dirty, ref := fr1.ref } ∧
      (fr1.dirty = fr.dirty ∨
        ((pickTarget pf s n md).2.1 = some i ∧ (pickTarget pf s n md).1 = RC.RC_OK ∧
          fr.evictable ∧ fr.dirty = true ∧ fr1.dirty = false)) ∧
      (fr1.ref = fr.ref ∨ (fr.evictable ∧ fr1.ref = 0)) := by
  have hrc : ∀ (l : List Frame), RefCleared md.frames l →
      ∃ fr1, l[i]? = some fr1 ∧ fr1 = { fr with ref := fr1.ref } ∧
        (fr1.ref = fr.ref ∨ (fr.evictable ∧ fr1.ref = 0)) := by
    intro l hl
    rcases hl i with h | ⟨fr0, h0, hev, h1⟩
    · exact ⟨fr, by rw [h, hfr], rfl, Or.inl rfl⟩
    · rw [hfr] at h0; cases h0
      exact ⟨fr.clearRef, h1, rfl, Or.inr ⟨hev, rfl⟩⟩
  rcases pickTarget_cases pf s n md hinv with
    ⟨t, frt, _, _, _, e⟩ | ⟨_, c, l, hl, _, _, e⟩ |
    ⟨_, c, l, v, frv, hl, _, _, hv, hev, ⟨_, e⟩ | ⟨hd, e⟩ | ⟨_, rc, x, _, e⟩⟩
  · rw [e]; exact ⟨fr, hfr, rfl, Or.inl rfl, Or.inl rfl⟩
  · rw [e]
    obtain ⟨fr1, h1, h2, h3⟩ := hrc l hl
    exact ⟨fr1, h1, by rw [h2], Or.inl (by rw [h2]), h3⟩
  · rw [e]
    obtain ⟨fr1, h1, h2, h3⟩ := hrc l hl
    exact ⟨fr1, h1, by rw [h2], Or.inl (by rw [h2]), h3⟩
  · rw [e]
    obtain ⟨fr1, h1, h2, h3⟩ := hrc l hl
    by_cases hvi : v = i
    · subst hvi
      rw [hv] at h1; cases h1
      refine ⟨{ frv with dirty := false }, getElem?_set_self_of _ hv, ?_, Or.inr ?_, h3⟩
      · rw [h2]
      · refine ⟨rfl, rfl, ?_, ?_, rfl⟩
        · rcases h3 with h3 | h3
          · rw [h2] at hev; exact hev
          · exact h3.1
        · rw [h2] at hd; exact hd
    · refine ⟨fr1, ?_, by rw [h2], Or.inl (by rw [h2]), h3⟩
      show (l.set v _)[i]? = some fr1
      rw [getElem?_set_other _ _ hvi]; exact h1
  · rw [e]
    obtain ⟨fr1, h1, h2, h3⟩ := hrc l hl
    exact ⟨fr1, h1, by rw [h2], Or.inl (by rw [h2]), h3⟩

/-- The target chosen for a load is unpinned, and empty or clean. -/
theorem pickTarget_target {σ : Type} (pf : StorageMgr σ) (s : ReplacementStrategy) (n : Nat)
    (md : BM_MgmtData σ) (hinv : Inv n md) (t : Nat)
    (ht : (pickTarget pf s n md).2.1 = some t) :
    ∃ frt, (pickTarget pf s n md).2.2.frames[t]? = some frt ∧ frt.fixCount = 0 ∧
      ((pickTarget pf s n md).1 = RC.RC_OK → frt.pageNum = NO_PAGE ∨ frt.dirty = false) := by
  rcases pickTarget_cases pf s n md hinv with
    ⟨t', frt, _, hft, hp, e⟩ | ⟨_, c, l, hl, _, _, e⟩ |
    ⟨_, c, l, v, frv, hl, _, _, hv, hev, ⟨hd, e⟩ | ⟨hd, e⟩ | ⟨_, rc, x, hrc, e⟩⟩
  · rw [e] at ht ⊢
    cases ht
    exact ⟨frt, hft, hinv.ok.emptyFix _ frt hft hp, fun _ => Or.inl hp⟩
  · rw [e] at ht; cases ht
  · rw [e] at ht ⊢
    cases ht
    exact ⟨frv, hv, hev.2, fun _ => Or.inr hd⟩
  · rw [e] at ht ⊢
    cases ht
    exact ⟨{ frv with dirty := false }, getElem?_set_self_of _ hv, hev.2, fun _ => Or.inr rfl⟩
  · rw [e] at ht ⊢
    cases ht
    exact ⟨frv, hv, hev.2, fun h => absurd h hrc⟩

/-- A failed load leaves every frame as it was, up to the bytes of the target slot. -/
theorem pinLoad_fail_frame {σ : Type} (pf : StorageMgr σ) (md : BM_MgmtData σ) (t : Nat)
    (p : PageNumber) (hrc : (pinLoad pf md t p).1 ≠ RC.RC_OK) (i : Nat) (fr : Frame)
    (hfr : md.frames[i]? = some fr) :
    ∃ d, (pinLoad pf md t p).2.frames[i]? = some { fr with data := d } ∧
      (i ≠ t → d = fr.data) := by
  obtain ⟨_, x, d, hx⟩ := pinLoad_fail pf md t p hrc
  rw [hx]
  by_cases hti : t = i
  · subst hti
    refine ⟨d, ?_, fun h => absurd rfl h⟩
    show (md.frames.set t _)[t]? = _
    rw [getElem?_set_self_of _ hfr, getD_of_getElem? _ _ _ _ hfr]
  · refine ⟨fr.data, ?_, fun _ => rfl⟩
    show (md.frames.set t _)[i]? = _
    rw [getElem?_set_other _ _ hti]; exact hfr

theorem pinHit_eq {σ : Type} (md : BM_MgmtData σ) (f : Nat) (fr : Frame)
    (hf : md.frames[f]? = some fr) :
    pinHit md f =
      { md with
        tick := md.tick + 1
        fixCounts := md.fixCounts.set f (fr.fixCount + 1)
        frames := md.frames.set f (hitFrame fr md.tick) } := by
  have hg : md.frames.getD f default = fr := getD_of_getElem? _ _ _ _ hf
  simp only [pinHit, record_access, hg, getD_set_self _ _ _ _ (getElem?_lt hf), List.set_set,
    hitFrame]


theorem freshPool_reachable (n : Nat) (s : ReplacementStrategy) (ops : List Op) :
    Reachable (idealFile 4) (run (idealFile 4) (freshPool n s) ops) :=
  ⟨blankPool, "pages.bin", n, s, fun _ => [], ops, rfl, rfl⟩


theorem writeBackIfDirty_frame {σ : Type} (pf : StorageMgr σ) (md : BM_MgmtData σ) (i : Nat)
    (j : Nat) (fr : Frame) (hfr : md.frames[j]? = some fr) :
    ∃ fr1, (writeBackIfDirty pf md i).2.frames[j]? = some fr1 ∧
      fr1 = { fr with dirty := fr1.dirty } ∧
      (fr1.dirty = fr.dirty ∨
        (j = i ∧ fr.dirty = true ∧ fr1.dirty = false ∧
          (writeBackIfDirty pf md i).1 = RC.RC_OK)) := by
  by_cases hrc : (writeBackIfDirty pf md i).1 = RC.RC_OK
  · cases hd : (md.frames.getD i default).dirty with
    | false =>
      rw [writeBackIfDirty_clean pf md i hd]
      exact ⟨fr, hfr, rfl, Or.inl rfl⟩
    | true =>
      rw [writeBackIfDirty_ok pf md i hd hrc]
      by_cases hij : i = j
      · subst hij
        rw [getD_of_getElem? _ _ _ _ hfr] at hd
        refine ⟨{ fr with dirty := false }, ?_, rfl, Or.inr ⟨rfl, hd, rfl, hrc⟩⟩
        show (md.frames.set i _)[i]? = _
        rw [getElem?_set_self_of _ hfr, getD_of_getElem? _ _ _ _ hfr]
      · refine ⟨fr, ?_, rfl, Or.inl rfl⟩
        show (md.frames.set i _)[j]? = _
        rw [getElem?_set_other _ _ hij]; exact hfr
  · obtain ⟨_, x, hx⟩ := writeBackIfDirty_fail pf md i hrc
    rw [hx]
    exact ⟨fr, hfr, rfl, Or.inl rfl⟩

theorem writeBackIfDirty_counters {σ : Type} (pf : StorageMgr σ) (md : BM_MgmtData σ)
    (i : Nat) :
    (writeBackIfDirty pf md i).2.tick = md.tick ∧
      BM_MgmtData.numReadIO (writeBackIfDirty pf md i).2 = md.numReadIO ∧
      (writeBackIfDirty pf md i).2.clockHand = md.clockHand ∧
      BM_MgmtData.numWriteIO (writeBackIfDirty pf md i).2 =
        md.numWriteIO +
          (if (md.frames.getD i default).dirty = true ∧
              (writeBackIfDirty pf md i).1 = RC.RC_OK then 1 else 0) := by
  by_cases hrc : (writeBackIfDirty pf md i).1 = RC.RC_OK
  · cases hd : (md.frames.getD i default).dirty with
    | false =>
      rw [writeBackIfDirty_clean pf md i hd]
      refine ⟨rfl, rfl, rfl, ?_⟩
      rw [if_neg (by rintro ⟨h, _⟩; cases h)]
      simp
    | true =>
      rw [if_pos ⟨rfl, hrc⟩, writeBackIfDirty_ok pf md i hd hrc]
      exact ⟨rfl, rfl, rfl, rfl⟩
  · obtain ⟨_, x, hx⟩ := writeBackIfDirty_fail pf md i hrc
    rw [if_neg (fun h => hrc h.2), hx]
    refine ⟨rfl, rfl, rfl, ?_⟩
    simp

theorem drop_take_succ (l : List Frame) (i k : Nat) :
    (l.drop i).take (k + 1) =
      (match l[i]? with
        | some fr => fr :: (l.drop (i + 1)).take k
        | none => []) := by
  cases h : l[i]? with
  | none =>
    have : l.length ≤ i := by simpa using h
    rw [List.drop_of_length_le this]
    rfl
  | some fr =>
    have hlt := getElem?_lt h
    rw [List.drop_eq_getElem_cons hlt]
    have : l[i] = fr := by
      have := List.getElem?_eq_getElem hlt
      rw [h] at this; cases this; rfl
    rw [this]
    rfl

/-- The flush loop over slots `i .. i + k - 1`: only dirty flags of flushable frames in
that range are cleared; on success every one of them is, and each one counts as a
write. -/
theorem flushLoop_spec {σ : Type} (pf : StorageMgr σ) (k i : Nat) (md : BM_MgmtData σ) :
    ((flushLoop pf k i md).2.tick = md.tick ∧
        BM_MgmtData.numReadIO (flushLoop pf k i md).2 = md.numReadIO ∧
        (flushLoop pf k i md).2.clockHand = md.clockHand ∧
        md.numWriteIO ≤ BM_MgmtData.numWriteIO (flushLoop pf k i md).2) ∧
      (∀ (j : Nat) (fr : Frame), md.frames[j]? = some fr →
        ∃ fr1, (flushLoop pf k i md).2.frames[j]? = some fr1 ∧
          fr1 = { fr with dirty := fr1.dirty } ∧
          (fr1.dirty = fr.dirty ∨ (fr.flushable ∧ fr1.dirty = false ∧ i ≤ j ∧ j < i + k)) ∧
          ((flushLoop pf k i md).1 = RC.RC_OK → i ≤ j → j < i + k → fr.flushable →
            fr1.dirty = false)) ∧
      ((flushLoop pf k i md).1 = RC.RC_OK →
        BM_MgmtData.numWriteIO (flushLoop pf k i md).2 =
          md.numWriteIO + (((md.frames.drop i).take k).countP (fun fr => decide fr.flushable))) := by
  induction k generalizing i md with
  | zero =>
    refine ⟨⟨rfl, rfl, rfl, le_refl _⟩, ?_, ?_⟩
    · intro j fr hfr
      exact ⟨fr, hfr, rfl, Or.inl rfl, fun _ h1 h2 => by omega⟩
    · intro _
      show md.numWriteIO = _
      simp
  | succ k ih =>
    by_cases hc : (md.frames.getD i default).pageNum ≠ NO_PAGE ∧
        (md.frames.getD i default).dirty = true ∧ (md.frames.getD i default).fixCount = 0
    · obtain ⟨ht, hr, hch, hw⟩ := writeBackIfDirty_counters pf md i
      have hlt : i < md.frames.length := by
        by_contra hn
        have : md.frames.getD i default = default := by
          apply getD_of_none; simp; omega
        rw [this] at hc
        exact hc.1 rfl
      have hgi : md.frames[i]? = some (md.frames.getD i default) := by
        rw [List.getD_eq_getElem _ _ hlt]; exact List.getElem?_eq_getElem hlt
      by_cases hrc : (writeBackIfDirty pf md i).1 = RC.RC_OK
      · have e : flushLoop pf (k + 1) i md =
            flushLoop pf k (i + 1) (writeBackIfDirty pf md i).2 := by
          conv => lhs; unfold flushLoop
          dsimp only
          rw [if_pos hc, if_neg (not_not.mpr hrc)]
        rw [e]
        obtain ⟨⟨a1, a2, a3, a4⟩, hb, hd⟩ := ih (i + 1) (writeBackIfDirty pf md i).2
        rw [if_pos ⟨hc.2.1, hrc⟩] at hw
        refine ⟨⟨by rw [a1, ht], by rw [a2, hr], by rw [a3, hch], by omega⟩, ?_, ?_⟩
        · intro j fr hfr
          obtain ⟨fr0, h0, h1, h2⟩ := writeBackIfDirty_frame pf md i j fr hfr
          obtain ⟨fr1, h3, h4, h5, h6⟩ := hb j fr0 h0
          refine ⟨fr1, h3, by rw [h4, h1], ?_, ?_⟩
          · rcases h2 with h2 | ⟨hji, hfd, hf0, _⟩
            · rcases h5 with h5 | ⟨hfl, h5, h7, h8⟩
              · left; rw [h5, h2]
              · right
                refine ⟨?_, h5, by omega, by omega⟩
                rw [h1] at hfl
                exact ⟨hfl.1, by rw [← h2]; exact hfl.2.1, hfl.2.2⟩
            · right
              subst hji
              rw [hgi] at hfr; cases hfr
              refine ⟨hc, ?_, le_refl _, by omega⟩
              rcases h5 with h5 | ⟨_, h5, _, _⟩
              · rw [h5, hf0]
              · exact h5
          · intro hok hij hjk hfl
            by_cases hji : j = i
            · subst hji
              rcases h2 with h2 | ⟨_, _, hf0, _⟩
              · rw [hgi] at hfr; cases hfr
                have hx := writeBackIfDirty_ok pf md j hc.2.1 hrc
                rw [hx] at h0
                have : (md.frames.set j _)[j]? = some fr0 := h0
                rw [getElem?_set_self_of _ hgi] at this
                cases this
                rcases h5 with h5 | ⟨_, h5, _, _⟩
                · rw [h5]
                · exact h5
              · rcases h5 with h5 | ⟨_, h5, _, _⟩
                · rw [h5, hf0]
                · exact h5
            · have hfl0 : fr0.flushable := by
                rcases h2 with h2 | ⟨h2, _⟩
                · rw [h1]; exact ⟨hfl.1, by rw [h2]; exact hfl.2.1, hfl.2.2⟩
                · exact absurd h2 hji
              exact h6 hok (by omega) (by omega) hfl0
        · intro hok
          rw [hd hok, hw, drop_take_succ, hgi]
          have hfl : (md.frames.getD i default).flushable := hc
          have hdrop : (writeBackIfDirty pf md i).2.frames.drop (i + 1) =
              md.frames.drop (i + 1) := by
            rw [writeBackIfDirty_ok pf md i hc.2.1 hrc]
            show (md.frames.set i _).drop (i + 1) = _
            rw [List.drop_set_of_lt _ _ (by omega)]
          rw [hdrop]
          simp only [List.countP_cons, hfl, decide_True, if_true]
          push_cast
          ring
      · have e : flushLoop pf (k + 1) i md = writeBackIfDirty pf md i := by
          conv => lhs; unfold flushLoop
          dsimp only
          rw [if_pos hc, if_pos hrc]
        rw [e]
        rw [if_neg (fun h => hrc h.2)] at hw
        refine ⟨⟨ht, hr, hch, by omega⟩, ?_, fun h => absurd h hrc⟩
        intro j fr hfr
        obtain ⟨fr0, h0, h1, h2⟩ := writeBackIfDirty_frame pf md i j fr hfr
        refine ⟨fr0, h0, h1, ?_, fun h => absurd h hrc⟩
        rcases h2 with h2 | ⟨_, _, _, h2⟩
        · exact Or.inl h2
        · exact absurd h2 hrc
    · have e : flushLoop pf (k + 1) i md = flushLoop pf k (i + 1) md := by
        conv => lhs; unfold flushLoop
        dsimp only
        rw [if_neg hc]
      rw [e]
      obtain ⟨ha, hb, hd⟩ := ih (i + 1) md
      refine ⟨ha, ?_, ?_⟩
      · intro j fr hfr
        obtain ⟨fr1, h3, h4, h5, h6⟩ := hb j fr hfr
        refine ⟨fr1, h3, h4, ?_, ?_⟩
        · rcases h5 with h5 | ⟨hfl, h5, h7, h8⟩
          · exact Or.inl h5
          · exact Or.inr ⟨hfl, h5, by omega, by omega⟩
        · intro hok hij hjk hfl
          by_cases hji : j = i
          · subst hji
            rw [getD_of_getElem? _ _ _ _ hfr] at hc
            exact absurd hfl hc
          · exact h6 hok (by omega) (by omega) hfl
      · intro hok
        rw [hd hok, drop_take_succ]
        cases hx : md.frames[i]? with
        | none =>
          have : md.frames.length ≤ i + 1 := by
            have : md.frames.length ≤ i := by simpa using hx
            omega
          rw [List.drop_of_length_le this]
          simp
        | some fr =>
          rw [getD_of_getElem? _ _ _ _ hx] at hc
          have hnf : ¬ fr.flushable := hc
          simp only [List.countP_cons, hnf, decide_False, Bool.false_eq_true, if_false]
          simp

theorem pinPage_md {σ : Type} (pf : StorageMgr σ) (bm : BM_BufferPool σ)
    (page : Option BM_PageHandle) (p : PageNumber) (h : PoolInv bm) :
    ∃ md1, (pinPage pf bm page p).2.1 = { bm with mgmtData := some md1 } ∧
      Inv bm.numPages md1 := by
  have h1 := pinPage_poolInv pf bm page p h
  obtain ⟨md, hmd, hinv⟩ := h
  rcases pinPage_cases pf bm md page p hmd with ⟨_, e⟩ | ⟨_, _, _, ⟨_, _, e⟩ | ⟨_, _, e⟩ |
    ⟨_, _, _, _, ⟨_, e⟩ | ⟨_, e⟩⟩⟩
  · rw [e]
    refine ⟨md, ?_, hinv⟩
    cases bm
    simp only at hmd
    subst hmd
    rfl
  all_goals
    rw [e] at h1 ⊢
    obtain ⟨md1, hmd1, hinv1⟩ := h1
    cases hmd1
    exact ⟨_, rfl, hinv1⟩

theorem IsFirstMin.unique {key : Frame → Int} {l : List Frame} {v w : Nat}
    (hv : IsFirstMin key l v) (hw : IsFirstMin key l w) : v = w := by
  obtain ⟨fv, hfv, hev, hminv⟩ := hv
  obtain ⟨fw, hfw, hew, hminw⟩ := hw
  rcases Nat.lt_trichotomy v w with h | h | h
  · have h1 := (hminw v fv hfv hev).2 h
    have h2 := (hminv w fw hfw hew).1
    omega
  · exact h
  · have h1 := (hminv w fw hfw hew).2 h
    have h2 := (hminw v fv hfv hev).1
    omega

theorem keyScan_isFirstMin (s : ReplacementStrategy) (l : List Frame) (v : Nat) :
    keyScan s l 0 none 0 = some v ↔ IsFirstMin (victim_key s) l v := by
  have fwd : ∀ w, keyScan s l 0 none 0 = some w → IsFirstMin (victim_key s) l w := by
    intro w h
    rcases keyScan_some s l 0 none 0 w h with ⟨hb, _⟩ | ⟨j, fr, hvj, hj, hfr, _, hmin⟩
    · cases hb
    · rw [Nat.zero_add] at hvj
      subst hvj
      exact ⟨fr, hj, hfr, hmin⟩
  constructor
  · exact fwd v
  · intro h
    cases hk : keyScan s l 0 none 0 with
    | none =>
      obtain ⟨fr, hfr, hev, _⟩ := h
      exact absurd hev (((keyScan_none s l 0 none 0).1 hk).2 fr (List.getElem?_mem hfr))
    | some w =>
      rw [(fwd w hk).unique h]

theorem selectVictim_key {σ : Type} (s : ReplacementStrategy) (n : Nat) (md : BM_MgmtData σ)
    (hs : s ≠ .RS_CLOCK) :
    selectVictim s n md = (keyScan s (md.frames.take n) 0 none 0, md) := by
  simp only [selectVictim, hs, if_false]

theorem add_mod_inj (h a b n : Nat) (ha : a < n) (hb : b < n)
    (e : (h + a) % n = (h + b) % n) : a = b := by
  have h1 : a ≡ b [MOD n] := Nat.ModEq.add_left_cancel' h e
  have h2 : a % n = b % n := h1
  rwa [Nat.mod_eq_of_lt ha, Nat.mod_eq_of_lt hb] at h2

theorem exists_offset (h j n : Nat) (hh : h < n) (hj : j < n) :
    ∃ d, d < n ∧ (h + d) % n = j := by
  by_cases hle : h ≤ j
  · exact ⟨j - h, by omega, by rw [show h + (j - h) = j by omega]; exact Nat.mod_eq_of_lt hj⟩
  · refine ⟨n - h + j, by omega, ?_⟩
    rw [show h + (n - h + j) = j + n by omega, Nat.add_mod_right]
    exact Nat.mod_eq_of_lt hj

/-- One iteration of the CLOCK loop on a frame that is not returned. -/
theorem clockSweep_step {σ : Type} (n k : Nat) (md : BM_MgmtData σ) (fr : Frame)
    (hfr : md.frames[md.clockHand]? = some fr) (h : fr.evictable → fr.ref ≠ 0) :
    clockSweep n (k + 1) md =
      clockSweep n k
        { md with
          clockHand := (md.clockHand + 1) % n
          frames := md.frames.set md.clockHand (if fr.evictable then fr.clearRef else fr) } := by
  have hg : md.frames.getD md.clockHand default = fr := getD_of_getElem? _ _ _ _ hfr
  by_cases hc : fr.evictable
  · have hr := h hc
    have hc1 : fr.pageNum ≠ NO_PAGE ∧ fr.fixCount = 0 := hc
    conv => lhs; unfold clockSweep
    dsimp only
    rw [hg, if_pos hc1, if_neg hr, if_pos hc]
    rfl
  · have hc1 : ¬ (fr.pageNum ≠ NO_PAGE ∧ fr.fixCount = 0) := hc
    conv => lhs; unfold clockSweep
    dsimp only
    rw [hg, if_neg hc1, if_neg hc]
    congr 2
    have := set_getD_self md.frames md.clockHand default
    rw [hg] at this
    rw [this]

/-- One iteration of the CLOCK loop on an evictable frame with a clear reference bit. -/
theorem clockSweep_hit {σ : Type} (n k : Nat) (md : BM_MgmtData σ) (fr : Frame)
    (hfr : md.frames[md.clockHand]? = some fr) (hc : fr.evictable) (hr : fr.ref = 0) :
    clockSweep n (k + 1) md =
      (some md.clockHand, { md with clockHand := (md.clockHand + 1) % n }) := by
  have hg : md.frames.getD md.clockHand default = fr := getD_of_getElem? _ _ _ _ hfr
  have hc1 : fr.pageNum ≠ NO_PAGE ∧ fr.fixCount = 0 := hc
  conv => lhs; unfold clockSweep
  dsimp only
  rw [hg, if_pos hc1, if_pos hr]

/-- The CLOCK loop passes over `m` frames none of which is evictable with a clear
reference bit: the hand advances by `m` and the evictable frames passed lose their bit. -/
theorem clockSweep_skip {σ : Type} (n m : Nat) :
    ∀ (k : Nat) (md : BM_MgmtData σ), m ≤ n → m ≤ k → md.clockHand < n →
      md.frames.length = n →
      (∀ (d : Nat) (fr : Frame), d < m → md.frames[(md.clockHand + d) % n]? = some fr →
        fr.evictable → fr.ref ≠ 0) →
      ∃ l, clockSweep n k md =
          clockSweep n (k - m) { md with clockHand := (md.clockHand + m) % n, frames := l } ∧
        l.length = n ∧
        ∀ (j : Nat) (fr : Frame), md.frames[j]? = some fr →
          l[j]? = some (if (∃ d, d < m ∧ (md.clockHand + d) % n = j) ∧ fr.evictable
            then fr.clearRef else fr) := by
  induction m with
  | zero =>
    intro k md _ _ hh hlen _
    refine ⟨md.frames, ?_, hlen, ?_⟩
    · rw [Nat.add_zero, Nat.mod_eq_of_lt hh, Nat.sub_zero]
    · intro j fr hfr
      rw [if_neg (by rintro ⟨⟨d, hd, _⟩, _⟩; omega)]
      exact hfr
  | succ m ih =>
    intro k md hmn hmk hh hlen hyp
    obtain ⟨k, rfl⟩ : ∃ k', k = k' + 1 := ⟨k - 1, by omega⟩
    have hn : 0 < n := by omega
    have hlt : md.clockHand < md.frames.length := by omega
    have hfr0 : md.frames[md.clockHand]? = some md.frames[md.clockHand] :=
      List.getElem?_eq_getElem hlt
    generalize md.frames[md.clockHand] = fr0 at hfr0
    have h0 : fr0.evictable → fr0.ref ≠ 0 := by
      intro hev
      refine hyp 0 fr0 (by omega) ?_ hev
      rw [Nat.add_zero, Nat.mod_eq_of_lt hh]; exact hfr0
    rw [clockSweep_step n k md fr0 hfr0 h0]
    have hl1 : ∀ (j : Nat) (fr : Frame), md.frames[j]? = some fr →
        (md.frames.set md.clockHand (if fr0.evictable then fr0.clearRef else fr0))[j]? =
          some (if j = md.clockHand ∧ fr.evictable then fr.clearRef else fr) := by
      intro j fr hfr
      by_cases hj : md.clockHand = j
      · subst hj
        rw [hfr0] at hfr; cases hfr
        rw [getElem?_set_self_of _ hfr0]
        by_cases hev : fr0.evictable
        · rw [if_pos hev, if_pos ⟨rfl, hev⟩]
        · rw [if_neg hev, if_neg (fun h => hev h.2)]
      · rw [getElem?_set_other _ _ hj, if_neg (fun h => hj h.1.symm)]
        exact hfr
    have hmod : ∀ d, ((md.clockHand + 1) % n + d) % n = (md.clockHand + (d + 1)) % n := by
      intro d
      rw [Nat.mod_add_mod]
      congr 1
      omega
    obtain ⟨l, hl, hlen2, hfr2⟩ := ih k
      { md with
        clockHand := (md.clockHand + 1) % n
        frames := md.frames.set md.clockHand (if fr0.evictable then fr0.clearRef else fr0) }
      (by omega) (by omega) (Nat.mod_lt _ hn) (by rw [List.length_set]; exact hlen)
      (by
        intro d fr1 hd hfr1 hev1
        dsimp only at hfr1
        rw [hmod d] at hfr1
        have hne : md.clockHand ≠ (md.clockHand + (d + 1)) % n := by
          intro e
          have e2 : (md.clockHand + 0) % n = (md.clockHand + (d + 1)) % n := by
            rw [Nat.add_zero, Nat.mod_eq_of_lt hh]; exact e
          have := add_mod_inj md.clockHand 0 (d + 1) n hn (by omega) e2
          omega
        rw [getElem?_set_other _ _ hne] at hfr1
        exact hyp (d + 1) fr1 (by omega) hfr1 hev1)
    refine ⟨l, ?_, hlen2, ?_⟩
    · rw [hl]
      dsimp only
      rw [hmod m, Nat.add_sub_add_right]
    · intro j fr hfr
      have h1 := hfr2 j _ (hl1 j fr hfr)
      rw [h1]
      dsimp only
      congr 1
      have hC : (∃ d, d < m + 1 ∧ (md.clockHand + d) % n = j) ↔
          (j = md.clockHand ∨ ∃ d, d < m ∧ ((md.clockHand + 1) % n + d) % n = j) := by
        constructor
        · rintro ⟨d, hd, e⟩
          cases d with
          | zero =>
            left
            rw [Nat.add_zero, Nat.mod_eq_of_lt hh] at e
            exact e.symm
          | succ d =>
            right
            exact ⟨d, by omega, by rw [hmod d]; exact e⟩
        · rintro (e | ⟨d, hd, e⟩)
          · exact ⟨0, by omega, by rw [Nat.add_zero, Nat.mod_eq_of_lt hh]; exact e.symm⟩
          · exact ⟨d + 1, by omega, by rw [← hmod d]; exact e⟩
      by_cases hev : fr.evictable
      · by_cases hA : j = md.clockHand
        · have hAE : j = md.clockHand ∧ fr.evictable := ⟨hA, hev⟩
          have hCE : (∃ d, d < m + 1 ∧ (md.clockHand + d) % n = j) ∧ fr.evictable :=
            ⟨hC.2 (Or.inl hA), hev⟩
          rw [if_pos hAE, if_pos hCE]
          by_cases hB : ∃ d, d < m ∧ ((md.clockHand + 1) % n + d) % n = j
          · have hBE : (∃ d, d < m ∧ ((md.clockHand + 1) % n + d) % n = j) ∧
                fr.clearRef.evictable := ⟨hB, hev⟩
            rw [if_pos hBE]; rfl
          · have hBE : ¬ ((∃ d, d < m ∧ ((md.clockHand + 1) % n + d) % n = j) ∧
                fr.clearRef.evictable) := fun h => hB h.1
            rw [if_neg hBE]
        · have hAE : ¬ (j = md.clockHand ∧ fr.evictable) := fun h => hA h.1
          rw [if_neg hAE]
          by_cases hB : ∃ d, d < m ∧ ((md.clockHand + 1) % n + d) % n = j
          · have hBE : (∃ d, d < m ∧ ((md.clockHand + 1) % n + d) % n = j) ∧
                fr.evictable := ⟨hB, hev⟩
            have hCE : (∃ d, d < m + 1 ∧ (md.clockHand + d) % n = j) ∧ fr.evictable :=
              ⟨hC.2 (Or.inr hB), hev⟩
            rw [if_pos hBE, if_pos hCE]
          · have hBE : ¬ ((∃ d, d < m ∧ ((md.clockHand + 1) % n + d) % n = j) ∧
                fr.evictable) := fun h => hB h.1
            have hCE : ¬ ((∃ d, d < m + 1 ∧ (md.clockHand + d) % n = j) ∧ fr.evictable) := by
              rintro ⟨hc, _⟩
              rcases hC.1 hc with h | h
              · exact hA h
              · exact hB h
            rw [if_neg hBE, if_neg hCE]
      · have hAE : ¬ (j = md.clockHand ∧ fr.evictable) := fun h => hev h.2
        have hCE : ¬ ((∃ d, d < m + 1 ∧ (md.clockHand + d) % n = j) ∧ fr.evictable) :=
          fun h => hev h.2
        have hBE : ¬ ((∃ d, d < m ∧ ((md.clockHand + 1) % n + d) % n = j) ∧
            fr.evictable) := fun h => hev h.2
        rw [if_neg hAE, if_neg hBE, if_neg hCE]

/-- The CLOCK loop reaches, after `d0` frames without a victim, an evictable frame with
a clear reference bit, and returns it. -/
theorem clockSweep_find {σ : Type} (n k d0 : Nat) (md : BM_MgmtData σ) (fr : Frame)
    (hd0 : d0 < n) (hk : d0 < k) (hh : md.clockHand < n) (hlen : md.frames.length = n)
    (hfr : md.frames[(md.clockHand + d0) % n]? = some fr) (hev : fr.evictable)
    (hr : fr.ref = 0)
    (hyp : ∀ (d : Nat) (f : Frame), d < d0 → md.frames[(md.clockHand + d) % n]? = some f →
      f.evictable → f.ref ≠ 0) :
    ∃ l, clockSweep n k md =
        (some ((md.clockHand + d0) % n),
          { md with clockHand := ((md.clockHand + d0) % n + 1) % n, frames := l }) ∧
      l.length = n ∧
      ∀ (j : Nat) (fj : Frame), md.frames[j]? = some fj →
        l[j]? = some (if (∃ d, d < d0 ∧ (md.clockHand + d) % n = j) ∧ fj.evictable
          then fj.clearRef else fj) := by
  obtain ⟨l, hl, hlen2, hfr2⟩ := clockSweep_skip n d0 k md (by omega) (by omega) hh hlen hyp
  refine ⟨l, ?_, hlen2, hfr2⟩
  rw [hl]
  obtain ⟨k1, hk1⟩ : ∃ k1, k - d0 = k1 + 1 := ⟨k - d0 - 1, by omega⟩
  rw [hk1]
  have hv : l[(md.clockHand + d0) % n]? = some fr := by
    rw [hfr2 _ fr hfr, if_neg]
    rintro ⟨⟨d, hd, e⟩, _⟩
    have := add_mod_inj md.clockHand d d0 n (by omega) hd0 e
    omega
  exact clockSweep_hit n k1
    { md with clockHand := (md.clockHand + d0) % n, frames := l } fr hv hev hr

/-- With no evictable frame the bounded CLOCK sweep gives up after `2 * n` steps and
leaves the pool, hand included, as it was. -/
theorem clockSweep_none {σ : Type} (n : Nat) (md : BM_MgmtData σ) (hh : md.clockHand < n)
    (hlen : md.frames.length = n) (hno : ∀ fr ∈ md.frames, ¬ fr.evictable) :
    clockSweep n (2 * n) md = (none, md) := by
  have once : ∀ k, n ≤ k → clockSweep n k md = clockSweep n (k - n) md := by
    intro k hk
    obtain ⟨l, hl, hlen2, hfr2⟩ := clockSweep_skip n n k md (le_refl _) hk hh hlen
      (fun d f _ hf hev => absurd hev (hno f (List.getElem?_mem hf)))
    have hll : l = md.frames := by
      apply List.ext_getElem?
      intro j
      cases hj : md.frames[j]? with
      | none =>
        have : md.frames.length ≤ j := by simpa using hj
        simp; omega
      | some fj =>
        rw [hfr2 j fj hj, if_neg (fun h => hno fj (List.getElem?_mem hj) h.2)]
    rw [hl, hll, Nat.add_mod_right, Nat.mod_eq_of_lt hh]
  rw [once (2 * n) (by omega), show 2 * n - n = n by omega, once n (le_refl _), Nat.sub_self]
  rfl

/-- The victim of CLOCK when some frame is evictable. -/
theorem clockSweep_victim {σ : Type} (n : Nat) (md : BM_MgmtData σ) (hh : md.clockHand < n)
    (hlen : md.frames.length = n) (hex : ∃ fr ∈ md.frames, fr.evictable) :
    ∃ d fr l, d < n ∧ md.frames[(md.clockHand + d) % n]? = some fr ∧ fr.evictable ∧
      clockSweep n (2 * n) md =
        (some ((md.clockHand + d) % n),
          { md with clockHand := ((md.clockHand + d) % n + 1) % n, frames := l }) ∧
      ((fr.ref = 0 ∧
          (∀ (e : Nat) (f : Frame), e < d → md.frames[(md.clockHand + e) % n]? = some f →
            f.evictable → f.ref ≠ 0) ∧
          ∀ (j : Nat) (fj : Frame), md.frames[j]? = some fj →
            l[j]? = some (if (∃ e, e < d ∧ (md.clockHand + e) % n = j) ∧ fj.evictable
              then fj.clearRef else fj)) ∨
        ((∀ f ∈ md.frames, f.evictable → f.ref ≠ 0) ∧
          (∀ (e : Nat) (f : Frame), e < d → md.frames[(md.clockHand + e) % n]? = some f →
            ¬ f.evictable) ∧
          ∀ (j : Nat) (fj : Frame), md.frames[j]? = some fj →
            l[j]? = some (if fj.evictable then fj.clearRef else fj))) := by
  classical
  have hn : 0 < n := by omega
  by_cases h0 : ∃ d, d < n ∧ ∃ fr, md.frames[(md.clockHand + d) % n]? = some fr ∧
      fr.evictable ∧ fr.ref = 0
  · -- some evictable frame has a clear bit: the first one in cyclic order is the victim
    have hmin := fun (m : Nat) (hm : m < Nat.find h0) => Nat.find_min h0 hm
    obtain ⟨hd, fr, hfr, hev, hr⟩ := Nat.find_spec h0
    generalize Nat.find h0 = d at hmin hd hfr
    have hyp : ∀ (e : Nat) (f : Frame), e < d → md.frames[(md.clockHand + e) % n]? = some f →
        f.evictable → f.ref ≠ 0 := by
      intro e f he hf hfe hfr0
      exact hmin e he ⟨by omega, f, hf, hfe, hfr0⟩
    obtain ⟨l, hl, _, hfr2⟩ := clockSweep_find n (2 * n) d md fr hd (by omega) hh hlen hfr hev
      hr hyp
    exact ⟨d, fr, l, hd, hfr, hev, hl, Or.inl ⟨hr, hyp, hfr2⟩⟩
  · -- every evictable frame has its bit set: one lap clears them all
    have hall : ∀ f ∈ md.frames, f.evictable → f.ref ≠ 0 := by
      intro f hf hfe hfr0
      obtain ⟨j, hj⟩ := List.getElem?_of_mem hf
      obtain ⟨d, hd, e⟩ := exists_offset md.clockHand j n hh (by rw [← hlen]; exact getElem?_lt hj)
      exact h0 ⟨d, hd, f, by rw [e]; exact hj, hfe, hfr0⟩
    obtain ⟨l, hl, hlen2, hfr2⟩ := clockSweep_skip n n (2 * n) md (le_refl _) (by omega) hh hlen
      (fun d f _ hf hev => hall f (List.getElem?_mem hf) hev)
    have hl2 : ∀ (j : Nat) (fj : Frame), md.frames[j]? = some fj →
        l[j]? = some (if fj.evictable then fj.clearRef else fj) := by
      intro j fj hj
      rw [hfr2 j fj hj]
      congr 1
      by_cases hev : fj.evictable
      · obtain ⟨d, hd, e⟩ := exists_offset md.clockHand j n hh
          (by rw [← hlen]; exact getElem?_lt hj)
        have hc : (∃ d, d < n ∧ (md.clockHand + d) % n = j) ∧ fj.evictable := ⟨⟨d, hd, e⟩, hev⟩
        rw [if_pos hc, if_pos hev]
      · have hc : ¬ ((∃ d, d < n ∧ (md.clockHand + d) % n = j) ∧ fj.evictable) :=
          fun h => hev h.2
        rw [if_neg hc, if_neg hev]
    -- the first evictable frame in cyclic order
    have h1 : ∃ d, d < n ∧ ∃ fr, md.frames[(md.clockHand + d) % n]? = some fr ∧
        fr.evictable := by
      obtain ⟨f, hf, hfe⟩ := hex
      obtain ⟨j, hj⟩ := List.getElem?_of_mem hf
      obtain ⟨d, hd, e⟩ := exists_offset md.clockHand j n hh (by rw [← hlen]; exact getElem?_lt hj)
      exact ⟨d, hd, f, by rw [e]; exact hj, hfe⟩
    have hmin := fun (m : Nat) (hm : m < Nat.find h1) => Nat.find_min h1 hm
    obtain ⟨hd, fr, hfr, hev⟩ := Nat.find_spec h1
    generalize Nat.find h1 = d at hmin hd hfr
    have hyp : ∀ (e : Nat) (f : Frame), e < d → md.frames[(md.clockHand + e) % n]? = some f →
        ¬ f.evictable := by
      intro e f he hf hfe
      exact hmin e he ⟨by omega, f, hf, hfe⟩
    have hh2 : (md.clockHand + n) % n = md.clockHand := by
      rw [Nat.add_mod_right, Nat.mod_eq_of_lt hh]
    rw [hh2, show 2 * n - n = n by omega] at hl
    obtain ⟨l3, hl3, hlen3, hfr3⟩ := clockSweep_find n n d
      { md with clockHand := md.clockHand, frames := l } fr.clearRef hd hd hh hlen2
      (by
        show l[(md.clockHand + d) % n]? = some fr.clearRef
        rw [hl2 _ fr hfr, if_pos hev])
      hev rfl
      (by
        intro e f he hf hfe
        exfalso
        have hf2 : l[(md.clockHand + e) % n]? = some f := hf
        have hlt : (md.clockHand + e) % n < md.frames.length := by
          rw [hlen]; exact Nat.mod_lt _ hn
        have horig := hl2 _ _ (List.getElem?_eq_getElem hlt)
        rw [horig] at hf2
        cases hf2
        refine hyp e _ he (List.getElem?_eq_getElem hlt) ?_
        by_cases hx : (md.frames[(md.clockHand + e) % n]).evictable
        · exact hx
        · rw [if_neg hx] at hfe; exact absurd hfe hx)
    have hl4 : l3 = l := by
      apply List.ext_getElem?
      intro j
      cases hj : l[j]? with
      | none =>
        have : l.length ≤ j := by simpa using hj
        simp; omega
      | some fj =>
        have := hfr3 j fj hj
        rw [this]
        congr 1
        by_cases hc : (∃ e, e < d ∧ (md.clockHand + e) % n = j) ∧ fj.evictable
        · rw [if_pos hc]
          obtain ⟨⟨e, he, hej⟩, hfe⟩ := hc
          exfalso
          have hlt : j < md.frames.length := by rw [hlen, ← hlen2]; exact getElem?_lt hj
          have horig := hl2 _ _ (List.getElem?_eq_getElem hlt)
          rw [horig] at hj
          cases hj
          refine hyp e _ he (by rw [hej]; exact List.getElem?_eq_getElem hlt) ?_
          by_cases hx : (md.frames[j]).evictable
          · exact hx
          · rw [if_neg hx] at hfe; exact absurd hfe hx
        · rw [if_neg hc]
    rw [hl4] at hl3
    refine ⟨d, fr, l, hd, hfr, hev, ?_, Or.inr ⟨hall, hyp, hl2⟩⟩
    rw [hl, hl3]

theorem selectVictim_none_of_pinned {σ : Type} (s : ReplacementStrategy) (n : Nat)
    (md : BM_MgmtData σ) (hinv : Inv n md) (hno : ∀ fr ∈ md.frames, ¬ fr.evictable) :
    selectVictim s n md = (none, md) := by
  by_cases hs : s = .RS_CLOCK
  · by_cases hn : n = 0
    · simp only [selectVictim, hs, hn, if_true]
    · have e : selectVictim s n md = clockSweep n (2 * n) md := by
        simp only [selectVictim, hs, hn, if_true, if_false]
      rw [e]
      exact clockSweep_none n md (hinv.hand hn) hinv.len hno
  · rw [selectVictim_key s n md hs]
    congr 1
    rw [keyScan_none]
    refine ⟨rfl, ?_⟩
    intro fr hfr
    exact hno fr (List.mem_of_mem_take hfr)

theorem selectVictim_some_of_evictable {σ : Type} (s : ReplacementStrategy) (n : Nat)
    (md : BM_MgmtData σ) (hinv : Inv n md) (hex : ∃ fr ∈ md.frames, fr.evictable) :
    (selectVictim s n md).1 ≠ none := by
  have hn : n ≠ 0 := by
    intro h0
    obtain ⟨fr, hfr, _⟩ := hex
    have := hinv.len
    rw [h0] at this
    rw [List.length_eq_zero.1 this] at hfr
    cases hfr
  by_cases hs : s = .RS_CLOCK
  · have e : selectVictim s n md = clockSweep n (2 * n) md := by
      simp only [selectVictim, hs, hn, if_true, if_false]
    obtain ⟨d, fr, l, _, _, _, hsw, _⟩ := clockSweep_victim n md (hinv.hand hn) hinv.len hex
    rw [e, hsw]
    intro h; cases h
  · rw [selectVictim_key s n md hs]
    intro h
    have := ((keyScan_none s _ 0 none 0).1 h).2
    obtain ⟨fr, hfr, hev⟩ := hex
    refine this fr ?_ hev
    rw [List.take_of_length_le (by rw [hinv.len])]
    exact hfr

theorem writeBackIfDirty_rc_ok {σ : Type} (pf : StorageMgr σ) (md : BM_MgmtData σ) (i : Nat)
    (hens : ∀ k x, (pf.ensureCapacity k x).1 = RC.RC_OK)
    (hwr : ∀ q x d, (pf.writeBlock q x d).1 = RC.RC_OK) :
    (writeBackIfDirty pf md i).1 = RC.RC_OK := by
  unfold writeBackIfDirty ensure_page_exists
  dsimp only
  split
  · rw [if_neg (not_not.mpr (hens _ _)), if_neg (not_not.mpr (hwr _ _ _))]
  · rfl

theorem pickTarget_rc_ok {σ : Type} (pf : StorageMgr σ) (s : ReplacementStrategy) (n : Nat)
    (md : BM_MgmtData σ) (hens : ∀ k x, (pf.ensureCapacity k x).1 = RC.RC_OK)
    (hwr : ∀ q x d, (pf.writeBlock q x d).1 = RC.RC_OK)
    (ht : (pickTarget pf s n md).2.1 ≠ none) : (pickTarget pf s n md).1 = RC.RC_OK := by
  revert ht
  unfold pickTarget
  split
  · intro _; rfl
  · split
    · intro h; exact absurd rfl h
    · intro _; exact writeBackIfDirty_rc_ok pf _ _ hens hwr

theorem pinLoad_rc_ok {σ : Type} (pf : StorageMgr σ) (md : BM_MgmtData σ) (t : Nat)
    (p : PageNumber) (hens : ∀ k x, (pf.ensureCapacity k x).1 = RC.RC_OK)
    (hrd : ∀ q x d, (pf.readBlock q x d).1 = RC.RC_OK) :
    (pinLoad pf md t p).1 = RC.RC_OK := by
  dsimp only [pinLoad]
  rw [readPageIntoFrame_ok_eq pf md t p (hens _ _) (hrd _ _ _)]
  dsimp only
  rw [if_neg (not_not.mpr rfl)]

theorem pool_eta {σ : Type} (bm : BM_BufferPool σ) (md : BM_MgmtData σ)
    (hmd : bm.mgmtData = some md) : { bm with mgmtData := some md } = bm := by
  cases bm
  simp only at hmd
  subst hmd
  rfl

theorem RefCleared.dirty_getD {l1 l2 : List Frame} (h : RefCleared l1 l2) (v : Nat)
    (fr : Frame) (hv : l2[v]? = some fr) : (l1.getD v default).dirty = fr.dirty := by
  obtain ⟨fr1, h1, hc⟩ := h.get v fr hv
  rw [getD_of_getElem? _ _ _ _ h1]
  rcases hc with hc | ⟨_, hc⟩
  · rw [hc]
  · rw [hc]; rfl

theorem pickTarget_counters {σ : Type} (pf : StorageMgr σ) (s : ReplacementStrategy) (n : Nat)
    (md : BM_MgmtData σ) (hinv : Inv n md) :
    (pickTarget pf s n md).2.2.tick = md.tick ∧
      BM_MgmtData.numReadIO (pickTarget pf s n md).2.2 = md.numReadIO ∧
      md.numWriteIO ≤ BM_MgmtData.numWriteIO (pickTarget pf s n md).2.2 ∧
      ((pickTarget pf s n md).1 = RC.RC_OK →
        BM_MgmtData.numWriteIO (pickTarget pf s n md).2.2 =
          md.numWriteIO + (if evictsDirty s n md then 1 else 0)) := by
  rcases pickTarget_cases pf s n md hinv with
    ⟨t, frt, he, _, _, e⟩ | ⟨_, c, l, hl, _, _, e⟩ |
    ⟨he, c, l, v, frv, hl, _, hsv, hv, hev, ⟨hd, e⟩ | ⟨hd, e⟩ | ⟨_, rc, x, hrc, e⟩⟩
  · rw [e]
    refine ⟨rfl, rfl, le_refl _, fun _ => ?_⟩
    rw [if_neg]
    · simp
    · rintro ⟨h, _⟩; rw [he] at h; cases h
  · rw [e]
    exact ⟨rfl, rfl, le_refl _, fun h => by cases h⟩
  · rw [e]
    refine ⟨rfl, rfl, le_refl _, fun _ => ?_⟩
    rw [if_neg]
    · simp
    · rintro ⟨_, w, hw, hwd⟩
      rw [hsv] at hw
      cases hw
      rw [hl.dirty_getD v frv hv, hd] at hwd
      cases hwd
  · rw [e]
    refine ⟨rfl, rfl, by show md.numWriteIO ≤ md.numWriteIO + 1; omega, fun _ => ?_⟩
    rw [if_pos]
    refine ⟨he, v, by rw [hsv], ?_⟩
    rw [hl.dirty_getD v frv hv, hd]
  · rw [e]
    exact ⟨rfl, rfl, le_refl _, fun h => absurd h hrc⟩

theorem pinLoad_counters {σ : Type} (pf : StorageMgr σ) (md : BM_MgmtData σ) (n t : Nat)
    (p : PageNumber) (hinv : Inv n md) :
    BM_MgmtData.numWriteIO (pinLoad pf md t p).2 = md.numWriteIO ∧
      BM_MgmtData.numReadIO (pinLoad pf md t p).2 =
        md.numReadIO + (if (pinLoad pf md t p).1 = RC.RC_OK then 1 else 0) := by
  by_cases hrc : (pinLoad pf md t p).1 = RC.RC_OK
  · rw [if_pos hrc, pinLoad_ok pf md n t p hinv hrc]
    exact ⟨rfl, rfl⟩
  · obtain ⟨_, x, d, hx⟩ := pinLoad_fail pf md t p hrc
    rw [if_neg hrc, hx]
    refine ⟨rfl, ?_⟩
    show md.numReadIO = md.numReadIO + 0
    omega

/-- The I/O counters across one `pinPage` call. -/
theorem pinPage_counters {σ : Type} (pf : StorageMgr σ) (bm : BM_BufferPool σ)
    (md : BM_MgmtData σ) (page : Option BM_PageHandle) (p : PageNumber)
    (hmd : bm.mgmtData = some md) (hinv : Inv bm.numPages md) :
    (md.numReadIO ≤ getNumReadIO (pinPage pf bm page p).2.1 ∧
        md.numWriteIO ≤ getNumWriteIO (pinPage pf bm page p).2.1) ∧
      (findFrameByPageNP md bm.numPages p ≠ none →
        getNumReadIO (pinPage pf bm page p).2.1 = md.numReadIO ∧
          getNumWriteIO (pinPage pf bm page p).2.1 = md.numWriteIO) ∧
      (findFrameByPageNP md bm.numPages p = none → (pinPage pf bm page p).1 = RC.RC_OK →
        getNumReadIO (pinPage pf bm page p).2.1 = md.numReadIO + 1 ∧
          getNumWriteIO (pinPage pf bm page p).2.1 =
            md.numWriteIO + (if evictsDirty bm.strategy bm.numPages md then 1 else 0)) := by
  obtain ⟨_, hr1, hw1, hw2⟩ := pickTarget_counters pf bm.strategy bm.numPages md hinv
  have hinv1 := pickTarget_inv pf bm.strategy bm.numPages md hinv
  rcases pinPage_cases pf bm md page p hmd with ⟨_, e⟩ | ⟨_, _, _, hc⟩
  · rw [e]
    simp only [ getNumReadIO, getNumWriteIO, hmd]
    exact ⟨⟨le_refl _, le_refl _⟩, fun _ => ⟨trivial, trivial⟩, fun _ h => by cases h⟩
  · rcases hc with ⟨f, hf, e⟩ | ⟨hf, hrc, e⟩ | ⟨hf, hok, t, ht, hl⟩
    · rw [e]
      obtain ⟨frf, hfrf, _⟩ := (findFrameByPageNP_some md _ _ f hinv.len).1 hf
      rw [pinHit_eq md f frf hfrf]
      simp only [ getNumReadIO, getNumWriteIO]
      exact ⟨⟨le_refl _, le_refl _⟩, fun _ => ⟨trivial, trivial⟩,
        fun h => by rw [hf] at h; cases h⟩
    · rw [e]
      simp only [ getNumReadIO, getNumWriteIO]
      refine ⟨⟨by rw [hr1], hw1⟩, fun h => absurd hf h, fun _ h => absurd h hrc⟩
    · obtain ⟨hw3, hr3⟩ := pinLoad_counters pf _ bm.numPages t p hinv1
      rcases hl with ⟨hlf, e⟩ | ⟨hlo, e⟩
      · rw [e]
        simp only [ getNumReadIO, getNumWriteIO]
        rw [if_neg hlf] at hr3
        refine ⟨⟨by rw [hr3, hr1]; omega, by rw [hw3]; exact hw1⟩, fun h => absurd hf h,
          fun _ h => absurd h hlf⟩
      · rw [e]
        simp only [ getNumReadIO, getNumWriteIO]
        rw [if_pos hlo] at hr3
        refine ⟨⟨by rw [hr3, hr1]; omega, by rw [hw3]; exact hw1⟩, fun h => absurd hf h,
          fun _ _ => ⟨by rw [hr3, hr1], by rw [hw3, hw2 hok]⟩⟩

theorem IdealFile.page_cons (k : Nat) (d : IdealFile) (q p : PageNumber) (bytes : PageData) :
    ({ blocks := (q, bytes) :: d.blocks } : IdealFile).page k p =
      if q = p then bytes else d.page k p := by
  by_cases h : q = p
  · simp [IdealFile.page, h]
  · simp [IdealFile.page, h]

theorem idealFile_writtenFile (k : Nat) (md : BM_MgmtData IdealFile) (i : Nat) :
    writtenFile (idealFile k) md i =
      { blocks := ((md.frames.getD i default).pageNum, (md.frames.getD i default).data) ::
          md.fhandle.blocks } := rfl

theorem idealFile_loadedFile (k : Nat) (md : BM_MgmtData IdealFile) (t : Nat)
    (p : PageNumber) : loadedFile (idealFile k) md t p = md.fhandle := rfl

theorem idealFile_loadedBytes (k : Nat) (md : BM_MgmtData IdealFile) (t : Nat)
    (p : PageNumber) : loadedBytes (idealFile k) md t p = md.fhandle.page k p := rfl

theorem Keeps.after_refCleared {k : Nat} {p : PageNumber} {b : PageData}
    {md : BM_MgmtData IdealFile} (h : Keeps k p b md) (c : Nat) (l : List Frame)
    (hl : RefCleared md.frames l) : Keeps k p b { md with clockHand := c, frames := l } := by
  rcases h with ⟨f, fr, hfr, hp, hd, hx⟩ | ⟨hno, hx⟩
  · left
    rcases hl f with e | ⟨fr0, h0, _, h1⟩
    · exact ⟨f, fr, by show l[f]? = some fr; rw [e]; exact hfr, hp, hd, hx⟩
    · rw [hfr] at h0; cases h0
      exact ⟨f, fr.clearRef, h1, hp, hd, hx⟩
  · right
    refine ⟨?_, hx⟩
    intro fr hfr
    obtain ⟨j, hj⟩ := List.getElem?_of_mem hfr
    obtain ⟨fr1, h1, hc⟩ := hl.get j fr hj
    have := hno fr1 (List.getElem?_mem h1)
    rcases hc with hc | ⟨_, hc⟩
    · rw [hc]; exact this
    · rw [hc]; exact this

/-- Replacing a frame that does not hold `p` by a frame that does not hold `p`, the file
staying as it is for `p`, keeps the bytes of `p` safe. -/
theorem Keeps.set_other {k : Nat} {p : PageNumber} {b : PageData}
    {md md1 : BM_MgmtData IdealFile} (h : Keeps k p b md) (i : Nat) (a : Frame)
    (hf : md1.frames = md.frames.set i a) (hx : md1.fhandle.page k p = md.fhandle.page k p)
    (hold : ∀ x, md.frames[i]? = some x → x.pageNum ≠ p) (hnew : a.pageNum ≠ p) :
    Keeps k p b md1 := by
  rcases h with ⟨f, fr, hfr, hp, hd, hdx⟩ | ⟨hno, hdx⟩
  · left
    have hif : i ≠ f := by
      intro e; subst e
      exact hold fr hfr hp
    refine ⟨f, fr, ?_, hp, hd, ?_⟩
    · rw [hf, getElem?_set_other _ _ hif]; exact hfr
    · rw [hx]; exact hdx
  · right
    refine ⟨?_, by rw [hx]; exact hdx⟩
    intro fr hfr
    rw [hf] at hfr
    rcases List.mem_or_eq_of_mem_set hfr with h1 | h1
    · exact hno fr h1
    · rw [h1]; exact hnew

theorem pickTarget_keeps (k : Nat) (s : ReplacementStrategy) (n : Nat)
    (md : BM_MgmtData IdealFile) (p : PageNumber) (b : PageData) (hinv : Inv n md)
    (hp : p ≠ NO_PAGE) (h : Keeps k p b md) :
    Keeps k p b (pickTarget (idealFile k) s n md).2.2 ∧
      ∀ (t : Nat) (frt : Frame), (pickTarget (idealFile k) s n md).2.1 = some t →
        (pickTarget (idealFile k) s n md).2.2.frames[t]? = some frt → frt.pageNum = p →
        (pickTarget (idealFile k) s n md).2.2.fhandle.page k p = b := by
  have hrcok := pickTarget_rc_ok (idealFile k) s n md (fun _ _ => rfl) (fun _ _ _ => rfl)
  have hinv1 := pickTarget_inv (idealFile k) s n md hinv
  rcases pickTarget_cases (idealFile k) s n md hinv with
    ⟨t, frt, he, hft, hpt, e⟩ | ⟨_, c, l, hl, _, _, e⟩ |
    ⟨he, c, l, v, frv, hl, _, hsv, hv, hev, ⟨hd, e⟩ | ⟨hd, e⟩ | ⟨_, rc, x, hrc, e⟩⟩
  · rw [e]
    refine ⟨h, ?_⟩
    intro t' frt' ht' hft' hpp
    cases ht'
    rw [hft] at hft'; cases hft'
    rw [hpt] at hpp
    exact absurd hpp.symm hp
  · rw [e]
    exact ⟨h.after_refCleared c l hl, fun t' _ ht' => by cases ht'⟩
  · rw [e]
    have hk := h.after_refCleared c l hl
    refine ⟨hk, ?_⟩
    intro t' frt' ht' hft' hpp
    cases ht'
    have hft2 : l[v]? = some frt' := hft'
    rw [hv] at hft2; cases hft2
    rw [e] at hinv1
    rcases hk with ⟨f, fr, hfr, hfp, _, hx⟩ | ⟨hno, _⟩
    · have hfv : f = v := hinv1.ok.uniq f v fr frv hfr hv (by rw [hfp, hpp])
        (by rw [hfp]; exact hp)
      subst hfv
      have hfr2 : l[f]? = some fr := hfr
      rw [hv] at hfr2; cases hfr2
      rcases hx with hx | hx
      · rw [hd] at hx; cases hx
      · exact hx
    · exact absurd hpp (hno frv (List.getElem?_mem hv))
  · have hk := h.after_refCleared c l hl
    have hinvS : Inv n { md with clockHand := c, frames := l } := by
      have := selectVictim_inv s n md hinv
      rw [hsv] at this
      exact this
    rw [e]
    have hg : ({ md with clockHand := c, frames := l } : BM_MgmtData IdealFile).frames.getD v
        default = frv := getD_of_getElem? _ _ _ _ hv
    have hfile : ∀ q, (writtenFile (idealFile k) { md with clockHand := c, frames := l }
        v).page k q = if frv.pageNum = q then frv.data else md.fhandle.page k q := by
      intro q
      rw [idealFile_writtenFile, hg, IdealFile.page_cons]
    by_cases hvp : frv.pageNum = p
    · -- the victim holds `p`: it is written back
      have hb : frv.data = b ∧ True := by
        rcases hk with ⟨f, fr, hfr, hfp, hfd, _⟩ | ⟨hno, _⟩
        · have hfv : f = v := hinvS.ok.uniq f v fr frv hfr hv (by rw [hfp, hvp])
            (by rw [hfp]; exact hp)
          subst hfv
          have hfr2 : l[f]? = some fr := hfr
          rw [hv] at hfr2; cases hfr2
          exact ⟨hfd, trivial⟩
        · exact absurd hvp (hno frv (List.getElem?_mem hv))
      have hpage : (writtenFile (idealFile k) { md with clockHand := c, frames := l }
          v).page k p = b := by
        rw [hfile p, if_pos hvp]; exact hb.1
      refine ⟨Or.inl ⟨v, { frv with dirty := false }, ?_, hvp, hb.1, Or.inr hpage⟩, ?_⟩
      · show (l.set v _)[v]? = _
        exact getElem?_set_self_of _ hv
      · intro _ _ _ _ _
        exact hpage
    · have hpage : (writtenFile (idealFile k) { md with clockHand := c, frames := l }
          v).page k p = md.fhandle.page k p := by
        rw [hfile p, if_neg hvp]
      refine ⟨?_, ?_⟩
      · exact hk.set_other v { frv with dirty := false } rfl hpage
          (fun x hx => by
            have hx2 : l[v]? = some x := hx
            rw [hv] at hx2; cases hx2; exact hvp)
          hvp
      · intro t' frt' ht' hft' hpp
        cases ht'
        have hft2 : (l.set v { frv with dirty := false })[v]? = some frt' := hft'
        rw [getElem?_set_self_of _ hv] at hft2
        cases hft2
        exact absurd hpp hvp
  · rw [e] at hrcok
    exact absurd (hrcok (by intro hx; cases hx)) hrc

theorem find_of_resident {σ : Type} (n : Nat) (md : BM_MgmtData σ) (t : Nat) (fr : Frame)
    (p : PageNumber) (hinv : Inv n md) (hfr : md.frames[t]? = some fr) (hp : fr.pageNum = p)
    (hne : p ≠ NO_PAGE) : findFrameByPageNP md n p = some t := by
  cases hf : findFrameByPageNP md n p with
  | none =>
    exact absurd hp ((findFrameByPageNP_none md n p hinv.len).1 hf t fr hfr)
  | some f =>
    obtain ⟨frf, hfrf, hfp, _⟩ := (findFrameByPageNP_some md n p f hinv.len).1 hf
    rw [hinv.ok.uniq f t frf fr hfrf hfr (by rw [hfp, hp]) (by rw [hfp]; exact hne)]

/-- After a successful `pinPage` the handle names the page and points at a frame that
holds it and is pinned. -/
theorem pinPage_ok_handle {σ : Type} (pf : StorageMgr σ) (bm bm1 : BM_BufferPool σ)
    (page : Option BM_PageHandle) (h1 : BM_PageHandle) (p : PageNumber) (hinv : PoolInv bm)
    (hpin : pinPage pf bm page p = (RC.RC_OK, bm1, some h1)) :
    h1.pageNum = p ∧ 0 ≤ p ∧ bm1.numPages = bm.numPages ∧
      ∃ md1 fr, bm1.mgmtData = some md1 ∧ Inv bm1.numPages md1 ∧
        md1.frames[h1.data]? = some fr ∧ fr.pageNum = p ∧ 0 < fr.fixCount := by
  have hpi := pinPage_poolInv pf bm page p hinv
  obtain ⟨md, hmd, hi⟩ := hinv
  rw [hpin] at hpi
  obtain ⟨md1, hmd1, hi1⟩ := hpi
  have hmd1' : bm1.mgmtData = some md1 := hmd1
  rcases pinPage_cases pf bm md page p hmd with ⟨_, e⟩ | ⟨hp, hd, _, hc⟩
  · rw [e] at hpin; cases hpin
  · rcases hc with ⟨f, hf, e⟩ | ⟨_, hrc, e⟩ | ⟨hf, hok, t, ht, hl⟩
    · rw [e] at hpin
      obtain ⟨frf, hfrf, hfp, _⟩ := (findFrameByPageNP_some md _ _ f hi.len).1 hf
      have hnn := hi.ok.nonneg f frf hfrf
      cases hpin
      refine ⟨rfl, hp, rfl, md1, hitFrame frf md.tick, hmd1', hi1, ?_, hfp, ?_⟩
      · cases hmd1
        rw [pinHit_eq md f frf hfrf]
        exact getElem?_set_self_of _ hfrf
      · show 0 < frf.fixCount + 1
        omega
    · rw [e] at hpin
      exact absurd (congrArg Prod.fst hpin) hrc
    · rcases hl with ⟨hlf, e⟩ | ⟨hlo, e⟩
      · rw [e] at hpin
        exact absurd (congrArg Prod.fst hpin) hlf
      · rw [e] at hpin
        cases hpin
        obtain ⟨frt, hft, _⟩ := pickTarget_target pf bm.strategy bm.numPages md hi t ht
        refine ⟨rfl, hp, rfl, md1,
          pinnedFrame p (loadedBytes pf (pickTarget pf bm.strategy bm.numPages md).2.2 t p)
            (pickTarget pf bm.strategy bm.numPages md).2.2.tick,
          hmd1', hi1, ?_, rfl, ?_⟩
        swap
        · show (0 : Int) < 1
          decide
        cases hmd1
        rw [pinLoad_ok pf _ bm.numPages t p (pickTarget_inv pf _ _ md hi) hlo]
        exact getElem?_set_self_of _ hft

theorem pinPage_keepsPool (k : Nat) (bm : BM_BufferPool IdealFile)
    (page : Option BM_PageHandle) (p q : PageNumber) (b : PageData) (hq : q ≠ p)
    (hp : p ≠ NO_PAGE) (h : KeepsPool k p b bm) :
    KeepsPool k p b (pinPage (idealFile k) bm page q).2.1 := by
  obtain ⟨md, hmd, hinv, hk⟩ := h
  obtain ⟨md1, hmd1, hinv1⟩ := pinPage_poolInv (idealFile k) bm page q ⟨md, hmd, hinv⟩
  have hnp : (pinPage (idealFile k) bm page q).2.1.numPages = bm.numPages := by
    obtain ⟨m, hm, _⟩ := pinPage_md (idealFile k) bm page q ⟨md, hmd, hinv⟩
    rw [hm]
  refine ⟨md1, hmd1, hinv1, ?_⟩
  rcases pinPage_cases (idealFile k) bm md page q hmd with ⟨_, e⟩ | ⟨_, _, _, hc⟩
  · rw [e] at hmd1
    rw [hmd] at hmd1; cases hmd1
    exact hk
  · rcases hc with ⟨f, hf, e⟩ | ⟨_, hrc, e⟩ | ⟨hf, hok, t, ht, hl⟩
    · rw [e] at hmd1
      cases hmd1
      obtain ⟨frf, hfrf, hfp, _⟩ := (findFrameByPageNP_some md _ _ f hinv.len).1 hf
      rw [pinHit_eq md f frf hfrf]
      refine hk.set_other f (hitFrame frf md.tick) rfl rfl ?_ ?_
      · intro x hx
        rw [hfrf] at hx; cases hx
        rw [hfp]; exact hq
      · show frf.pageNum ≠ p
        rw [hfp]; exact hq
    · rw [e] at hmd1
      cases hmd1
      exact (pickTarget_keeps k bm.strategy bm.numPages md p b hinv hp hk).1
    · have hlo := pinLoad_rc_ok (idealFile k)
        (pickTarget (idealFile k) bm.strategy bm.numPages md).2.2 t q
        (fun _ _ => rfl) (fun _ _ _ => rfl)
      obtain ⟨hk1, hex⟩ := pickTarget_keeps k bm.strategy bm.numPages md p b hinv hp hk
      have hi1 := pickTarget_inv (idealFile k) bm.strategy bm.numPages md hinv
      obtain ⟨frt, hft, _⟩ :=
        pickTarget_target (idealFile k) bm.strategy bm.numPages md hinv t ht
      rcases hl with ⟨hlf, _⟩ | ⟨_, e⟩
      · exact absurd hlo hlf
      · rw [e] at hmd1
        cases hmd1
        rw [pinLoad_ok (idealFile k) _ bm.numPages t q hi1 hlo]
        by_cases hfp : frt.pageNum = p
        · right
          refine ⟨?_, ?_⟩
          · intro fr hfr
            have hfr2 : fr ∈ (pickTarget (idealFile k) bm.strategy bm.numPages
                md).2.2.frames.set t (pinnedFrame q _ _) := hfr
            obtain ⟨j, hj⟩ := List.getElem?_of_mem hfr2
            by_cases htj : t = j
            · subst htj
              rw [getElem?_set_self_of _ hft] at hj
              cases hj
              exact hq
            · rw [getElem?_set_other _ _ htj] at hj
              intro hpp
              exact htj (hi1.ok.uniq t j frt fr hft hj (by rw [hfp, hpp])
                (by rw [hfp]; exact hp))
          · show (loadedFile (idealFile k) _ t q).page k p = b
            rw [idealFile_loadedFile]
            exact hex t frt ht hft hfp
        · refine hk1.set_other t (pinnedFrame q _ _) rfl ?_ ?_ hq
          · show (loadedFile (idealFile k) _ t q).page k p = _
            rw [idealFile_loadedFile]
          · intro x hx
            rw [hft] at hx; cases hx
            exact hfp

theorem unpinPage_keepsPool (k : Nat) (bm : BM_BufferPool IdealFile)
    (page : Option BM_PageHandle) (p : PageNumber) (b : PageData)
    (hq : ∀ h, page = some h → h.pageNum ≠ p) (h : KeepsPool k p b bm) :
    KeepsPool k p b (unpinPage bm page).2 := by
  obtain ⟨md, hmd, hinv, hk⟩ := h
  obtain ⟨md1, hmd1, hinv1⟩ := unpinPage_poolInv bm page ⟨md, hmd, hinv⟩
  rcases unpinPage_cases bm md page hmd hinv.len with ⟨e, _⟩ | ⟨h, f, fr, hpg, _, hfr, hfp, _, e⟩
  · rw [e]
    exact ⟨md, hmd, hinv, hk⟩
  · rw [e] at hmd1 hinv1 ⊢
    cases hmd1
    refine ⟨_, rfl, hinv1, ?_⟩
    have hne : fr.pageNum ≠ p := by rw [hfp]; exact hq h hpg
    refine hk.set_other f { fr with fixCount := fr.fixCount - 1 } rfl rfl ?_ hne
    intro x hx
    rw [hfr] at hx; cases hx
    exact hne

theorem run_keepsPool (k : Nat) (p : PageNumber) (b : PageData) (hp : p ≠ NO_PAGE)
    (ops : List Op) (hops : ∀ op ∈ ops, op.avoids p) (bm : BM_BufferPool IdealFile)
    (h : KeepsPool k p b bm) : KeepsPool k p b (run (idealFile k) bm ops) := by
  induction ops generalizing bm with
  | nil => exact h
  | cons op ops ih =>
    have h1 : KeepsPool k p b (step (idealFile k) bm op).2 := by
      have ha := hops op (by simp)
      cases op with
      | pin page q => exact pinPage_keepsPool k bm page p q b ha hp h
      | unpin page =>
        refine unpinPage_keepsPool k bm page p b ?_ h
        intro h0 hh0
        subst hh0
        exact ha
      | dirty page => exact absurd ha (by simp [Op.avoids])
      | force page => exact absurd ha (by simp [Op.avoids])
      | flush => exact absurd ha (by simp [Op.avoids])
      | write f bytes => exact absurd ha (by simp [Op.avoids])
    exact ih (fun o ho => hops o (by simp [ho])) _ h1

/-- A successful `pinPage` of `p` on a pool that keeps the bytes `b` of `p` safe returns
a handle whose data are `b`. -/
theorem pinPage_keeps_data (k : Nat) (bm bm1 : BM_BufferPool IdealFile)
    (page : Option BM_PageHandle) (h1 : BM_PageHandle) (p : PageNumber) (b : PageData)
    (h : KeepsPool k p b bm)
    (hpin : pinPage (idealFile k) bm page p = (RC.RC_OK, bm1, some h1)) :
    ((framesOf bm1).getD h1.data default).data = b := by
  obtain ⟨md, hmd, hinv, hk⟩ := h
  rcases pinPage_cases (idealFile k) bm md page p hmd with ⟨_, e⟩ | ⟨hp0, _, _, hc⟩
  · rw [e] at hpin; cases hpin
  · have hp : p ≠ NO_PAGE := by
      intro hx; rw [hx] at hp0; exact absurd hp0 (by decide)
    rcases hc with ⟨f, hf, e⟩ | ⟨_, hrc, e⟩ | ⟨hf, hok, t, ht, hl⟩
    · rw [e] at hpin
      cases hpin
      obtain ⟨frf, hfrf, hfp, _⟩ := (findFrameByPageNP_some md _ _ f hinv.len).1 hf
      simp only [framesOf]
      rw [pinHit_eq md f frf hfrf]
      have hg : (md.frames.set f (hitFrame frf md.tick)).getD f default =
          hitFrame frf md.tick := getD_set_self _ _ _ _ (getElem?_lt hfrf)
      show ((md.frames.set f (hitFrame frf md.tick)).getD f default).data = b
      rw [hg]
      show frf.data = b
      rcases hk with ⟨f0, fr0, hfr0, hp0', hd0, _⟩ | ⟨hno, _⟩
      · have := hinv.ok.uniq f f0 frf fr0 hfrf hfr0 (by rw [hfp, hp0'])
          (by rw [hfp]; exact hp)
        subst this
        rw [hfrf] at hfr0; cases hfr0
        exact hd0
      · exact absurd hfp (hno frf (List.getElem?_mem hfrf))
    · rw [e] at hpin
      exact absurd (congrArg Prod.fst hpin) hrc
    · rcases hl with ⟨hlf, e⟩ | ⟨hlo, e⟩
      · rw [e] at hpin
        exact absurd (congrArg Prod.fst hpin) hlf
      · rw [e] at hpin
        cases hpin
        have hi1 := pickTarget_inv (idealFile k) bm.strategy bm.numPages md hinv
        obtain ⟨hk1, _⟩ := pickTarget_keeps k bm.strategy bm.numPages md p b hinv hp hk
        obtain ⟨frt, hft, _⟩ :=
          pickTarget_target (idealFile k) bm.strategy bm.numPages md hinv t ht
        have hfile : (pickTarget (idealFile k) bm.strategy bm.numPages
            md).2.2.fhandle.page k p = b := by
          rcases hk1 with ⟨f0, fr0, hfr0, hp0', _, _⟩ | ⟨_, hx⟩
          · exfalso
            have hlt : f0 < md.frames.length := by
              rw [hinv.len, ← hi1.len]; exact getElem?_lt hfr0
            obtain ⟨fr1, h1, h2, _⟩ := pickTarget_frame (idealFile k) bm.strategy bm.numPages
              md hinv f0 _ (List.getElem?_eq_getElem hlt)
            rw [hfr0] at h1; cases h1
            have : md.frames[f0].pageNum = p := by
              rw [← hp0', h2]
            exact (findFrameByPageNP_none md _ p hinv.len).1 hf f0 _
              (List.getElem?_eq_getElem hlt) this
          · exact hx
        simp only [framesOf]
        rw [pinLoad_ok (idealFile k) _ bm.numPages t p hi1 hlo]
        show ((List.set _ t (pinnedFrame p (loadedBytes (idealFile k) _ t p) _)).getD t
          default).data = b
        rw [getD_set_self _ _ _ _ (getElem?_lt hft), idealFile_loadedBytes]
        exact hfile

theorem markDirty_of_resident {σ : Type} (bm : BM_BufferPool σ) (md : BM_MgmtData σ)
    (h : BM_PageHandle) (t : Nat) (fr : Frame) (hmd : bm.mgmtData = some md)
    (hinv : Inv bm.numPages md) (hfr : md.frames[t]? = some fr)
    (hfp : fr.pageNum = h.pageNum) (hp : h.pageNum ≠ NO_PAGE) :
    markDirty bm (some h) =
      (RC.RC_OK,
        { bm with
          mgmtData := some
            { md with
              frames := md.frames.set t { fr with dirty := true }
              dirtyFlags := md.dirtyFlags.set t true } }) := by
  have hf := find_of_resident bm.numPages md t fr h.pageNum hinv hfr hfp hp
  have hg : md.frames.getD t default = fr := getD_of_getElem? _ _ _ _ hfr
  simp only [markDirty, hmd, hf, hg]

theorem unpinPage_of_pinned {σ : Type} (bm : BM_BufferPool σ) (md : BM_MgmtData σ)
    (h : BM_PageHandle) (t : Nat) (fr : Frame) (hmd : bm.mgmtData = some md)
    (hinv : Inv bm.numPages md) (hfr : md.frames[t]? = some fr)
    (hfp : fr.pageNum = h.pageNum) (hp : h.pageNum ≠ NO_PAGE) (hfix : 0 < fr.fixCount) :
    unpinPage bm (some h) =
      (RC.RC_OK,
        { bm with
          mgmtData := some
            { md with
              frames := md.frames.set t { fr with fixCount := fr.fixCount - 1 }
              fixCounts := md.fixCounts.set t (fr.fixCount - 1) } }) := by
  have hf := find_of_resident bm.numPages md t fr h.pageNum hinv hfr hfp hp
  have hg : md.frames.getD t default = fr := getD_of_getElem? _ _ _ _ hfr
  have hc : ¬ fr.fixCount ≤ 0 := by omega
  simp only [unpinPage, hmd, hf, hg, hc, if_false]

/-- Storing `b` through the handle of a pinned page, then `markDirty` and `unpinPage`,
both succeed and leave the bytes `b` of the page safe. -/
theorem store_keepsPool (k : Nat) (bm1 : BM_BufferPool IdealFile) (h1 : BM_PageHandle)
    (p : PageNumber) (b : PageData) (md1 : BM_MgmtData IdealFile) (fr : Frame)
    (hmd1 : bm1.mgmtData = some md1) (hinv1 : Inv bm1.numPages md1)
    (hfr : md1.frames[h1.data]? = some fr) (hfp : fr.pageNum = p) (hfix : 0 < fr.fixCount)
    (hh : h1.pageNum = p) (hp : p ≠ NO_PAGE) :
    (markDirty (writeData bm1 h1.data b) (some h1)).1 = RC.RC_OK ∧
      (unpinPage (markDirty (writeData bm1 h1.data b) (some h1)).2 (some h1)).1 = RC.RC_OK ∧
      KeepsPool k p b
        (unpinPage (markDirty (writeData bm1 h1.data b) (some h1)).2 (some h1)).2 := by
  have hg : md1.frames.getD h1.data default = fr := getD_of_getElem? _ _ _ _ hfr
  have hp1 : h1.pageNum ≠ NO_PAGE := by rw [hh]; exact hp
  -- the client's store
  have e2 : writeData bm1 h1.data b =
      { bm1 with
        mgmtData := some
          { md1 with frames := md1.frames.set h1.data { fr with data := b } } } := by
    simp only [writeData, hmd1, hg]
  have hinv2 : Inv bm1.numPages
      { md1 with frames := md1.frames.set h1.data { fr with data := b } } := by
    have := hinv1.data h1.data md1.fhandle b
    rw [hg] at this
    exact this
  have hfr2 : (md1.frames.set h1.data { fr with data := b })[h1.data]? =
      some { fr with data := b } := getElem?_set_self_of _ hfr
  -- markDirty
  have e3 := markDirty_of_resident
    { bm1 with
      mgmtData := some { md1 with frames := md1.frames.set h1.data { fr with data := b } } }
    { md1 with frames := md1.frames.set h1.data { fr with data := b } } h1 h1.data
    { fr with data := b } rfl hinv2 hfr2 (by rw [hh]; exact hfp) hp1
  dsimp only at e3
  rw [List.set_set] at e3
  have hinv3 : Inv bm1.numPages
      { md1 with
        frames := md1.frames.set h1.data { fr with data := b, dirty := true }
        dirtyFlags := md1.dirtyFlags.set h1.data true } := by
    have := hinv2.setDirty h1.data { fr with data := b } hfr2 true md1.fhandle md1.numWriteIO
    dsimp only at this
    rw [List.set_set] at this
    exact this
  have hfr4 : (md1.frames.set h1.data { fr with data := b, dirty := true })[h1.data]? =
      some { fr with data := b, dirty := true } := getElem?_set_self_of _ hfr
  -- unpinPage
  have e4 := unpinPage_of_pinned
    { bm1 with
      mgmtData := some
        { md1 with
          frames := md1.frames.set h1.data { fr with data := b, dirty := true }
          dirtyFlags := md1.dirtyFlags.set h1.data true } }
    { md1 with
      frames := md1.frames.set h1.data { fr with data := b, dirty := true }
      dirtyFlags := md1.dirtyFlags.set h1.data true } h1 h1.data
    { fr with data := b, dirty := true } rfl hinv3 hfr4 (by rw [hh]; exact hfp) hp1 hfix
  dsimp only at e4
  rw [List.set_set] at e4
  have hpi := unpinPage_poolInv
    { bm1 with
      mgmtData := some
        { md1 with
          frames := md1.frames.set h1.data { fr with data := b, dirty := true }
          dirtyFlags := md1.dirtyFlags.set h1.data true } } (some h1) ⟨_, rfl, hinv3⟩
  rw [e4] at hpi
  rw [e2, e3, e4]
  obtain ⟨md6, hmd6, hinv6⟩ := hpi
  refine ⟨rfl, rfl, md6, hmd6, hinv6, ?_⟩
  cases hmd6
  left
  exact ⟨h1.data, _, getElem?_set_self_of _ hfr, hfp, rfl, Or.inl rfl⟩

/-- On the ideal page file `forcePage` of a resident page succeeds, with the state that
the branches of the code give. -/
theorem forcePage_ideal (k : Nat) (bm : BM_BufferPool IdealFile) (md : BM_MgmtData IdealFile)
    (h : BM_PageHandle) (f : Nat) (fr : Frame) (hmd : bm.mgmtData = some md)
    (hinv : Inv bm.numPages md) (hfr : md.frames[f]? = some fr)
    (hfp : fr.pageNum = h.pageNum) (hres : fr.pageNum ≠ NO_PAGE) :
    forcePage (idealFile k) bm (some h) =
      (RC.RC_OK,
        { bm with
          mgmtData := some
            (if fr.dirty = true then
              { md with
                fhandle := { blocks := (fr.pageNum, fr.data) :: md.fhandle.blocks }
                numWriteIO := md.numWriteIO + 1
                frames := md.frames.set f { fr with dirty := false }
                dirtyFlags := md.dirtyFlags.set f false }
            else
              { md with fhandle := { blocks := (fr.pageNum, fr.data) :: md.fhandle.blocks } }) }) := by
  have hf := find_of_resident bm.numPages md f fr h.pageNum hinv hfr hfp (by rw [← hfp]; exact hres)
  have hg : md.frames.getD f default = fr := getD_of_getElem? _ _ _ _ hfr
  have h1 : ((idealFile k).ensureCapacity (fr.pageNum + 1) md.fhandle).1 = RC.RC_OK := rfl
  have h2 : ((idealFile k).writeBlock fr.pageNum
      ((idealFile k).ensureCapacity (fr.pageNum + 1) md.fhandle).2 fr.data).1 = RC.RC_OK := rfl
  cases hd : fr.dirty with
  | false =>
    simp only [forcePage, hmd, hf, hg, ensure_page_exists, h1, h2, hd,
      ne_eq, not_true_eq_false, if_false, Bool.false_eq_true]
    rfl
  | true =>
    simp only [forcePage, hmd, hf, hg, ensure_page_exists, h1, h2, hd,
      ne_eq, not_true_eq_false, if_false, if_true]
    rfl

theorem scanFrom_congr (P : Frame → Bool) (l1 l2 : List Frame) (i : Nat)
    (h : l1.map P = l2.map P) : scanFrom P l1 i = scanFrom P l2 i := by
  induction l1 generalizing l2 i with
  | nil =>
    cases l2 with
    | nil => rfl
    | cons b l2 => cases h
  | cons a l1 ih =>
    cases l2 with
    | nil => cases h
    | cons b l2 =>
      simp only [List.map_cons, List.cons.injEq] at h
      simp only [scanFrom, h.1, ih l2 (i + 1) h.2]

/-- Replacing a frame by one with the same `pageNum` does not change what
`findFrameByPageNP` returns. -/
theorem findFrameByPageNP_set {σ : Type} (md : BM_MgmtData σ) (n : Nat) (p : PageNumber)
    (f : Nat) (a : Frame) (l : List Frame)
    (ha : ∀ x, md.frames[f]? = some x → a.pageNum = x.pageNum)
    (hl : l = md.frames.set f a) :
    findFrameByPageNP { md with frames := l } n p = findFrameByPageNP md n p := by
  subst hl
  unfold findFrameByPageNP
  apply scanFrom_congr
  show ((md.frames.set f a).take n).map _ = _
  rw [List.set_take]
  apply map_set_same
  intro x hx
  have hx2 : md.frames[f]? = some x := by
    rw [List.getElem?_take] at hx
    split at hx
    · exact hx
    · cases hx
  simp only [ha x hx2]

/-- The flush loop does nothing when no frame of its range is flushable. -/
theorem flushLoop_noop {σ : Type} (pf : StorageMgr σ) (k i : Nat) (md : BM_MgmtData σ)
    (h : ∀ j, i ≤ j → j < i + k → ¬ (md.frames.getD j default).flushable) :
    flushLoop pf k i md = (RC.RC_OK, md) := by
  induction k generalizing i with
  | zero => rfl
  | succ k ih =>
    have hc : ¬ ((md.frames.getD i default).pageNum ≠ NO_PAGE ∧
        (md.frames.getD i default).dirty = true ∧ (md.frames.getD i default).fixCount = 0) :=
      h i (le_refl _) (by omega)
    conv => lhs; unfold flushLoop
    dsimp only
    rw [if_neg hc]
    exact ih (i + 1) (fun j h1 h2 => h j (by omega) (by omega))

theorem writeBackIfDirty_length {σ : Type} (pf : StorageMgr σ) (md : BM_MgmtData σ) (i : Nat) :
    (writeBackIfDirty pf md i).2.frames.length = md.frames.length := by
  by_cases hrc : (writeBackIfDirty pf md i).1 = RC.RC_OK
  · cases hd : (md.frames.getD i default).dirty with
    | false => rw [writeBackIfDirty_clean pf md i hd]
    | true =>
      rw [writeBackIfDirty_ok pf md i hd hrc]
      exact List.length_set _ _ _
  · obtain ⟨_, x, hx⟩ := writeBackIfDirty_fail pf md i hrc
    rw [hx]

theorem flushLoop_length {σ : Type} (pf : StorageMgr σ) (k i : Nat) (md : BM_MgmtData σ) :
    (flushLoop pf k i md).2.frames.length = md.frames.length := by
  induction k generalizing i md with
  | zero => rfl
  | succ k ih =>
    conv => lhs; unfold flushLoop
    dsimp only
    split
    · split
      · exact writeBackIfDirty_length pf md i
      · rw [ih, writeBackIfDirty_length]
    · exact ih _ _

/-- After a `forceFlushPool` loop that returned `RC_OK` no frame of its range is
flushable. -/
theorem flushLoop_clears {σ : Type} (pf : StorageMgr σ) (k i : Nat) (md : BM_MgmtData σ)
    (hok : (flushLoop pf k i md).1 = RC.RC_OK) (j : Nat) (h1 : i ≤ j) (h2 : j < i + k) :
    ¬ ((flushLoop pf k i md).2.frames.getD j default).flushable := by
  obtain ⟨_, hB, _⟩ := flushLoop_spec pf k i md
  cases hj : md.frames[j]? with
  | none =>
    have hlen : md.frames.length ≤ j := by
      by_contra hn
      rw [List.getElem?_eq_getElem (by omega)] at hj
      cases hj
    rw [getD_of_none _ _ _ (by
      rw [List.getElem?_eq_none_iff, flushLoop_length]; exact hlen)]
    intro hfl
    exact hfl.1 rfl
  | some fr =>
    obtain ⟨fr1, hfr1, hshape, hd, hclr⟩ := hB j fr hj
    rw [getD_of_getElem? _ _ _ _ hfr1]
    intro hfl
    by_cases hf : fr.flushable
    · have h3 := hclr hok h1 h2 hf
      have h4 := hfl.2.1
      rw [h3] at h4
      cases h4
    · rcases hd with hd | ⟨hf2, _⟩
      · apply hf
        have h5 : fr1.pageNum = fr.pageNum := by rw [hshape]
        have h6 : fr1.fixCount = fr.fixCount := by rw [hshape]
        exact ⟨by rw [← h5]; exact hfl.1, by rw [← hd]; exact hfl.2.1, by rw [← h6]; exact hfl.2.2⟩
      · exact hf hf2

theorem mem_dirtyBlocks (l : List Frame) (b : PageNumber × PageData) :
    b ∈ dirtyBlocks l ↔
      ∃ fr ∈ l, fr.pageNum ≠ NO_PAGE ∧ fr.dirty = true ∧ b = (fr.pageNum, fr.data) := by
  simp only [dirtyBlocks, List.mem_map, List.mem_filter, decide_eq_true_eq]
  constructor
  · rintro ⟨fr, ⟨hm, h1, h2⟩, e⟩
    exact ⟨fr, hm, h1, h2, e.symm⟩
  · rintro ⟨fr, hm, h1, h2, e⟩
    exact ⟨fr, ⟨hm, h1, h2⟩, e.symm⟩

theorem dirtyBlocks_cons (fr : Frame) (l : List Frame) :
    dirtyBlocks (fr :: l) =
      if fr.pageNum ≠ NO_PAGE ∧ fr.dirty = true then (fr.pageNum, fr.data) :: dirtyBlocks l
      else dirtyBlocks l := by
  by_cases h : fr.pageNum ≠ NO_PAGE ∧ fr.dirty = true
  · rw [if_pos h]
    simp only [dirtyBlocks, List.filter_cons, decide_eq_true h, if_true, List.map_cons]
  · rw [if_neg h]
    simp only [dirtyBlocks, List.filter_cons, decide_eq_false h, Bool.false_eq_true, if_false]

/-- On the ideal page file writing back a dirty frame succeeds and appends its block. -/
theorem writeBackIfDirty_ideal (k : Nat) (md : BM_MgmtData IdealFile) (i : Nat)
    (hd : (md.frames.getD i default).dirty = true) :
    writeBackIfDirty (idealFile k) md i =
      (RC.RC_OK,
        { md with
          fhandle :=
            { blocks := ((md.frames.getD i default).pageNum, (md.frames.getD i default).data) ::
                md.fhandle.blocks }
          numWriteIO := md.numWriteIO + 1
          frames := md.frames.set i { md.frames.getD i default with dirty := false }
          dirtyFlags := md.dirtyFlags.set i false }) := by
  have hrc : (writeBackIfDirty (idealFile k) md i).1 = RC.RC_OK := by
    simp only [writeBackIfDirty, hd, ensure_page_exists, idealFile]
    simp
  have e := writeBackIfDirty_ok (idealFile k) md i hd hrc
  rw [idealFile_writtenFile] at e
  rw [← e, ← hrc]

/-- On the ideal page file the loop of `shutdownBufferPool` over slots `i .. i + todo - 1`
succeeds and appends to the file the blocks of the resident dirty frames of that range,
the later frame first. -/
theorem shutdownLoop_ideal (k todo i : Nat) (md : BM_MgmtData IdealFile) :
    (shutdownLoop (idealFile k) todo i md).1 = RC.RC_OK ∧
      (shutdownLoop (idealFile k) todo i md).2.fhandle =
        { blocks := (dirtyBlocks ((md.frames.drop i).take todo)).reverse ++ md.fhandle.blocks } := by
  induction todo generalizing i md with
  | zero => exact ⟨rfl, rfl⟩
  | succ todo ih =>
    by_cases hc : (md.frames.getD i default).pageNum ≠ NO_PAGE ∧
        (md.frames.getD i default).dirty = true
    · have hlt : i < md.frames.length := by
        by_contra hn
        have : md.frames.getD i default = default := by
          apply getD_of_none; simp; omega
        rw [this] at hc
        exact hc.1 rfl
      have hw := writeBackIfDirty_ideal k md i hc.2
      have e : shutdownLoop (idealFile k) (todo + 1) i md =
          shutdownLoop (idealFile k) todo (i + 1) (writeBackIfDirty (idealFile k) md i).2 := by
        conv => lhs; unfold shutdownLoop
        dsimp only
        rw [if_pos hc, if_neg (not_not.mpr (by rw [hw]))]
      rw [e, hw]
      obtain ⟨h1, h2⟩ := ih (i + 1)
        { md with
          fhandle :=
            { blocks := ((md.frames.getD i default).pageNum, (md.frames.getD i default).data) ::
                md.fhandle.blocks }
          numWriteIO := md.numWriteIO + 1
          frames := md.frames.set i { md.frames.getD i default with dirty := false }
          dirtyFlags := md.dirtyFlags.set i false }
      refine ⟨h1, ?_⟩
      rw [h2]
      have hd1 : (md.frames.set i { md.frames.getD i default with dirty := false }).drop (i + 1) =
          md.frames.drop (i + 1) := List.drop_set_of_lt _ _ (by omega)
      show IdealFile.mk _ = IdealFile.mk _
      have hgi : md.frames[i]? = some (md.frames.getD i default) := by
        rw [List.getD_eq_getElem _ _ hlt]; exact List.getElem?_eq_getElem hlt
      rw [hd1, drop_take_succ md.frames i todo, hgi]
      dsimp only
      rw [dirtyBlocks_cons, if_pos hc, List.reverse_cons, List.append_assoc]
      rfl
    · have e : shutdownLoop (idealFile k) (todo + 1) i md =
          shutdownLoop (idealFile k) todo (i + 1) md := by
        conv => lhs; unfold shutdownLoop
        dsimp only
        rw [if_neg hc]
      rw [e]
      obtain ⟨h1, h2⟩ := ih (i + 1) md
      refine ⟨h1, ?_⟩
      rw [h2, drop_take_succ md.frames i todo]
      cases hgi : md.frames[i]? with
      | none =>
        have hlen : md.frames.length ≤ i := by
          by_contra hn
          rw [List.getElem?_eq_getElem (by omega)] at hgi
          cases hgi
        rw [List.drop_of_length_le (by omega), List.take_nil]
      | some fr =>
        dsimp only
        rw [getD_of_getElem? _ _ _ _ hgi] at hc
        rw [dirtyBlocks_cons, if_neg hc]

theorem IdealFile.page_append_hit (k : Nat) (w old : List (PageNumber × PageData))
    (p : PageNumber) (d : PageData) (hex : ∃ b ∈ w, b.1 = p)
    (hall : ∀ b ∈ w, b.1 = p → b.2 = d) :
    ({ blocks := w ++ old } : IdealFile).page k p = d := by
  induction w with
  | nil =>
    obtain ⟨b, hb, _⟩ := hex
    cases hb
  | cons a w ih =>
    show ({ blocks := (a.1, a.2) :: (w ++ old) } : IdealFile).page k p = d
    rw [IdealFile.page_cons k { blocks := w ++ old } a.1 p a.2]
    by_cases ha : a.1 = p
    · rw [if_pos ha]
      exact hall a (List.mem_cons_self _ _) ha
    · rw [if_neg ha]
      apply ih
      · obtain ⟨b, hb, hbp⟩ := hex
        rcases List.mem_cons.1 hb with e | hm
        · rw [e] at hbp; exact absurd hbp ha
        · exact ⟨b, hm, hbp⟩
      · intro b hb hbp
        exact hall b (List.mem_cons_of_mem _ hb) hbp

theorem IdealFile.page_append_miss (k : Nat) (w old : List (PageNumber × PageData))
    (p : PageNumber) (hall : ∀ b ∈ w, b.1 ≠ p) :
    ({ blocks := w ++ old } : IdealFile).page k p = ({ blocks := old } : IdealFile).page k p := by
  induction w with
  | nil => rfl
  | cons a w ih =>
    show ({ blocks := (a.1, a.2) :: (w ++ old) } : IdealFile).page k p = _
    rw [IdealFile.page_cons k { blocks := w ++ old } a.1 p a.2,
      if_neg (hall a (List.mem_cons_self _ _))]
    exact ih (fun b hb => hall b (List.mem_cons_of_mem _ hb))

theorem mem_flushBlocks (l : List Frame) (b : PageNumber × PageData) :
    b ∈ flushBlocks l ↔ ∃ fr ∈ l, fr.flushable ∧ b = (fr.pageNum, fr.data) := by
  simp only [flushBlocks, List.mem_map, List.mem_filter, decide_eq_true_eq]
  constructor
  · rintro ⟨fr, ⟨hm, h1⟩, e⟩
    exact ⟨fr, hm, h1, e.symm⟩
  · rintro ⟨fr, hm, h1, e⟩
    exact ⟨fr, ⟨hm, h1⟩, e.symm⟩

theorem flushBlocks_cons (fr : Frame) (l : List Frame) :
    flushBlocks (fr :: l) =
      if fr.flushable then (fr.pageNum, fr.data) :: flushBlocks l else flushBlocks l := by
  by_cases h : fr.flushable
  · rw [if_pos h]
    simp only [flushBlocks, List.filter_cons, decide_eq_true h, if_true, List.map_cons]
  · rw [if_neg h]
    simp only [flushBlocks, List.filter_cons, decide_eq_false h, Bool.false_eq_true, if_false]

/-- On the ideal page file the loop of `forceFlushPool` over slots `i .. i + todo - 1`
succeeds and appends to the file the blocks of the flushable frames of that range, the
later frame first. -/
theorem flushLoop_ideal (k todo i : Nat) (md : BM_MgmtData IdealFile) :
    (flushLoop (idealFile k) todo i md).1 = RC.RC_OK ∧
      (flushLoop (idealFile k) todo i md).2.fhandle =
        { blocks := (flushBlocks ((md.frames.drop i).take todo)).reverse ++ md.fhandle.blocks } := by
  induction todo generalizing i md with
  | zero => exact ⟨rfl, rfl⟩
  | succ todo ih =>
    by_cases hc : (md.frames.getD i default).pageNum ≠ NO_PAGE ∧
        (md.frames.getD i default).dirty = true ∧ (md.frames.getD i default).fixCount = 0
    · have hlt : i < md.frames.length := by
        by_contra hn
        have : md.frames.getD i default = default := by
          apply getD_of_none; simp; omega
        rw [this] at hc
        exact hc.1 rfl
      have hw := writeBackIfDirty_ideal k md i hc.2.1
      have e : flushLoop (idealFile k) (todo + 1) i md =
          flushLoop (idealFile k) todo (i + 1) (writeBackIfDirty (idealFile k) md i).2 := by
        conv => lhs; unfold flushLoop
        dsimp only
        rw [if_pos hc, if_neg (not_not.mpr (by rw [hw]))]
      rw [e, hw]
      obtain ⟨h1, h2⟩ := ih (i + 1)
        { md with
          fhandle :=
            { blocks := ((md.frames.getD i default).pageNum, (md.frames.getD i default).data) ::
                md.fhandle.blocks }
          numWriteIO := md.numWriteIO + 1
          frames := md.frames.set i { md.frames.getD i default with dirty := false }
          dirtyFlags := md.dirtyFlags.set i false }
      refine ⟨h1, ?_⟩
      rw [h2]
      have hd1 : (md.frames.set i { md.frames.getD i default with dirty := false }).drop (i + 1) =
          md.frames.drop (i + 1) := List.drop_set_of_lt _ _ (by omega)
      show IdealFile.mk _ = IdealFile.mk _
      have hgi : md.frames[i]? = some (md.frames.getD i default) := by
        rw [List.getD_eq_getElem _ _ hlt]; exact List.getElem?_eq_getElem hlt
      rw [hd1, drop_take_succ md.frames i todo, hgi]
      dsimp only
      have hfl : (md.frames.getD i default).flushable := hc
      rw [flushBlocks_cons, if_pos hfl, List.reverse_cons, List.append_assoc]
      rfl
    · have e : flushLoop (idealFile k) (todo + 1) i md =
          flushLoop (idealFile k) todo (i + 1) md := by
        conv => lhs; unfold flushLoop
        dsimp only
        rw [if_neg hc]
      rw [e]
      obtain ⟨h1, h2⟩ := ih (i + 1) md
      refine ⟨h1, ?_⟩
      rw [h2, drop_take_succ md.frames i todo]
      cases hgi : md.frames[i]? with
      | none =>
        have hlen : md.frames.length ≤ i := by
          by_contra hn
          rw [List.getElem?_eq_getElem (by omega)] at hgi
          cases hgi
        rw [List.drop_of_length_le (by omega), List.take_nil]
      | some fr =>
        dsimp only
        rw [getD_of_getElem? _ _ _ _ hgi] at hc
        have hnf : ¬ fr.flushable := hc
        rw [flushBlocks_cons, if_neg hnf]

theorem writeBackIfDirty_rc {σ : Type} (pf : StorageMgr σ) (md : BM_MgmtData σ) (i : Nat)
    (hd : (md.frames.getD i default).dirty = true) :
    (writeBackIfDirty pf md i).1 = writeBackCode pf md.fhandle (md.frames.getD i default) := by
  dsimp only [writeBackIfDirty, ensure_page_exists, writeBackCode]
  rw [if_pos hd]
  by_cases h1 : (pf.ensureCapacity ((md.frames.getD i default).pageNum + 1) md.fhandle).1 =
      RC.RC_OK
  · rw [if_neg (not_not.mpr h1), if_neg (not_not.mpr h1)]
    by_cases h2 : (pf.writeBlock (md.frames.getD i default).pageNum
        (pf.ensureCapacity ((md.frames.getD i default).pageNum + 1) md.fhandle).2
        (md.frames.getD i default).data).1 = RC.RC_OK
    · rw [if_neg (not_not.mpr h2), h2]
    · rw [if_pos h2]
  · rw [if_pos h1, if_pos h1]

theorem readPageIntoFrame_rc {σ : Type} (pf : StorageMgr σ) (md : BM_MgmtData σ) (t : Nat)
    (p : PageNumber) :
    (readPageIntoFrame pf md t p).1 = loadCode pf md.fhandle p (md.frames.getD t default).data := by
  dsimp only [readPageIntoFrame, ensure_page_exists, loadCode]
  by_cases h1 : (pf.ensureCapacity (p + 1) md.fhandle).1 = RC.RC_OK
  · rw [if_neg (not_not.mpr h1), if_neg (not_not.mpr h1)]
    by_cases h2 : (pf.readBlock p (pf.ensureCapacity (p + 1) md.fhandle).2
        (md.frames.getD t default).data).1 = RC.RC_OK
    · rw [if_neg (not_not.mpr h2), h2]
    · rw [if_pos h2]
  · rw [if_pos h1, if_pos h1]

theorem pinLoad_of_read_fail {σ : Type} (pf : StorageMgr σ) (md : BM_MgmtData σ) (t : Nat)
    (p : PageNumber) (h : (readPageIntoFrame pf md t p).1 ≠ RC.RC_OK) :
    pinLoad pf md t p = readPageIntoFrame pf md t p := by
  dsimp only [pinLoad]
  rw [if_pos h]

theorem pickTarget_victim {σ : Type} (pf : StorageMgr σ) (s : ReplacementStrategy) (n : Nat)
    (md : BM_MgmtData σ) (v : Nat) (he : findEmptyFrame md n = none)
    (hv : (selectVictim s n md).1 = some v) :
    pickTarget pf s n md =
      ((writeBackIfDirty pf (selectVictim s n md).2 v).1, some v,
        (writeBackIfDirty pf (selectVictim s n md).2 v).2) := by
  rcases hsv : selectVictim s n md with ⟨o, md1⟩
  rw [hsv] at hv
  simp only at hv
  subst hv
  simp only [pickTarget, he, hsv]

/-- A miss of `pinPage` whose target choice fails returns the code of that failure and
does not write the handle. -/
theorem pinPage_miss_fail {σ : Type} (pf : StorageMgr σ) (bm : BM_BufferPool σ)
    (md : BM_MgmtData σ) (h : BM_PageHandle) (p : PageNumber) (hmd : bm.mgmtData = some md)
    (hp : 0 ≤ p) (hmiss : findFrameByPageNP md bm.numPages p = none)
    (hrc : (pickTarget pf bm.strategy bm.numPages md).1 ≠ RC.RC_OK) :
    pinPage pf bm (some h) p =
      ((pickTarget pf bm.strategy bm.numPages md).1,
        { bm with mgmtData := some (pickTarget pf bm.strategy bm.numPages md).2.2 }, some h) := by
  rcases pinPage_cases pf bm md (some h) p hmd with ⟨hx | hx, _⟩ | ⟨_, h', hh, hc⟩
  · exact absurd hx (not_lt.mpr hp)
  · cases hx
  · cases hh
    rcases hc with ⟨f, hf, _⟩ | ⟨_, _, e⟩ | ⟨_, hok, _⟩
    · rw [hmiss] at hf; cases hf
    · exact e
    · exact absurd hok hrc

/-- A miss of `pinPage` whose load fails returns the code of the load and does not write
the handle. -/
theorem pinPage_miss_load_fail {σ : Type} (pf : StorageMgr σ) (bm : BM_BufferPool σ)
    (md : BM_MgmtData σ) (h : BM_PageHandle) (p : PageNumber) (t : Nat)
    (hmd : bm.mgmtData = some md) (hp : 0 ≤ p)
    (hmiss : findFrameByPageNP md bm.numPages p = none)
    (hok : (pickTarget pf bm.strategy bm.numPages md).1 = RC.RC_OK)
    (ht : (pickTarget pf bm.strategy bm.numPages md).2.1 = some t)
    (hrc : (pinLoad pf (pickTarget pf bm.strategy bm.numPages md).2.2 t p).1 ≠ RC.RC_OK) :
    pinPage pf bm (some h) p =
      ((pinLoad pf (pickTarget pf bm.strategy bm.numPages md).2.2 t p).1,
        { bm with
          mgmtData := some (pinLoad pf (pickTarget pf bm.strategy bm.numPages md).2.2 t p).2 },
        some h) := by
  rcases pinPage_cases pf bm md (some h) p hmd with ⟨hx | hx, _⟩ | ⟨_, h', hh, hc⟩
  · exact absurd hx (not_lt.mpr hp)
  · cases hx
  · cases hh
    rcases hc with ⟨f, hf, _⟩ | ⟨_, hne, _⟩ | ⟨_, _, t', ht', hc2⟩
    · rw [hmiss] at hf; cases hf
    · exact absurd hok hne
    · rw [ht] at ht'
      cases ht'
      rcases hc2 with ⟨_, e⟩ | ⟨hok2, _⟩
      · exact e
      · exact absurd hok2 hrc

/-- Replacing slot `f` by a frame with the same `pageNum` keeps the `pageNum` of every
slot. -/
theorem set_pageNum (l : List Frame) (f : Nat) (a : Frame) (i : Nat) (fr : Frame)
    (ha : ∀ x, l[f]? = some x → a.pageNum = x.pageNum) (hfr : l[i]? = some fr) :
    ∃ fr1, (l.set f a)[i]? = some fr1 ∧ fr1.pageNum = fr.pageNum := by
  by_cases hfi : f = i
  · subst hfi
    exact ⟨a, getElem?_set_self_of a hfr, ha fr hfr⟩
  · exact ⟨fr, by rw [getElem?_set_other _ _ hfi]; exact hfr, rfl⟩

/-- What one call does to the `pageNum` of slot `i`: it stays, or the slot becomes
resident, and then every slot before it was resident. -/
theorem step_pageNum {σ : Type} (pf : StorageMgr σ) (bm : BM_BufferPool σ) (op : Op)
    (h : PoolInv bm) (i : Nat) (fr : Frame) (hfr : (framesOf bm)[i]? = some fr) :
    ∃ fr1, (framesOf (step pf bm op).2)[i]? = some fr1 ∧
      (fr1.pageNum = fr.pageNum ∨
        (fr1.pageNum ≠ NO_PAGE ∧
          ∀ (j : Nat) (fj : Frame), j < i → (framesOf bm)[j]? = some fj →
            fj.pageNum ≠ NO_PAGE)) := by
  obtain ⟨md, hmd, hinv⟩ := h
  have hfo : framesOf bm = md.frames := by simp only [framesOf, hmd]
  rw [hfo] at hfr ⊢
  have same : ∀ (l : List Frame), (∃ fr1, l[i]? = some fr1 ∧ fr1.pageNum = fr.pageNum) →
      ∃ fr1, l[i]? = some fr1 ∧
        (fr1.pageNum = fr.pageNum ∨
          (fr1.pageNum ≠ NO_PAGE ∧
            ∀ (j : Nat) (fj : Frame), j < i → md.frames[j]? = some fj →
              fj.pageNum ≠ NO_PAGE)) := by
    rintro l ⟨fr1, h1, h2⟩
    exact ⟨fr1, h1, Or.inl h2⟩
  cases op with
  | pin page p =>
    simp only [step]
    rcases pinPage_cases pf bm md page p hmd with ⟨_, e⟩ | ⟨hp, hd, _, hc⟩
    · rw [e]
      simp only [framesOf, hmd]
      exact ⟨fr, hfr, Or.inl rfl⟩
    · rcases hc with ⟨f, hf, e⟩ | ⟨_, hrc, e⟩ | ⟨hf, hok, t, ht, hl⟩
      · rw [e]
        obtain ⟨frf, hfrf, hfp, _⟩ := (findFrameByPageNP_some md _ _ f hinv.len).1 hf
        rw [pinHit_eq md f frf hfrf]
        simp only [framesOf]
        apply same
        exact set_pageNum md.frames f _ i fr
          (fun x hx => by rw [hfrf] at hx; cases hx; rfl) hfr
      · rw [e]
        simp only [framesOf]
        apply same
        obtain ⟨fr1, h1, h2, _⟩ := pickTarget_frame pf bm.strategy bm.numPages md hinv i fr hfr
        exact ⟨fr1, h1, by rw [h2]⟩
      · obtain ⟨fr1, h1, h2, _⟩ := pickTarget_frame pf bm.strategy bm.numPages md hinv i fr hfr
        have hinv1 := pickTarget_inv pf bm.strategy bm.numPages md hinv
        rcases hl with ⟨hlf, e⟩ | ⟨hlo, e⟩
        · rw [e]
          simp only [framesOf]
          apply same
          obtain ⟨d, hd2, _⟩ := pinLoad_fail_frame pf _ t p hlf i fr1 h1
          exact ⟨_, hd2, by show fr1.pageNum = _; rw [h2]⟩
        · rw [e]
          simp only [framesOf]
          rw [pinLoad_ok pf _ bm.numPages t p hinv1 hlo]
          by_cases hti : t = i
          · subst hti
            refine ⟨_, getElem?_set_self_of _ h1, Or.inr ⟨?_, ?_⟩⟩
            · show p ≠ NO_PAGE
              intro hx
              rw [hx] at hp
              exact absurd hp (by decide)
            · intro j fj hj hfj
              rcases pickTarget_cases pf bm.strategy bm.numPages md hinv with
                ⟨t', fr', he, _, _, hpt⟩ | ⟨_, c, l, _, _, _, hpt⟩ | ⟨he, _⟩
              · rw [hpt] at ht
                cases ht
                obtain ⟨_, _, _, hmin⟩ := (findEmptyFrame_some md _ t hinv.len).1 he
                exact hmin j fj hj hfj
              · rw [hpt] at ht
                cases ht
              · exact (findEmptyFrame_none md _ hinv.len).1 he j fj hfj
          · refine ⟨fr1, ?_, Or.inl (by rw [h2])⟩
            show (List.set _ _ _)[i]? = _
            rw [getElem?_set_other _ _ hti]
            exact h1
  | unpin page =>
    simp only [step]
    rcases unpinPage_cases bm md page hmd hinv.len with ⟨e, _⟩ | ⟨h, f, frf, _, _, hfrf, _, _, e⟩
    · rw [e]
      simp only [framesOf, hmd]
      exact ⟨fr, hfr, Or.inl rfl⟩
    · rw [e]
      simp only [framesOf]
      apply same
      exact set_pageNum md.frames f _ i fr
        (fun x hx => by rw [hfrf] at hx; cases hx; rfl) hfr
  | dirty page =>
    simp only [step]
    rcases markDirty_cases bm md page hmd hinv.len with ⟨e, _⟩ | ⟨h, f, frf, _, _, hfrf, _, e⟩
    · rw [e]
      simp only [framesOf, hmd]
      exact ⟨fr, hfr, Or.inl rfl⟩
    · rw [e]
      simp only [framesOf]
      apply same
      exact set_pageNum md.frames f _ i fr
        (fun x hx => by rw [hfrf] at hx; cases hx; rfl) hfr
  | force page =>
    simp only [step]
    rcases forcePage_cases pf bm md page hmd hinv.len with
      ⟨e, _⟩ | ⟨h, f, frf, _, _, hfrf, _, ⟨rc, x, _, e⟩ | ⟨_, e⟩ | ⟨_, e⟩⟩
    · rw [e]
      simp only [framesOf, hmd]
      exact ⟨fr, hfr, Or.inl rfl⟩
    · rw [e]
      simp only [framesOf]
      exact ⟨fr, hfr, Or.inl rfl⟩
    · rw [e]
      simp only [framesOf]
      exact ⟨fr, hfr, Or.inl rfl⟩
    · rw [e]
      simp only [framesOf]
      apply same
      exact set_pageNum md.frames f _ i fr
        (fun x hx => by rw [hfrf] at hx; cases hx; rfl) hfr
  | flush =>
    simp only [step, forceFlushPool, hmd, framesOf]
    apply same
    obtain ⟨_, hB, _⟩ := flushLoop_spec pf bm.numPages 0 md
    obtain ⟨fr1, h1, h2, _⟩ := hB i fr hfr
    exact ⟨fr1, h1, by rw [h2]⟩
  | write f bytes =>
    simp only [step, writeData, hmd, framesOf]
    apply same
    exact set_pageNum md.frames f _ i fr
      (fun x hx => by rw [getD_of_getElem? _ _ _ _ hx]) hfr

theorem step_numPages {σ : Type} (pf : StorageMgr σ) (bm : BM_BufferPool σ) (op : Op)
    (h : PoolInv bm) : (step pf bm op).2.numPages = bm.numPages := by
  cases op with
  | pin page p =>
    obtain ⟨md1, e, _⟩ := pinPage_md pf bm page p h
    simp only [step, e]
  | unpin page =>
    obtain ⟨md, hmd, hinv⟩ := h
    rcases unpinPage_cases bm md page hmd hinv.len with ⟨e, _⟩ | ⟨_, _, _, _, _, _, _, _, e⟩
    · simp only [step, e]
    · simp only [step, e]
  | dirty page =>
    obtain ⟨md, hmd, hinv⟩ := h
    rcases markDirty_cases bm md page hmd hinv.len with ⟨e, _⟩ | ⟨_, _, _, _, _, _, _, e⟩
    · simp only [step, e]
    · simp only [step, e]
  | force page =>
    obtain ⟨md, hmd, hinv⟩ := h
    rcases forcePage_cases pf bm md page hmd hinv.len with
      ⟨e, _⟩ | ⟨_, _, _, _, _, _, _, ⟨_, _, _, e⟩ | ⟨_, e⟩ | ⟨_, e⟩⟩
    · simp only [step, e]
    · simp only [step, e]
    · simp only [step, e]
    · simp only [step, e]
  | flush =>
    obtain ⟨md, hmd, _⟩ := h
    simp only [step, forceFlushPool, hmd]
  | write f bytes =>
    obtain ⟨md, hmd, _⟩ := h
    simp only [step, writeData, hmd]

theorem step_frames_length {σ : Type} (pf : StorageMgr σ) (bm : BM_BufferPool σ) (op : Op)
    (h : PoolInv bm) : (framesOf (step pf bm op).2).length = (framesOf bm).length := by
  obtain ⟨md1, hmd1, hinv1⟩ := step_poolInv pf bm op h
  have hn := step_numPages pf bm op h
  obtain ⟨md, hmd, hinv⟩ := h
  simp only [framesOf, hmd, hmd1]
  rw [hinv1.len, hinv.len, hn]

theorem getElem?_of_length_eq {α : Type} {l1 l2 : List α} {i : Nat} {a : α}
    (hlen : l1.length = l2.length) (h : l1[i]? = some a) : ∃ b, l2[i]? = some b := by
  have hlt : i < l2.length := by rw [← hlen]; exact getElem?_lt h
  exact ⟨l2[i], List.getElem?_eq_getElem hlt⟩

/-- One call keeps the empty frames a suffix of the frame array. -/
theorem step_emptySuffix {σ : Type} (pf : StorageMgr σ) (bm : BM_BufferPool σ) (op : Op)
    (h : PoolInv bm) (hs : EmptySuffix (framesOf bm)) :
    EmptySuffix (framesOf (step pf bm op).2) := by
  intro i j fi fj hij hi hj hempty
  have hlen := step_frames_length pf bm op h
  obtain ⟨gi, hi0⟩ := getElem?_of_length_eq hlen hi
  obtain ⟨gj, hj0⟩ := getElem?_of_length_eq hlen hj
  obtain ⟨fi1, hfi1, hci⟩ := step_pageNum pf bm op h i gi hi0
  obtain ⟨fj1, hfj1, hcj⟩ := step_pageNum pf bm op h j gj hj0
  rw [hi] at hfi1
  cases hfi1
  rw [hj] at hfj1
  cases hfj1
  rcases hci with hci | ⟨hne, _⟩
  · rcases hcj with hcj | ⟨_, hbefore⟩
    · rw [hcj]
      exact hs i j gi gj hij hi0 hj0 (by rw [← hci]; exact hempty)
    · exact absurd (by rw [← hci]; exact hempty) (hbefore i gi hij hi0)
  · exact absurd hempty hne

theorem run_emptySuffix {σ : Type} (pf : StorageMgr σ) (bm : BM_BufferPool σ) (ops : List Op)
    (h : PoolInv bm) (hs : EmptySuffix (framesOf bm)) :
    EmptySuffix (framesOf (run pf bm ops)) := by
  induction ops generalizing bm with
  | nil => exact hs
  | cons op ops ih => exact ih _ (step_poolInv pf bm op h) (step_emptySuffix pf bm op h hs)

theorem initBufferPool_emptySuffix {σ : Type} (pf : StorageMgr σ) (bm0 : BM_BufferPool σ)
    (name : String) (n : Nat) (s : ReplacementStrategy) (a : Bool) (mem : Nat → PageData)
    (h : (initBufferPool pf bm0 name n s a mem).1 = RC.RC_OK) :
    EmptySuffix (framesOf (initBufferPool pf bm0 name n s a mem).2) := by
  revert h
  unfold initBufferPool
  dsimp only
  split
  · intro h; cases h
  · split
    · intro h; cases h
    · intro _ i j fi fj _ _ hj _
      simp only [framesOf, List.getElem?_map, Option.map_eq_some'] at hj
      obtain ⟨_, _, hfj⟩ := hj
      rw [← hfj]
      rfl

theorem Reachable.emptySuffix {σ : Type} {pf : StorageMgr σ} {bm : BM_BufferPool σ}
    (h : Reachable pf bm) : EmptySuffix (framesOf bm) := by
  obtain ⟨bm0, name, n, s, mem, ops, hok, e⟩ := h
  rw [e]
  exact run_emptySuffix pf _ ops (initBufferPool_poolInv pf bm0 name n s true mem hok)
    (initBufferPool_emptySuffix pf bm0 name n s true mem hok)

/-- C1. Pinned pages are never evicted: in every reachable pool, under every strategy and
for every `pinPage` call, successful or not, a frame whose `fixCount` was positive keeps
its `pageNum` and its `dirty` flag, and its `fixCount` is unchanged unless the call
succeeds on the page it holds (the frame hit by the pin), in which case it grows by
one. -/
theorem pinPage_keeps_pinned_frames {σ : Type} (pf : StorageMgr σ) (bm : BM_BufferPool σ)
    (md : BM_MgmtData σ) (page : Option BM_PageHandle) (p : PageNumber) (i : Nat) (fr : Frame)
    (hr : Reachable pf bm) (hmd : bm.mgmtData = some md) (hfr : md.frames[i]? = some fr)
    (hpin : 0 < fr.fixCount) :
    ∃ md1 fr1, (pinPage pf bm page p).2.1.mgmtData = some md1 ∧ md1.frames[i]? = some fr1 ∧
      fr1.pageNum = fr.pageNum ∧ fr1.dirty = fr.dirty ∧
      fr1.fixCount =
        if (pinPage pf bm page p).1 = RC.RC_OK ∧ fr.pageNum = p then fr.fixCount + 1
        else fr.fixCount := by
  obtain ⟨md0, hmd0, hinv⟩ := hr.poolInv
  rw [hmd] at hmd0; cases hmd0
  have hres : fr.pageNum ≠ NO_PAGE := by
    intro h
    have := hinv.ok.emptyFix i fr hfr h
    omega
  have hnev : ¬ fr.evictable := fun h => by have := h.2; omega
  rcases pinPage_cases pf bm md page p hmd with ⟨_, e⟩ | ⟨hp, hd, _, hc⟩
  · rw [e]
    refine ⟨md, fr, hmd, hfr, rfl, rfl, ?_⟩
    rw [if_neg]
    rintro ⟨h, _⟩; cases h
  · rcases hc with ⟨f, hf, e⟩ | ⟨_, hrc, e⟩ | ⟨hf, hok, t, ht, hl⟩
    · rw [e]
      obtain ⟨frf, hfrf, hfp, _⟩ := (findFrameByPageNP_some md _ _ f hinv.len).1 hf
      rw [pinHit_eq md f frf hfrf]
      by_cases hfi : f = i
      · subst hfi
        rw [hfr] at hfrf; cases hfrf
        refine ⟨_, hitFrame fr md.tick, rfl, getElem?_set_self_of _ hfr, rfl, rfl, ?_⟩
        rw [if_pos ⟨rfl, hfp⟩]
        rfl
      · have hne : fr.pageNum ≠ p := by
          intro h
          exact hfi (hinv.ok.uniq f i frf fr hfrf hfr (by rw [hfp, h])
            (by rw [hfp, ← h]; exact hres))
        refine ⟨_, fr, rfl, ?_, rfl, rfl, ?_⟩
        · show (md.frames.set f _)[i]? = some fr
          rw [getElem?_set_other _ _ hfi]; exact hfr
        · rw [if_neg]
          rintro ⟨_, h⟩; exact hne h
    · rw [e]
      obtain ⟨fr1, h1, h2, h3, _⟩ := pickTarget_frame pf bm.strategy bm.numPages md hinv i fr hfr
      refine ⟨_, fr1, rfl, h1, by rw [h2], ?_, ?_⟩
      · rcases h3 with h3 | ⟨_, _, hev, _⟩
        · exact h3
        · exact absurd hev hnev
      · rw [if_neg (fun h => hrc h.1), h2]
    · obtain ⟨fr1, h1, h2, h3, _⟩ := pickTarget_frame pf bm.strategy bm.numPages md hinv i fr hfr
      have hd1 : fr1.dirty = fr.dirty := by
        rcases h3 with h3 | ⟨_, _, hev, _⟩
        · exact h3
        · exact absurd hev hnev
      have hinv1 := pickTarget_inv pf bm.strategy bm.numPages md hinv
      rcases hl with ⟨hlf, e⟩ | ⟨hlo, e⟩
      · rw [e]
        obtain ⟨d, hd2, _⟩ := pinLoad_fail_frame pf _ t p hlf i fr1 h1
        refine ⟨_, _, rfl, hd2, ?_, hd1, ?_⟩
        · show fr1.pageNum = fr.pageNum
          rw [h2]
        · rw [if_neg (fun h => hlf h.1)]
          show fr1.fixCount = fr.fixCount
          rw [h2]
      · rw [e]
        obtain ⟨frt, hft, hfix, _⟩ := pickTarget_target pf bm.strategy bm.numPages md hinv t ht
        have hti : t ≠ i := by
          intro h
          subst h
          rw [h1] at hft; cases hft
          rw [h2] at hfix
          have : fr.fixCount = 0 := hfix
          omega
        have hne : fr.pageNum ≠ p := (findFrameByPageNP_none md _ p hinv.len).1 hf i fr hfr
        refine ⟨_, fr1, rfl, ?_, by rw [h2], hd1, ?_⟩
        · rw [pinLoad_ok pf _ bm.numPages t p hinv1 hlo]
          show (List.set _ t _)[i]? = some fr1
          rw [getElem?_set_other _ _ hti]; exact h1
        · rw [if_neg (fun h => hne h.2), h2]

theorem pinPage_keeps_pinned_frames_witness :
    ∃ md1 fr1,
      (pinPage (idealFile 4)
          (run (idealFile 4) (freshPool 2 .RS_LRU)
            [.pin (some { pageNum := 0, data := 0 }) 0, .pin (some { pageNum := 0, data := 0 }) 1,
              .unpin (some { pageNum := 1, data := 0 })])
          (some { pageNum := 0, data := 0 }) 2).2.1.mgmtData = some md1 ∧
        md1.frames[0]? = some fr1 ∧ fr1.pageNum = 0 ∧ fr1.dirty = false ∧
        fr1.fixCount = 1 :=
  pinPage_keeps_pinned_frames (idealFile 4)
    (run (idealFile 4) (freshPool 2 .RS_LRU)
      [.pin (some { pageNum := 0, data := 0 }) 0, .pin (some { pageNum := 0, data := 0 }) 1,
        .unpin (some { pageNum := 1, data := 0 })])
    (mgmtOf (run (idealFile 4) (freshPool 2 .RS_LRU)
      [.pin (some { pageNum := 0, data := 0 }) 0, .pin (some { pageNum := 0, data := 0 }) 1,
        .unpin (some { pageNum := 1, data := 0 })]) { blocks := [] })
    (some { pageNum := 0, data := 0 }) 2 0
    (pinnedFrame 0 [0, 0, 0, 0] 0)
    (freshPool_reachable _ _ _) rfl rfl (by decide)

/-- C2. Page-to-frame uniqueness: in every pool reachable from `initBufferPool` through
any calls of `pinPage`, `unpinPage`, `markDirty`, `forcePage`, `forceFlushPool`
(successful or failing, and any stores of the client into frame bytes), two distinct
frames never hold the same page number other than `NO_PAGE`. -/
theorem page_frame_uniqueness {σ : Type} (pf : StorageMgr σ) (bm : BM_BufferPool σ)
    (hr : Reachable pf bm) (i j : Nat) (fi fj : Frame)
    (hi : (framesOf bm)[i]? = some fi) (hj : (framesOf bm)[j]? = some fj) (hij : i ≠ j)
    (hres : fi.pageNum ≠ NO_PAGE) : fi.pageNum ≠ fj.pageNum := by
  obtain ⟨md, hmd, hinv⟩ := hr.poolInv
  simp only [framesOf, hmd] at hi hj
  intro h
  exact hij (hinv.ok.uniq i j fi fj hi hj h hres)

theorem page_frame_uniqueness_witness :
    (framesOf (run (idealFile 4) (freshPool 3 .RS_FIFO)
        (pinUnpin 0 ++ pinUnpin 1 ++ pinUnpin 2 ++
          [Op.pin (some { pageNum := 0, data := 0 }) 3])))[0]? =
        some (pinnedFrame 3 [0, 0, 0, 0] 6) ∧
      (pinnedFrame 3 [0, 0, 0, 0] 6).pageNum ≠ (1 : PageNumber) :=
  ⟨rfl,
    page_frame_uniqueness (idealFile 4)
      (run (idealFile 4) (freshPool 3 .RS_FIFO)
        (pinUnpin 0 ++ pinUnpin 1 ++ pinUnpin 2 ++
          [Op.pin (some { pageNum := 0, data := 0 }) 3]))
      (freshPool_reachable _ _ _) 0 1
      (pinnedFrame 3 [0, 0, 0, 0] 6)
      { pageNum := 1, fixCount := 0, dirty := false, data := [0, 0, 0, 0], loadTick := 3,
        accessTick := 4, ref := 1, hist0 := 4, hist1 := 0, kCount := 1, kPos := 1 }
      rfl rfl (by decide) (by decide)⟩

/-- C3. `pinPage` fails for lack of a frame only when every frame is pinned: under every
strategy (CLOCK with its `2N`-step sweep included), on a reachable pool of `N >= 1`
frames, for a page `pageNum >= 0` that is not resident, when some frame is empty or has
`fixCount == 0` and all page-file operations succeed, `pinPage` (called with a handle)
returns `RC_OK` (so not `RC_WRITE_FAILED`), the handle carries `pageNum` and points at a
frame that afterwards holds the page with `fixCount` 1. -/
theorem pinPage_succeeds_unless_all_pinned {σ : Type} (pf : StorageMgr σ)
    (bm : BM_BufferPool σ) (h : BM_PageHandle) (p : PageNumber) (hr : Reachable pf bm)
    (_hn : 1 ≤ bm.numPages) (hp : 0 ≤ p) (hnr : ∀ fr ∈ framesOf bm, fr.pageNum ≠ p)
    (hfree : ∃ fr ∈ framesOf bm, fr.pageNum = NO_PAGE ∨ fr.fixCount = 0)
    (hens : ∀ k x, (pf.ensureCapacity k x).1 = RC.RC_OK)
    (hrd : ∀ q x d, (pf.readBlock q x d).1 = RC.RC_OK)
    (hwr : ∀ q x d, (pf.writeBlock q x d).1 = RC.RC_OK) :
    (pinPage pf bm (some h) p).1 = RC.RC_OK ∧
      (pinPage pf bm (some h) p).1 ≠ RC.RC_WRITE_FAILED ∧
      ∃ t fr, (pinPage pf bm (some h) p).2.2 = some { pageNum := p, data := t } ∧
        (framesOf (pinPage pf bm (some h) p).2.1)[t]? = some fr ∧
        fr.pageNum = p ∧ fr.fixCount = 1 := by
  obtain ⟨md, hmd, hinv⟩ := hr.poolInv
  simp only [framesOf, hmd] at hnr hfree
  have hf : findFrameByPageNP md bm.numPages p = none :=
    (findFrameByPageNP_none md _ p hinv.len).2 (fun j fj hj => hnr fj (List.getElem?_mem hj))
  have hinv1 := pickTarget_inv pf bm.strategy bm.numPages md hinv
  have htn : (pickTarget pf bm.strategy bm.numPages md).2.1 ≠ none := by
    unfold pickTarget
    split
    · intro h; cases h
    · rename_i he
      have hex : ∃ fr ∈ md.frames, fr.evictable := by
        obtain ⟨fr, hfr, hc⟩ := hfree
        obtain ⟨j, hj⟩ := List.getElem?_of_mem hfr
        have hres := (findEmptyFrame_none md _ hinv.len).1 he j fr hj
        rcases hc with hc | hc
        · exact absurd hc hres
        · exact ⟨fr, hfr, hres, hc⟩
      have := selectVictim_some_of_evictable bm.strategy bm.numPages md hinv hex
      split
      · rename_i hs
        rw [hs] at this
        exact absurd rfl this
      · intro h; cases h
  have hok := pickTarget_rc_ok pf bm.strategy bm.numPages md hens hwr htn
  rcases pinPage_cases pf bm md (some h) p hmd with ⟨hc, _⟩ | ⟨_, h', hh', hc⟩
  · rcases hc with hc | hc
    · exact absurd hc (not_lt.mpr hp)
    · cases hc
  · rcases hc with ⟨f, hf2, _⟩ | ⟨_, hrc, _⟩ | ⟨_, _, t, ht, hl⟩
    · rw [hf] at hf2; cases hf2
    · exact absurd hok hrc
    · have hlo := pinLoad_rc_ok pf (pickTarget pf bm.strategy bm.numPages md).2.2 t p hens hrd
      rcases hl with ⟨hlf, _⟩ | ⟨_, e⟩
      · exact absurd hlo hlf
      · rw [e]
        refine ⟨rfl, ?_, t,
          pinnedFrame p (loadedBytes pf (pickTarget pf bm.strategy bm.numPages md).2.2 t p)
            (pickTarget pf bm.strategy bm.numPages md).2.2.tick, rfl, ?_, rfl, rfl⟩
        · intro hx; cases hx
        obtain ⟨frt, hft, _⟩ := pickTarget_target pf bm.strategy bm.numPages md hinv t ht
        simp only [framesOf]
        rw [pinLoad_ok pf _ bm.numPages t p hinv1 hlo]
        exact getElem?_set_self_of _ hft

theorem pinPage_succeeds_unless_all_pinned_witness :
    (pinPage (idealFile 4)
        (run (idealFile 4) (freshPool 2 .RS_CLOCK)
          [Op.pin (some { pageNum := 0, data := 0 }) 0,
            Op.pin (some { pageNum := 0, data := 0 }) 1,
            Op.unpin (some { pageNum := 1, data := 0 })])
        (some { pageNum := 7, data := 9 }) 2).1 = RC.RC_OK ∧
      (pinPage (idealFile 4)
        (run (idealFile 4) (freshPool 2 .RS_CLOCK)
          [Op.pin (some { pageNum := 0, data := 0 }) 0,
            Op.pin (some { pageNum := 0, data := 0 }) 1,
            Op.unpin (some { pageNum := 1, data := 0 })])
        (some { pageNum := 7, data := 9 }) 2).1 ≠ RC.RC_WRITE_FAILED ∧
      ∃ t fr,
        (pinPage (idealFile 4)
          (run (idealFile 4) (freshPool 2 .RS_CLOCK)
            [Op.pin (some { pageNum := 0, data := 0 }) 0,
              Op.pin (some { pageNum := 0, data := 0 }) 1,
              Op.unpin (some { pageNum := 1, data := 0 })])
          (some { pageNum := 7, data := 9 }) 2).2.2 = some { pageNum := 2, data := t } ∧
        (framesOf (pinPage (idealFile 4)
          (run (idealFile 4) (freshPool 2 .RS_CLOCK)
            [Op.pin (some { pageNum := 0, data := 0 }) 0,
              Op.pin (some { pageNum := 0, data := 0 }) 1,
              Op.unpin (some { pageNum := 1, data := 0 })])
          (some { pageNum := 7, data := 9 }) 2).2.1)[t]? = some fr ∧
        fr.pageNum = 2 ∧ fr.fixCount = 1 :=
  pinPage_succeeds_unless_all_pinned (idealFile 4) _ { pageNum := 7, data := 9 } 2
    (freshPool_reachable 2 .RS_CLOCK _) (by decide) (by decide) (by decide)
    (by decide) (fun _ _ => rfl) (fun _ _ _ => rfl) (fun _ _ _ => rfl)

/-- C4. All-pinned refusal is atomic: under every strategy, when `pinPage` is called (with
a handle) on a reachable pool for a page `pageNum >= 0` that is not resident while every
frame is resident with `fixCount > 0`, it returns `RC_WRITE_FAILED` and the pool is
exactly as before: frames, stat mirrors, `tick`, both I/O counters, the CLOCK hand (back
at its start after the `2N`-step sweep) and the page file, on which no operation was
performed; the caller's handle is not written. -/
theorem all_pinned_refusal {σ : Type} (pf : StorageMgr σ) (bm : BM_BufferPool σ)
    (h : BM_PageHandle) (p : PageNumber) (hr : Reachable pf bm) (hp : 0 ≤ p)
    (hnr : ∀ fr ∈ framesOf bm, fr.pageNum ≠ p)
    (hall : ∀ fr ∈ framesOf bm, fr.pageNum ≠ NO_PAGE ∧ 0 < fr.fixCount) :
    pinPage pf bm (some h) p = (RC.RC_WRITE_FAILED, bm, some h) := by
  obtain ⟨md, hmd, hinv⟩ := hr.poolInv
  simp only [framesOf, hmd] at hnr hall
  have hf : findFrameByPageNP md bm.numPages p = none :=
    (findFrameByPageNP_none md _ p hinv.len).2 (fun j fj hj => hnr fj (List.getElem?_mem hj))
  have he : findEmptyFrame md bm.numPages = none :=
    (findEmptyFrame_none md _ hinv.len).2 (fun j fj hj => (hall fj (List.getElem?_mem hj)).1)
  have hs : selectVictim bm.strategy bm.numPages md = (none, md) :=
    selectVictim_none_of_pinned _ _ md hinv (fun fr hfr hev => by
      have := (hall fr hfr).2
      have := hev.2
      omega)
  have hpt : pickTarget pf bm.strategy bm.numPages md = (RC.RC_WRITE_FAILED, none, md) := by
    simp only [pickTarget, he, hs]
  have hp2 : ¬ p < 0 := not_lt.mpr hp
  simp only [pinPage, hmd, hp2, if_false, hf, hpt]
  rw [pool_eta bm md hmd]

theorem all_pinned_refusal_witness :
    pinPage (idealFile 4)
        (run (idealFile 4) (freshPool 2 .RS_CLOCK)
          [Op.pin (some { pageNum := 0, data := 0 }) 0,
            Op.pin (some { pageNum := 0, data := 0 }) 1])
        (some { pageNum := 7, data := 9 }) 2 =
      (RC.RC_WRITE_FAILED,
        run (idealFile 4) (freshPool 2 .RS_CLOCK)
          [Op.pin (some { pageNum := 0, data := 0 }) 0,
            Op.pin (some { pageNum := 0, data := 0 }) 1],
        some { pageNum := 7, data := 9 }) :=
  all_pinned_refusal (idealFile 4) _ { pageNum := 7, data := 9 } 2
    (freshPool_reachable 2 .RS_CLOCK _) (by decide) (by decide) (by decide)

/-- C6. I/O counter accounting, on every reachable pool: `numReadIO` and `numWriteIO` are
0 after a successful `initBufferPool`; no call decreases them; a `pinPage` that hits
changes neither; a successful `pinPage` miss adds exactly 1 to `numReadIO`, and to
`numWriteIO` exactly 1 when it evicts a dirty victim and 0 otherwise; a successful
`forceFlushPool` adds to `numWriteIO` exactly the number of frames that were resident,
dirty and unpinned (and nothing to `numReadIO`); a successful `forcePage` adds 1 to
`numWriteIO` when the frame located for the handle was dirty and 0 when it was clean;
`markDirty` and `unpinPage` change neither counter. -/
theorem io_counter_accounting {σ : Type} (pf : StorageMgr σ) (bm : BM_BufferPool σ)
    (md : BM_MgmtData σ) (hr : Reachable pf bm) (hmd : bm.mgmtData = some md) :
    (∀ (bm0 : BM_BufferPool σ) (name : String) (n : Nat) (s : ReplacementStrategy) (a : Bool)
        (mem : Nat → PageData), (initBufferPool pf bm0 name n s a mem).1 = RC.RC_OK →
        getNumReadIO (initBufferPool pf bm0 name n s a mem).2 = 0 ∧
          getNumWriteIO (initBufferPool pf bm0 name n s a mem).2 = 0) ∧
      (∀ op : Op, getNumReadIO bm ≤ getNumReadIO (step pf bm op).2 ∧
        getNumWriteIO bm ≤ getNumWriteIO (step pf bm op).2) ∧
      (∀ (page : Option BM_PageHandle) (p : PageNumber) (f : Nat),
        findFrameByPageNP md bm.numPages p = some f →
        getNumReadIO (pinPage pf bm page p).2.1 = getNumReadIO bm ∧
          getNumWriteIO (pinPage pf bm page p).2.1 = getNumWriteIO bm) ∧
      (∀ (page : Option BM_PageHandle) (p : PageNumber),
        findFrameByPageNP md bm.numPages p = none → (pinPage pf bm page p).1 = RC.RC_OK →
        getNumReadIO (pinPage pf bm page p).2.1 = getNumReadIO bm + 1 ∧
          getNumWriteIO (pinPage pf bm page p).2.1 =
            getNumWriteIO bm + (if evictsDirty bm.strategy bm.numPages md then 1 else 0)) ∧
      ((forceFlushPool pf bm).1 = RC.RC_OK →
        getNumWriteIO (forceFlushPool pf bm).2 =
            getNumWriteIO bm + (md.frames.countP (fun fr => decide fr.flushable)) ∧
          getNumReadIO (forceFlushPool pf bm).2 = getNumReadIO bm) ∧
      (∀ (h : BM_PageHandle) (f : Nat) (fr : Frame),
        findFrameByPageNP md bm.numPages h.pageNum = some f → md.frames[f]? = some fr →
        (forcePage pf bm (some h)).1 = RC.RC_OK →
        getNumWriteIO (forcePage pf bm (some h)).2 =
            getNumWriteIO bm + (if fr.dirty = true then 1 else 0) ∧
          getNumReadIO (forcePage pf bm (some h)).2 = getNumReadIO bm) ∧
      (∀ page : Option BM_PageHandle,
        ( getNumReadIO (markDirty bm page).2 = getNumReadIO bm ∧
            getNumWriteIO (markDirty bm page).2 = getNumWriteIO bm) ∧
          getNumReadIO (unpinPage bm page).2 = getNumReadIO bm ∧
            getNumWriteIO (unpinPage bm page).2 = getNumWriteIO bm) := by
  obtain ⟨md0, hmd0, hinv⟩ := hr.poolInv
  rw [hmd] at hmd0; cases hmd0
  have hR : getNumReadIO bm = md.numReadIO := by simp only [ getNumReadIO, hmd]
  have hW : getNumWriteIO bm = md.numWriteIO := by simp only [ getNumWriteIO, hmd]
  have hmark : ∀ page : Option BM_PageHandle,
      getNumReadIO (markDirty bm page).2 = getNumReadIO bm ∧
        getNumWriteIO (markDirty bm page).2 = getNumWriteIO bm := by
    intro page
    rcases markDirty_cases bm md page hmd hinv.len with ⟨e, _⟩ | ⟨_, _, _, _, _, _, _, e⟩
    · rw [e]; exact ⟨rfl, rfl⟩
    · rw [e, hR, hW]; exact ⟨rfl, rfl⟩
  have hunpin : ∀ page : Option BM_PageHandle,
      getNumReadIO (unpinPage bm page).2 = getNumReadIO bm ∧
        getNumWriteIO (unpinPage bm page).2 = getNumWriteIO bm := by
    intro page
    rcases unpinPage_cases bm md page hmd hinv.len with ⟨e, _⟩ | ⟨_, _, _, _, _, _, _, _, e⟩
    · rw [e]; exact ⟨rfl, rfl⟩
    · rw [e, hR, hW]; exact ⟨rfl, rfl⟩
  have hflush := flushLoop_spec pf bm.numPages 0 md
  have hfl : (forceFlushPool pf bm) =
      ((flushLoop pf bm.numPages 0 md).1,
        { bm with mgmtData := some (flushLoop pf bm.numPages 0 md).2 }) := by
    simp only [forceFlushPool, hmd]
  refine ⟨?_, ?_, ?_, ?_, ?_, ?_, fun page => ⟨hmark page, hunpin page⟩⟩
  · intro bm0 name n s a mem
    unfold initBufferPool
    dsimp only
    split
    · intro h; cases h
    · split
      · intro h; cases h
      · intro _; exact ⟨rfl, rfl⟩
  · intro op
    cases op with
    | pin page p =>
      have := (pinPage_counters pf bm md page p hmd hinv).1
      rw [hR, hW]
      exact this
    | unpin page =>
      have := hunpin page
      simp only [step]
      rw [this.1, this.2]
      exact ⟨le_refl _, le_refl _⟩
    | dirty page =>
      have := hmark page
      simp only [step]
      rw [this.1, this.2]
      exact ⟨le_refl _, le_refl _⟩
    | force page =>
      simp only [step]
      rcases forcePage_cases pf bm md page hmd hinv.len with
        ⟨e, _⟩ | ⟨_, _, _, _, _, _, _, ⟨_, _, _, e⟩ | ⟨_, e⟩ | ⟨_, e⟩⟩
      · rw [e]; exact ⟨le_refl _, le_refl _⟩
      · rw [e, hR, hW]; exact ⟨le_refl _, le_refl _⟩
      · rw [e, hR, hW]; exact ⟨le_refl _, le_refl _⟩
      · rw [e, hR, hW]
        refine ⟨le_refl _, ?_⟩
        show md.numWriteIO ≤ md.numWriteIO + 1
        omega
    | flush =>
      simp only [step]
      rw [hfl, hR, hW]
      refine ⟨?_, hflush.1.2.2.2⟩
      show md.numReadIO ≤ BM_MgmtData.numReadIO (flushLoop pf bm.numPages 0 md).2
      rw [hflush.1.2.1]
    | write f bytes =>
      simp only [step, writeData, hmd, getNumReadIO, getNumWriteIO]
      exact ⟨le_refl _, le_refl _⟩
  · intro page p f hf
    rw [hR, hW]
    exact (pinPage_counters pf bm md page p hmd hinv).2.1 (by rw [hf]; intro h; cases h)
  · intro page p hf hok
    rw [hR, hW]
    exact (pinPage_counters pf bm md page p hmd hinv).2.2 hf hok
  · intro hok
    rw [hfl] at hok ⊢
    rw [hR, hW]
    have h3 := hflush.2.2 hok
    rw [List.drop_zero, List.take_of_length_le (by rw [hinv.len])] at h3
    exact ⟨h3, hflush.1.2.1⟩
  · intro h f fr hf hfr hok
    rw [hR, hW]
    rcases forcePage_cases pf bm md (some h) hmd hinv.len with
      ⟨e, _⟩ | ⟨h', f', fr', hh', hf', hfr', _, ⟨rc, x, hrc, e⟩ | ⟨hd, e⟩ | ⟨hd, e⟩⟩
    · rw [e] at hok; cases hok
    · rw [e] at hok; exact absurd hok hrc
    · cases hh'
      rw [hf] at hf'; cases hf'
      rw [hfr] at hfr'; cases hfr'
      rw [e, hd]
      exact ⟨by simp [ getNumWriteIO], rfl⟩
    · cases hh'
      rw [hf] at hf'; cases hf'
      rw [hfr] at hfr'; cases hfr'
      rw [e, hd]
      exact ⟨by simp [ getNumWriteIO], rfl⟩

theorem io_counter_accounting_witness :
    getNumReadIO (pinPage (idealFile 4) dirtyExample (some { pageNum := 0, data := 0 }) 1).2.1
        = 2 ∧
      getNumWriteIO (pinPage (idealFile 4) dirtyExample (some { pageNum := 0, data := 0 }) 1).2.1
        = 1 :=
  (io_counter_accounting (idealFile 4) dirtyExample (mgmtOf dirtyExample { blocks := [] })
    (freshPool_reachable 1 .RS_LRU _) rfl).2.2.2.1 (some { pageNum := 0, data := 0 }) 1 rfl rfl

/-- C7. Stat mirrors are exact: after `initBufferPool` and after every return, successful
or not, of `pinPage`, `unpinPage`, `markDirty`, `forcePage` and `forceFlushPool` (that is,
in every reachable pool), the three arrays returned by the statistics getters have one
entry per frame and entry `i` is the `pageNum`, `dirty` and `fixCount` of frame `i`. -/
theorem stat_mirrors_exact {σ : Type} (pf : StorageMgr σ) (bm : BM_BufferPool σ)
    (hr : Reachable pf bm) :
    (framesOf bm).length = bm.numPages ∧
      getFrameContents bm = (framesOf bm).map (fun fr => fr.pageNum) ∧
      getDirtyFlags bm = (framesOf bm).map (fun fr => fr.dirty) ∧
      getFixCounts bm = (framesOf bm).map (fun fr => fr.fixCount) := by
  obtain ⟨md, hmd, hinv⟩ := hr.poolInv
  simp only [framesOf, getFrameContents, getDirtyFlags, getFixCounts, hmd]
  exact ⟨hinv.len, hinv.contents, hinv.dirtyF, hinv.fixC⟩

theorem stat_mirrors_exact_witness :
    (framesOf (run (idealFile 4) (freshPool 2 .RS_CLOCK)
        [.pin (some { pageNum := 0, data := 0 }) 5, .dirty (some { pageNum := 5, data := 0 }),
          .pin (some { pageNum := 0, data := 0 }) 7, .pin none 8,
          .pin (some { pageNum := 0, data := 0 }) 9])).length = 2 ∧
      getFrameContents (run (idealFile 4) (freshPool 2 .RS_CLOCK)
        [.pin (some { pageNum := 0, data := 0 }) 5, .dirty (some { pageNum := 5, data := 0 }),
          .pin (some { pageNum := 0, data := 0 }) 7, .pin none 8,
          .pin (some { pageNum := 0, data := 0 }) 9]) = [5, 7] ∧
      getDirtyFlags (run (idealFile 4) (freshPool 2 .RS_CLOCK)
        [.pin (some { pageNum := 0, data := 0 }) 5, .dirty (some { pageNum := 5, data := 0 }),
          .pin (some { pageNum := 0, data := 0 }) 7, .pin none 8,
          .pin (some { pageNum := 0, data := 0 }) 9]) = [true, false] ∧
      getFixCounts (run (idealFile 4) (freshPool 2 .RS_CLOCK)
        [.pin (some { pageNum := 0, data := 0 }) 5, .dirty (some { pageNum := 5, data := 0 }),
          .pin (some { pageNum := 0, data := 0 }) 7, .pin none 8,
          .pin (some { pageNum := 0, data := 0 }) 9]) = [1, 1] :=
  stat_mirrors_exact (idealFile 4) _ (freshPool_reachable 2 .RS_CLOCK _)

/-- C8. Round trip through eviction, over an ideal page file (`ensureCapacity` always
succeeds, `readBlock` returns the bytes stored last by `writeBlock`, zeros for a page
never written): on a reachable pool of any size `N >= 1` under any strategy, after a
successful `pinPage` of `p`, the store of `b` into the frame bytes through the handle,
`markDirty` and `unpinPage` (both of which succeed), and then any sequence of `pinPage` and
`unpinPage` calls on pages other than `p` (successful or not; they may evict `p`), a
successful `pinPage` of `p` returns a handle whose data are `b`. -/
theorem round_trip_through_eviction (k : Nat) (bm bm1 bm3 : BM_BufferPool IdealFile)
    (p : PageNumber) (b : PageData) (page0 page2 : Option BM_PageHandle)
    (h1 h3 : BM_PageHandle) (ops : List Op) (hr : Reachable (idealFile k) bm)
    (_hn : 1 ≤ bm.numPages)
    (hpin : pinPage (idealFile k) bm page0 p = (RC.RC_OK, bm1, some h1))
    (hops : ∀ op ∈ ops, op.avoids p)
    (hre : pinPage (idealFile k)
        (run (idealFile k)
          (unpinPage (markDirty (writeData bm1 h1.data b) (some h1)).2 (some h1)).2 ops)
        page2 p = (RC.RC_OK, bm3, some h3)) :
    (markDirty (writeData bm1 h1.data b) (some h1)).1 = RC.RC_OK ∧
      (unpinPage (markDirty (writeData bm1 h1.data b) (some h1)).2 (some h1)).1 = RC.RC_OK ∧
      ((framesOf bm3).getD h3.data default).data = b := by
  obtain ⟨hh, hp0, _, md1, fr, hmd1, hinv1, hfr, hfp, hfix⟩ :=
    pinPage_ok_handle (idealFile k) bm bm1 page0 h1 p hr.poolInv hpin
  have hp : p ≠ NO_PAGE := by
    intro hx; rw [hx] at hp0; exact absurd hp0 (by decide)
  obtain ⟨hm, hu, hk⟩ := store_keepsPool k bm1 h1 p b md1 fr hmd1 hinv1 hfr hfp hfix hh hp
  exact ⟨hm, hu, pinPage_keeps_data k _ bm3 page2 h3 p b
    (run_keepsPool k p b hp ops hops _ hk) hre⟩

theorem round_trip_through_eviction_witness :
    (markDirty (writeData
        (pinPage (idealFile 4) (freshPool 1 .RS_LRU) (some { pageNum := 0, data := 0 }) 0).2.1
        0 [65, 66, 67, 68]) (some { pageNum := 0, data := 0 })).1 = RC.RC_OK ∧
      (unpinPage (markDirty (writeData
        (pinPage (idealFile 4) (freshPool 1 .RS_LRU) (some { pageNum := 0, data := 0 }) 0).2.1
        0 [65, 66, 67, 68]) (some { pageNum := 0, data := 0 })).2
        (some { pageNum := 0, data := 0 })).1 = RC.RC_OK ∧
      ((framesOf (pinPage (idealFile 4)
        (run (idealFile 4)
          (unpinPage (markDirty (writeData
            (pinPage (idealFile 4) (freshPool 1 .RS_LRU)
              (some { pageNum := 0, data := 0 }) 0).2.1
            0 [65, 66, 67, 68]) (some { pageNum := 0, data := 0 })).2
            (some { pageNum := 0, data := 0 })).2
          (pinUnpin 1 ++ pinUnpin 2))
        (some { pageNum := 0, data := 0 }) 0).2.1).getD 0 default).data = [65, 66, 67, 68] :=
  round_trip_through_eviction 4 (freshPool 1 .RS_LRU)
    (pinPage (idealFile 4) (freshPool 1 .RS_LRU) (some { pageNum := 0, data := 0 }) 0).2.1
    (pinPage (idealFile 4)
        (run (idealFile 4)
          (unpinPage (markDirty (writeData
            (pinPage (idealFile 4) (freshPool 1 .RS_LRU)
              (some { pageNum := 0, data := 0 }) 0).2.1
            0 [65, 66, 67, 68]) (some { pageNum := 0, data := 0 })).2
            (some { pageNum := 0, data := 0 })).2
          (pinUnpin 1 ++ pinUnpin 2))
        (some { pageNum := 0, data := 0 }) 0).2.1
    0 [65, 66, 67, 68] (some { pageNum := 0, data := 0 }) (some { pageNum := 0, data := 0 })
    { pageNum := 0, data := 0 } { pageNum := 0, data := 0 } (pinUnpin 1 ++ pinUnpin 2)
    (freshPool_reachable 1 .RS_LRU []) (by decide) rfl (by decide) rfl

/-- C9. Victim selection of the tick-based policies equals its reference definition: in
every pool state `selectVictim` leaves the state as it is; under FIFO it returns the
lowest-index frame of minimal `loadTick` among the frames with `fixCount == 0` and
`pageNum != NO_PAGE`, under LRU and under LRU_K the lowest-index such frame of minimal
`accessTick` (so LRU_K selects as LRU does); it returns none exactly when no frame is
unpinned and resident.  In a pool of 3 under FIFO, pin+unpin of 0, 1, 2 and then pin 3
give `frameContents = [3, 1, 2]`. -/
theorem selectVictim_tick_policies {σ : Type} (n : Nat) (md : BM_MgmtData σ) :
    ((selectVictim .RS_FIFO n md).2 = md ∧ (selectVictim .RS_LRU n md).2 = md ∧
        (selectVictim .RS_LRU_K n md).2 = md) ∧
      (∀ v, (selectVictim .RS_FIFO n md).1 = some v ↔
        IsFirstMin (fun fr => fr.loadTick) (md.frames.take n) v) ∧
      (∀ v, (selectVictim .RS_LRU n md).1 = some v ↔
        IsFirstMin (fun fr => fr.accessTick) (md.frames.take n) v) ∧
      (∀ v, (selectVictim .RS_LRU_K n md).1 = some v ↔
        IsFirstMin (fun fr => fr.accessTick) (md.frames.take n) v) ∧
      selectVictim .RS_LRU_K n md = selectVictim .RS_LRU n md ∧
      (((selectVictim .RS_FIFO n md).1 = none ↔
          ∀ fr ∈ md.frames.take n, ¬ (fr.fixCount = 0 ∧ fr.pageNum ≠ NO_PAGE)) ∧
        ((selectVictim .RS_LRU n md).1 = none ↔
          ∀ fr ∈ md.frames.take n, ¬ (fr.fixCount = 0 ∧ fr.pageNum ≠ NO_PAGE)) ∧
        ((selectVictim .RS_LRU_K n md).1 = none ↔
          ∀ fr ∈ md.frames.take n, ¬ (fr.fixCount = 0 ∧ fr.pageNum ≠ NO_PAGE))) ∧
      getFrameContents
          (run (idealFile 4) (freshPool 3 .RS_FIFO)
            (pinUnpin 0 ++ pinUnpin 1 ++ pinUnpin 2 ++
              [Op.pin (some { pageNum := 0, data := 0 }) 3])) = [3, 1, 2] := by
  have e1 := selectVictim_key .RS_FIFO n md (by decide)
  have e2 := selectVictim_key .RS_LRU n md (by decide)
  have e3 := selectVictim_key .RS_LRU_K n md (by decide)
  have hnone : ∀ s : ReplacementStrategy, keyScan s (md.frames.take n) 0 none 0 = none ↔
      ∀ fr ∈ md.frames.take n, ¬ (fr.fixCount = 0 ∧ fr.pageNum ≠ NO_PAGE) := by
    intro s
    rw [keyScan_none]
    constructor
    · rintro ⟨_, h⟩ fr hfr hc
      exact h fr hfr ⟨hc.2, hc.1⟩
    · intro h
      exact ⟨rfl, fun fr hfr hc => h fr hfr ⟨hc.2, hc.1⟩⟩
  refine ⟨⟨by rw [e1], by rw [e2], by rw [e3]⟩, ?_, ?_, ?_, ?_, ⟨?_, ?_, ?_⟩, rfl⟩
  · intro v; rw [e1]; exact keyScan_isFirstMin .RS_FIFO _ v
  · intro v; rw [e2]; exact keyScan_isFirstMin .RS_LRU _ v
  · intro v; rw [e3]; exact keyScan_isFirstMin .RS_LRU_K _ v
  · rw [e2, e3]
    congr 1
    have : ∀ (l : List Frame) (i : Nat) (b : Option Nat) (k : Int),
        keyScan .RS_LRU_K l i b k = keyScan .RS_LRU l i b k := by
      intro l
      induction l with
      | nil => intro i b k; rfl
      | cons a l ih =>
        intro i b k
        simp only [keyScan, victim_key, ih]
    exact this _ _ _ _
  · rw [e1]; exact hnone _
  · rw [e2]; exact hnone _
  · rw [e3]; exact hnone _

/-- C10. CLOCK second-chance selection: in a pool of `n >= 1` frames under CLOCK with
`clockHand` in `[0, n)` and at least one unpinned resident frame, `selectVictim` returns
the frame at some offset `d < n` from the hand, which is unpinned and resident, and
either its reference bit is 0 and it is the first such frame in cyclic order from the
hand, or no unpinned resident frame has bit 0 and it is the first unpinned resident frame
in cyclic order.  The hand ends at `(victim + 1) mod n`; in the first case the unpinned
resident frames passed before the victim lose their bit, in the second all unpinned
resident frames do; pinned and empty frames and all other fields stay as they were.  In a
pool of 2: pin+unpin 0, pin+unpin 1, re-pin+unpin 0, pin 2 leave the pages `[2, 1]`. -/
theorem clock_second_chance {σ : Type} (n : Nat) (md : BM_MgmtData σ) (hn : 1 ≤ n)
    (hlen : md.frames.length = n) (hh : md.clockHand < n)
    (hex : ∃ fr ∈ md.frames, fr.fixCount = 0 ∧ fr.pageNum ≠ NO_PAGE) :
    (∃ d fr, d < n ∧ md.frames[(md.clockHand + d) % n]? = some fr ∧
        (fr.fixCount = 0 ∧ fr.pageNum ≠ NO_PAGE) ∧
        (selectVictim .RS_CLOCK n md).1 = some ((md.clockHand + d) % n) ∧
        (selectVictim .RS_CLOCK n md).2 =
          { md with
            clockHand := ((md.clockHand + d) % n + 1) % n
            frames := (selectVictim .RS_CLOCK n md).2.frames } ∧
        ((fr.ref = 0 ∧
            (∀ (e : Nat) (f : Frame), e < d → md.frames[(md.clockHand + e) % n]? = some f →
              f.evictable → f.ref ≠ 0) ∧
            ∀ (j : Nat) (fj : Frame), md.frames[j]? = some fj →
              (selectVictim .RS_CLOCK n md).2.frames[j]? =
                some (if (∃ e, e < d ∧ (md.clockHand + e) % n = j) ∧ fj.evictable
                  then fj.clearRef else fj)) ∨
          ((∀ f ∈ md.frames, f.evictable → f.ref ≠ 0) ∧
            (∀ (e : Nat) (f : Frame), e < d → md.frames[(md.clockHand + e) % n]? = some f →
              ¬ f.evictable) ∧
            ∀ (j : Nat) (fj : Frame), md.frames[j]? = some fj →
              (selectVictim .RS_CLOCK n md).2.frames[j]? =
                some (if fj.evictable then fj.clearRef else fj)))) ∧
      getFrameContents
          (run (idealFile 4) (freshPool 2 .RS_CLOCK)
            (pinUnpin 0 ++ pinUnpin 1 ++ pinUnpin 0 ++
              [Op.pin (some { pageNum := 0, data := 0 }) 2])) = [2, 1] := by
  refine ⟨?_, rfl⟩
  have hex2 : ∃ fr ∈ md.frames, fr.evictable := by
    obtain ⟨fr, hfr, h1, h2⟩ := hex
    exact ⟨fr, hfr, h2, h1⟩
  obtain ⟨d, fr, l, hd, hfr, hev, hsw, hcase⟩ := clockSweep_victim n md hh hlen hex2
  have e : selectVictim .RS_CLOCK n md = clockSweep n (2 * n) md := by
    have hn0 : n ≠ 0 := by omega
    simp only [selectVictim, hn0, if_true, if_false]
  rw [e, hsw]
  exact ⟨d, fr, hd, hfr, ⟨hev.2, hev.1⟩, rfl, rfl, hcase⟩

theorem clock_second_chance_witness :
    (∃ d fr, d < 2 ∧ clockExample.frames[(clockExample.clockHand + d) % 2]? = some fr ∧
        (fr.fixCount = 0 ∧ fr.pageNum ≠ NO_PAGE) ∧
        (selectVictim .RS_CLOCK 2 clockExample).1 = some ((clockExample.clockHand + d) % 2) ∧
        (selectVictim .RS_CLOCK 2 clockExample).2 =
          { clockExample with
            clockHand := ((clockExample.clockHand + d) % 2 + 1) % 2
            frames := (selectVictim .RS_CLOCK 2 clockExample).2.frames } ∧
        ((fr.ref = 0 ∧
            (∀ (e : Nat) (f : Frame), e < d →
              clockExample.frames[(clockExample.clockHand + e) % 2]? = some f →
              f.evictable → f.ref ≠ 0) ∧
            ∀ (j : Nat) (fj : Frame), clockExample.frames[j]? = some fj →
              (selectVictim .RS_CLOCK 2 clockExample).2.frames[j]? =
                some (if (∃ e, e < d ∧ (clockExample.clockHand + e) % 2 = j) ∧ fj.evictable
                  then fj.clearRef else fj)) ∨
          ((∀ f ∈ clockExample.frames, f.evictable → f.ref ≠ 0) ∧
            (∀ (e : Nat) (f : Frame), e < d →
              clockExample.frames[(clockExample.clockHand + e) % 2]? = some f →
              ¬ f.evictable) ∧
            ∀ (j : Nat) (fj : Frame), clockExample.frames[j]? = some fj →
              (selectVictim .RS_CLOCK 2 clockExample).2.frames[j]? =
                some (if fj.evictable then fj.clearRef else fj)))) ∧
      getFrameContents
          (run (idealFile 4) (freshPool 2 .RS_CLOCK)
            (pinUnpin 0 ++ pinUnpin 1 ++ pinUnpin 0 ++
              [Op.pin (some { pageNum := 0, data := 0 }) 2])) = [2, 1] :=
  clock_second_chance 2 clockExample (by decide) rfl (by decide)
    ⟨{ pageNum := 1, fixCount := 0, dirty := false, data := [0, 0, 0, 0], loadTick := 3,
        accessTick := 4, ref := 1, hist0 := 4, hist1 := 0, kCount := 1, kPos := 1 },
      by decide, by decide⟩

/-- C11 (as stated, refuted).  In the pool of 1 frame, after pin 0, store 'A', markDirty,
unpin and pin 1, page 1 is still pinned in the only frame: the re-pin of page 0 returns
`RC_WRITE_FAILED`, the pool and the caller's handle stay as they were, and the bytes under
the handle are those of page 1, whose first byte is 0 and not 'A' (65). -/
theorem dirty_write_back_repin_refused :
    pinPage (idealFile 4) (dirtyWriteBack .RS_FIFO) (some { pageNum := 1, data := 0 }) 0 =
        (RC.RC_WRITE_FAILED, dirtyWriteBack .RS_FIFO, some { pageNum := 1, data := 0 }) ∧
      ((framesOf (dirtyWriteBack .RS_FIFO)).getD 0 default).data = [0, 0, 0, 0] ∧
      ((framesOf (dirtyWriteBack .RS_FIFO)).getD 0 default).data.head? ≠ some 65 :=
  ⟨rfl, rfl, by decide⟩

/-- C11 (amended).  In the pool of 1 frame over an empty page file, under every
strategy, after pin 0, store 'A' in `data[0]`, markDirty, unpin and pin 1: `numWriteIO`
is 1, `numReadIO` is 2 and page 1 is pinned in the only frame.  The re-pin of page 0
with no call in between returns `RC_WRITE_FAILED` and leaves the pool and the handle as
they were.  Once page 1 is unpinned the re-pin of page 0 returns `RC_OK`, the handle
points at frame 0 whose bytes start with 'A', `numReadIO` is 3 and `numWriteIO` is 1. -/
theorem dirty_write_back_scenario (s : ReplacementStrategy) (h : BM_PageHandle) :
    getNumWriteIO (dirtyWriteBack s) = 1 ∧ getNumReadIO (dirtyWriteBack s) = 2 ∧
      getFrameContents (dirtyWriteBack s) = [1] ∧ getFixCounts (dirtyWriteBack s) = [1] ∧
      pinPage (idealFile 4) (dirtyWriteBack s) (some h) 0 =
        (RC.RC_WRITE_FAILED, dirtyWriteBack s, some h) ∧
      (pinPage (idealFile 4) (unpinPage (dirtyWriteBack s) (some { pageNum := 1, data := 0 })).2
          (some h) 0).1 = RC.RC_OK ∧
      (pinPage (idealFile 4) (unpinPage (dirtyWriteBack s) (some { pageNum := 1, data := 0 })).2
          (some h) 0).2.2 = some { pageNum := 0, data := 0 } ∧
      ((framesOf (pinPage (idealFile 4)
          (unpinPage (dirtyWriteBack s) (some { pageNum := 1, data := 0 })).2
          (some h) 0).2.1).getD 0 default).data = [65, 0, 0, 0] ∧
      getNumReadIO (pinPage (idealFile 4)
          (unpinPage (dirtyWriteBack s) (some { pageNum := 1, data := 0 })).2
          (some h) 0).2.1 = 3 ∧
      getNumWriteIO (pinPage (idealFile 4)
          (unpinPage (dirtyWriteBack s) (some { pageNum := 1, data := 0 })).2
          (some h) 0).2.1 = 1 := by
  cases s <;> exact ⟨rfl, rfl, rfl, rfl, rfl, rfl, rfl, rfl, rfl, rfl⟩

/-- C12 (the code at the failing input).  On a fresh pool of one frame, `markDirty`
with a handle whose `pageNum` is `NO_PAGE` returns `RC_OK`; `forceFlushPool` then returns
`RC_OK` and the only frame, still empty, is dirty with `fixCount` 0. -/
theorem flush_leaves_dirty_empty_frame :
    (markDirty (freshPool 1 .RS_FIFO) (some { pageNum := NO_PAGE, data := 0 })).1 = RC.RC_OK ∧
      (forceFlushPool (idealFile 4)
        (markDirty (freshPool 1 .RS_FIFO) (some { pageNum := NO_PAGE, data := 0 })).2).1 =
          RC.RC_OK ∧
      (framesOf (forceFlushPool (idealFile 4)
        (markDirty (freshPool 1 .RS_FIFO) (some { pageNum := NO_PAGE, data := 0 })).2).2).map
          (fun fr => (fr.pageNum, fr.dirty, fr.fixCount)) = [(NO_PAGE, true, 0)] :=
  ⟨rfl, rfl, rfl⟩

/-- C13 (the code at the failing input).  On a fresh pool of one frame no frame is
resident (the only frame holds `NO_PAGE`, clean), yet `markDirty` with a handle whose
`pageNum` is `NO_PAGE` returns `RC_OK` and sets `dirty` on frame 0 and on its mirror
entry. -/
theorem markDirty_accepts_sentinel :
    getFrameContents (freshPool 1 .RS_FIFO) = [NO_PAGE] ∧
      getDirtyFlags (freshPool 1 .RS_FIFO) = [false] ∧
      (markDirty (freshPool 1 .RS_FIFO) (some { pageNum := NO_PAGE, data := 0 })).1 =
        RC.RC_OK ∧
      getDirtyFlags
        (markDirty (freshPool 1 .RS_FIFO) (some { pageNum := NO_PAGE, data := 0 })).2 =
          [true] ∧
      (framesOf
        (markDirty (freshPool 1 .RS_FIFO) (some { pageNum := NO_PAGE, data := 0 })).2).map
          (fun fr => (fr.pageNum, fr.dirty)) = [(NO_PAGE, true)] :=
  ⟨rfl, rfl, rfl, rfl, rfl⟩
/-- C15. `forcePage` writes unconditionally and counts conditionally.  On a reachable
pool over the ideal page file (all of whose operations succeed), for a handle whose page
is resident in frame `f`, pinned or not, `forcePage` returns `RC_OK` and afterwards the
page on disk equals the frame's bytes, the other pages on disk being as before.  When
the frame was dirty the pool changes only in that `dirty` and its mirror entry are
cleared and `numWriteIO` is one more; when it was clean nothing but the page file
changes.  In both cases every `pageNum`, `fixCount`, tick, reference bit and byte of
every frame, `tick`, the CLOCK hand and `numReadIO` are as before. -/
theorem forcePage_writes_always (k : Nat) (bm : BM_BufferPool IdealFile)
    (md : BM_MgmtData IdealFile) (h : BM_PageHandle) (f : Nat) (fr : Frame)
    (hr : Reachable (idealFile k) bm) (hmd : bm.mgmtData = some md)
    (hfr : md.frames[f]? = some fr) (hfp : fr.pageNum = h.pageNum)
    (hres : fr.pageNum ≠ NO_PAGE) :
    ∃ md1 : BM_MgmtData IdealFile,
      forcePage (idealFile k) bm (some h) = (RC.RC_OK, { bm with mgmtData := some md1 }) ∧
        md1.fhandle.page k fr.pageNum = fr.data ∧
        (∀ q : PageNumber, q ≠ fr.pageNum → md1.fhandle.page k q = md.fhandle.page k q) ∧
        (fr.dirty = true →
          md1 =
            { md with
              fhandle := md1.fhandle
              numWriteIO := md.numWriteIO + 1
              frames := md.frames.set f { fr with dirty := false }
              dirtyFlags := md.dirtyFlags.set f false }) ∧
        (fr.dirty = false → md1 = { md with fhandle := md1.fhandle }) ∧
        md1.frames.map (fun x => (x.pageNum, x.fixCount, x.loadTick, x.accessTick, x.ref, x.data)) =
          md.frames.map (fun x => (x.pageNum, x.fixCount, x.loadTick, x.accessTick, x.ref, x.data)) ∧
        md1.tick = md.tick ∧ md1.clockHand = md.clockHand ∧ md1.numReadIO = md.numReadIO := by
  obtain ⟨md', hmd', hinv⟩ := hr.poolInv
  rw [hmd] at hmd'
  cases hmd'
  have e := forcePage_ideal k bm md h f fr hmd hinv hfr hfp hres
  have hpage : ∀ q : PageNumber,
      ({ blocks := (fr.pageNum, fr.data) :: md.fhandle.blocks } : IdealFile).page k q =
        if fr.pageNum = q then fr.data else md.fhandle.page k q :=
    fun q => IdealFile.page_cons k md.fhandle fr.pageNum q fr.data
  cases hd : fr.dirty with
  | false =>
    rw [hd] at e
    refine ⟨_, e, ?_, ?_, ?_, ?_, rfl, rfl, rfl, rfl⟩
    · simp only [Bool.false_eq_true, if_false]
      rw [hpage, if_pos rfl]
    · intro q hq
      simp only [Bool.false_eq_true, if_false]
      rw [hpage, if_neg (fun hx => hq hx.symm)]
    · intro hx; cases hx
    · intro _; rfl
  | true =>
    rw [hd] at e
    refine ⟨_, e, ?_, ?_, ?_, ?_, ?_, rfl, rfl, rfl⟩
    · simp only [if_true]
      rw [hpage, if_pos rfl]
    · intro q hq
      simp only [if_true]
      rw [hpage, if_neg (fun hx => hq hx.symm)]
    · intro _; rfl
    · intro hx; cases hx
    · simp only [if_true]
      rw [map_set_same]
      intro x hx
      rw [hfr] at hx
      cases hx
      rfl

theorem forcePage_writes_always_witness :
    ∃ md1 : BM_MgmtData IdealFile,
      forcePage (idealFile 4) pinnedDirtyExample (some { pageNum := 0, data := 0 }) =
          (RC.RC_OK, { pinnedDirtyExample with mgmtData := some md1 }) ∧
        md1.fhandle.page 4 0 = [65, 0, 0, 0] ∧ md1.numWriteIO = 1 ∧
        md1.dirtyFlags = [false, false] ∧ md1.fixCounts = [1, 1] :=
  (forcePage_writes_always 4 pinnedDirtyExample (mgmtOf pinnedDirtyExample { blocks := [] })
    { pageNum := 0, data := 0 } 0
    { pageNum := 0, fixCount := 1, dirty := true, data := [65, 0, 0, 0], loadTick := 1,
      accessTick := 2, ref := 1, hist0 := 2, hist1 := 0, kCount := 1, kPos := 1 }
    (freshPool_reachable 2 .RS_LRU _) rfl rfl rfl (by decide)).imp
    fun md1 h =>
      ⟨h.1, h.2.1, by rw [h.2.2.2.1 rfl]; rfl, by rw [h.2.2.2.1 rfl]; rfl,
        by rw [h.2.2.2.1 rfl]; rfl⟩

/-- C16. `shutdownBufferPool` flushes everything dirty.  On a reachable pool over the
ideal page file (all of whose operations succeed) it returns `RC_OK` and releases the
pool, and the page file it leaves is the file before with one block added per resident
dirty frame, pinned or not.  So the page on disk of every resident dirty frame equals
that frame's bytes at the time of the call, and no block is written for the page of a
resident clean frame, whose content on disk is as before. -/
theorem shutdown_flushes_all_dirty (k : Nat) (bm : BM_BufferPool IdealFile)
    (md : BM_MgmtData IdealFile) (hr : Reachable (idealFile k) bm)
    (hmd : bm.mgmtData = some md) :
    shutdownBufferPool (idealFile k) bm =
        (RC.RC_OK, { bm with mgmtData := none },
          some { blocks := (dirtyBlocks md.frames).reverse ++ md.fhandle.blocks }) ∧
      (∀ fr ∈ md.frames, fr.pageNum ≠ NO_PAGE → fr.dirty = true →
        ({ blocks := (dirtyBlocks md.frames).reverse ++ md.fhandle.blocks } : IdealFile).page k
          fr.pageNum = fr.data) ∧
      (∀ fr ∈ md.frames, fr.pageNum ≠ NO_PAGE → fr.dirty = false →
        (∀ b ∈ dirtyBlocks md.frames, b.1 ≠ fr.pageNum) ∧
        ({ blocks := (dirtyBlocks md.frames).reverse ++ md.fhandle.blocks } : IdealFile).page k
          fr.pageNum = md.fhandle.page k fr.pageNum) := by
  obtain ⟨md', hmd', hinv⟩ := hr.poolInv
  rw [hmd] at hmd'
  cases hmd'
  have huniq : ∀ fr ∈ md.frames, ∀ fr2 ∈ md.frames, fr.pageNum ≠ NO_PAGE →
      fr2.pageNum = fr.pageNum → fr2 = fr := by
    intro fr hfr fr2 hfr2 hne hp
    obtain ⟨i, hi⟩ := List.getElem?_of_mem hfr
    obtain ⟨j, hj⟩ := List.getElem?_of_mem hfr2
    have := hinv.ok.uniq i j fr fr2 hi hj hp.symm hne
    subst this
    rw [hi] at hj
    cases hj
    rfl
  refine ⟨?_, ?_, ?_⟩
  · obtain ⟨h1, h2⟩ := shutdownLoop_ideal k bm.numPages 0 md
    have htake : (md.frames.drop 0).take bm.numPages = md.frames := by
      rw [List.drop_zero, List.take_of_length_le (by rw [hinv.len])]
    rw [htake] at h2
    simp only [shutdownBufferPool, hmd, h1, ne_eq, not_true_eq_false, if_false, h2]
    rfl
  · intro fr hfr hne hd
    apply IdealFile.page_append_hit
    · exact ⟨(fr.pageNum, fr.data), List.mem_reverse.2
        ((mem_dirtyBlocks _ _).2 ⟨fr, hfr, hne, hd, rfl⟩), rfl⟩
    · intro b hb hbp
      obtain ⟨fr2, hfr2, _, _, e⟩ := (mem_dirtyBlocks _ _).1 (List.mem_reverse.1 hb)
      rw [e] at hbp ⊢
      rw [huniq fr hfr fr2 hfr2 hne hbp]
  · intro fr hfr hne hd
    have hno : ∀ b ∈ dirtyBlocks md.frames, b.1 ≠ fr.pageNum := by
      intro b hb hbp
      obtain ⟨fr2, hfr2, _, hd2, e⟩ := (mem_dirtyBlocks _ _).1 hb
      rw [e] at hbp
      rw [huniq fr hfr fr2 hfr2 hne hbp, hd] at hd2
      cases hd2
    exact ⟨hno, IdealFile.page_append_miss k _ _ _
      (fun b hb => hno b (List.mem_reverse.1 hb))⟩

theorem shutdown_flushes_all_dirty_witness :
    shutdownBufferPool (idealFile 4) pinnedDirtyExample =
        (RC.RC_OK, { pinnedDirtyExample with mgmtData := none },
          some { blocks := [(0, [65, 0, 0, 0])] }) ∧
      getFixCounts pinnedDirtyExample = [1, 1] ∧
      getDirtyFlags pinnedDirtyExample = [true, false] ∧
      (forceFlushPool (idealFile 4) pinnedDirtyExample).2 = pinnedDirtyExample :=
  ⟨(shutdown_flushes_all_dirty 4 pinnedDirtyExample
      (mgmtOf pinnedDirtyExample { blocks := [] }) (freshPool_reachable 2 .RS_LRU _) rfl).1,
    rfl, rfl, rfl⟩

/-- C17. `forceFlushPool` leaves pinned frames alone.  In every state of an initialised
pool and over every page file, whatever the call returns, each frame keeps its `pageNum`,
`fixCount`, `loadTick`, `accessTick`, reference bit and bytes, a frame with
`fixCount > 0` is not changed at all (so a pinned dirty frame is still dirty), and
`tick`, the CLOCK hand and `numReadIO` are as before.  On a reachable pool over the ideal
page file the blocks written are those of the flushable (resident, dirty, unpinned)
frames only: none is a block of the page of a pinned frame, whose content on disk is as
before. -/
theorem flush_leaves_pinned_alone {σ : Type} (pf : StorageMgr σ) (bm : BM_BufferPool σ)
    (md : BM_MgmtData σ) (hmd : bm.mgmtData = some md) :
    (∃ md1 : BM_MgmtData σ,
        (forceFlushPool pf bm).2 = { bm with mgmtData := some md1 } ∧
        (∀ (j : Nat) (fr : Frame), md.frames[j]? = some fr →
          ∃ fr1, md1.frames[j]? = some fr1 ∧ fr1 = { fr with dirty := fr1.dirty } ∧
            (0 < fr.fixCount → fr1 = fr)) ∧
        md1.frames.length = md.frames.length ∧ md1.tick = md.tick ∧
        md1.clockHand = md.clockHand ∧ md1.numReadIO = md.numReadIO) ∧
      ∀ (k : Nat) (bmI : BM_BufferPool IdealFile) (mdI : BM_MgmtData IdealFile),
        Reachable (idealFile k) bmI → bmI.mgmtData = some mdI →
        ∃ mdJ : BM_MgmtData IdealFile,
          (forceFlushPool (idealFile k) bmI).2.mgmtData = some mdJ ∧
          mdJ.fhandle =
            { blocks := (flushBlocks mdI.frames).reverse ++ mdI.fhandle.blocks } ∧
          ∀ fr ∈ mdI.frames, 0 < fr.fixCount →
            (∀ b ∈ flushBlocks mdI.frames, b.1 ≠ fr.pageNum) ∧
            mdJ.fhandle.page k fr.pageNum = mdI.fhandle.page k fr.pageNum := by
  constructor
  · refine ⟨(flushLoop pf bm.numPages 0 md).2, by simp only [forceFlushPool, hmd], ?_,
      flushLoop_length pf _ _ md, ?_⟩
    · obtain ⟨_, hB, _⟩ := flushLoop_spec pf bm.numPages 0 md
      intro j fr hfr
      obtain ⟨fr1, hfr1, hshape, hd, _⟩ := hB j fr hfr
      refine ⟨fr1, hfr1, hshape, ?_⟩
      intro hfix
      rcases hd with hd | ⟨hfl, _⟩
      · rw [hshape, hd]
      · have := hfl.2.2
        omega
    · obtain ⟨⟨h1, h2, h3, _⟩, _, _⟩ := flushLoop_spec pf bm.numPages 0 md
      exact ⟨h1, h3, h2⟩
  · intro k bmI mdI hr hmdI
    obtain ⟨md', hmd', hinv⟩ := hr.poolInv
    rw [hmdI] at hmd'
    cases hmd'
    obtain ⟨_, h2⟩ := flushLoop_ideal k bmI.numPages 0 mdI
    have htake : (mdI.frames.drop 0).take bmI.numPages = mdI.frames := by
      rw [List.drop_zero, List.take_of_length_le (by rw [hinv.len])]
    rw [htake] at h2
    refine ⟨(flushLoop (idealFile k) bmI.numPages 0 mdI).2, by simp only [forceFlushPool, hmdI],
      h2, ?_⟩
    intro fr hfr hfix
    have hno : ∀ b ∈ flushBlocks mdI.frames, b.1 ≠ fr.pageNum := by
      intro b hb hbp
      obtain ⟨fr2, hfr2, hfl, e⟩ := (mem_flushBlocks _ _).1 hb
      rw [e] at hbp
      obtain ⟨i, hi⟩ := List.getElem?_of_mem hfr
      obtain ⟨j, hj⟩ := List.getElem?_of_mem hfr2
      have hij := hinv.ok.uniq j i fr2 fr hj hi hbp hfl.1
      subst hij
      rw [hi] at hj
      cases hj
      have := hfl.2.2
      omega
    refine ⟨hno, ?_⟩
    rw [h2]
    exact IdealFile.page_append_miss k _ _ _ (fun b hb => hno b (List.mem_reverse.1 hb))

theorem flush_leaves_pinned_alone_witness :
    (∃ md1 : BM_MgmtData IdealFile,
        (forceFlushPool (idealFile 4) pinnedDirtyExample).2 =
          { pinnedDirtyExample with mgmtData := some md1 } ∧
        md1.frames.length = 2 ∧ md1.tick = 4) ∧
      ∃ mdJ : BM_MgmtData IdealFile,
        (forceFlushPool (idealFile 4) pinnedDirtyExample).2.mgmtData = some mdJ ∧
        mdJ.fhandle = { blocks := [] } ∧ mdJ.dirtyFlags = [true, false] :=
  ⟨(flush_leaves_pinned_alone (idealFile 4) pinnedDirtyExample
      (mgmtOf pinnedDirtyExample { blocks := [] }) rfl).1.imp
      fun _ h => ⟨h.1, h.2.2.1, h.2.2.2.1⟩,
    ((flush_leaves_pinned_alone (idealFile 4) pinnedDirtyExample
      (mgmtOf pinnedDirtyExample { blocks := [] }) rfl).2 4 pinnedDirtyExample
      (mgmtOf pinnedDirtyExample { blocks := [] }) (freshPool_reachable 2 .RS_LRU _) rfl).imp
      fun mdJ h => ⟨h.1, h.2.1, by
        have e := h.1
        cases e
        rfl⟩⟩
/-- C18. Idempotence of flush and markDirty, in every pool state and over every page
file: a `forceFlushPool` right after a `forceFlushPool` that returned `RC_OK` returns
`RC_OK` and leaves the pool, its page file and `numWriteIO` included, exactly as it was
(so no `writeBlock` took place); a `markDirty` with the same handle right after a
`markDirty` that returned `RC_OK` returns `RC_OK` and leaves the pool, its page file and
both I/O counters included, exactly as it was. -/
theorem flush_and_markDirty_idempotent {σ : Type} (pf : StorageMgr σ) (bm : BM_BufferPool σ)
    (page : Option BM_PageHandle) :
    ((forceFlushPool pf bm).1 = RC.RC_OK →
        forceFlushPool pf (forceFlushPool pf bm).2 = (RC.RC_OK, (forceFlushPool pf bm).2)) ∧
      ((markDirty bm page).1 = RC.RC_OK →
        markDirty (markDirty bm page).2 page = (RC.RC_OK, (markDirty bm page).2)) := by
  constructor
  · intro hok
    cases hmd : bm.mgmtData with
    | none =>
      simp only [forceFlushPool, hmd] at hok
      cases hok
    | some md =>
      have e : forceFlushPool pf bm =
          ((flushLoop pf bm.numPages 0 md).1,
            { bm with mgmtData := some (flushLoop pf bm.numPages 0 md).2 }) := by
        simp only [forceFlushPool, hmd]
      rw [e] at hok ⊢
      have hno := flushLoop_noop pf bm.numPages 0 (flushLoop pf bm.numPages 0 md).2
        (fun j h1 h2 => flushLoop_clears pf bm.numPages 0 md hok j h1 h2)
      simp only [forceFlushPool, hno]
  · intro hok
    cases hmd : bm.mgmtData with
    | none =>
      simp only [markDirty, hmd] at hok
      cases hok
    | some md =>
      cases page with
      | none =>
        simp only [markDirty, hmd] at hok
        cases hok
      | some h =>
        cases hf : findFrameByPageNP md bm.numPages h.pageNum with
        | none =>
          simp only [markDirty, hmd, hf] at hok
          cases hok
        | some f =>
          have e : markDirty bm (some h) =
              (RC.RC_OK,
                { bm with
                  mgmtData := some
                    { md with
                      frames := md.frames.set f { md.frames.getD f default with dirty := true }
                      dirtyFlags := md.dirtyFlags.set f true } }) := by
            simp only [markDirty, hmd, hf]
          rw [e]
          have hf2 : findFrameByPageNP
              { md with
                frames := md.frames.set f { md.frames.getD f default with dirty := true }
                dirtyFlags := md.dirtyFlags.set f true } bm.numPages h.pageNum = some f := by
            rw [← hf]
            exact findFrameByPageNP_set { md with dirtyFlags := md.dirtyFlags.set f true }
              bm.numPages h.pageNum f _ _
              (fun x hx => by
                have hx2 : md.frames[f]? = some x := hx
                rw [getD_of_getElem? _ _ _ _ hx2]) rfl
          have hfr : (md.frames.set f { md.frames.getD f default with dirty := true }).set f
              { (md.frames.set f { md.frames.getD f default with dirty := true }).getD f default
                with dirty := true } =
              md.frames.set f { md.frames.getD f default with dirty := true } := by
            by_cases hlt : f < md.frames.length
            · rw [getD_set_self _ _ _ _ hlt, List.set_set]
            · rw [List.set_set, List.set_eq_of_length_le (by omega),
                List.set_eq_of_length_le (by omega)]
          simp only [markDirty, hf2, hfr, List.set_set]

theorem flush_and_markDirty_idempotent_witness :
    forceFlushPool (idealFile 4) (forceFlushPool (idealFile 4) dirtyExample).2 =
        (RC.RC_OK, (forceFlushPool (idealFile 4) dirtyExample).2) ∧
      getNumWriteIO (forceFlushPool (idealFile 4) dirtyExample).2 = 1 ∧
      markDirty (markDirty pinnedDirtyExample (some { pageNum := 1, data := 1 })).2
          (some { pageNum := 1, data := 1 }) =
        (RC.RC_OK, (markDirty pinnedDirtyExample (some { pageNum := 1, data := 1 })).2) :=
  ⟨(flush_and_markDirty_idempotent (idealFile 4) dirtyExample none).1 rfl, rfl,
    (flush_and_markDirty_idempotent (idealFile 4) pinnedDirtyExample
      (some { pageNum := 1, data := 1 })).2 rfl⟩

/-- C19. Miss-path error atomicity, on a pool reachable from `initBufferPool`, for a
`pinPage` of a page `p >= 0` that no frame holds.  When no frame is empty, the victim is
dirty and its write-back fails, `pinPage` returns the code of the failing `ensureCapacity`
or `writeBlock`, the handle is not written, the victim keeps its `pageNum`, `dirty = true`,
`fixCount = 0`, bytes and ticks (only its CLOCK reference bit may have been cleared by the
sweep), and `numReadIO`, `numWriteIO`, `tick` and the stat mirrors are as before.  When a
target was chosen and loading the page fails, `pinPage` returns the code of the failing
`ensureCapacity` or `readBlock`, the handle is not written, the target keeps its
`pageNum`, `fixCount`, `loadTick` and `accessTick`, no frame holds `p`, and `numReadIO`
and `tick` are as before. -/
theorem miss_path_error_atomicity {σ : Type} (pf : StorageMgr σ) (bm : BM_BufferPool σ)
    (md : BM_MgmtData σ) (h : BM_PageHandle) (p : PageNumber) (hr : Reachable pf bm)
    (hmd : bm.mgmtData = some md) (hp : 0 ≤ p)
    (hmiss : findFrameByPageNP md bm.numPages p = none) :
    (∀ (v : Nat) (fr : Frame), findEmptyFrame md bm.numPages = none →
        (selectVictim bm.strategy bm.numPages md).1 = some v → md.frames[v]? = some fr →
        fr.dirty = true → writeBackCode pf md.fhandle fr ≠ RC.RC_OK →
        ∃ (md1 : BM_MgmtData σ) (fr1 : Frame),
          pinPage pf bm (some h) p =
            (writeBackCode pf md.fhandle fr, { bm with mgmtData := some md1 }, some h) ∧
          md1.frames[v]? = some fr1 ∧ fr1 = { fr with ref := fr1.ref } ∧
          fr.pageNum ≠ NO_PAGE ∧ fr.fixCount = 0 ∧
          md1.numReadIO = md.numReadIO ∧ md1.numWriteIO = md.numWriteIO ∧
          md1.tick = md.tick ∧ md1.frameContents = md.frameContents ∧
          md1.dirtyFlags = md.dirtyFlags ∧ md1.fixCounts = md.fixCounts) ∧
      ∀ (t : Nat) (fr : Frame),
        (pickTarget pf bm.strategy bm.numPages md).1 = RC.RC_OK →
        (pickTarget pf bm.strategy bm.numPages md).2.1 = some t → md.frames[t]? = some fr →
        loadCode pf (pickTarget pf bm.strategy bm.numPages md).2.2.fhandle p fr.data ≠
          RC.RC_OK →
        ∃ (md2 : BM_MgmtData σ) (fr2 : Frame),
          pinPage pf bm (some h) p =
            (loadCode pf (pickTarget pf bm.strategy bm.numPages md).2.2.fhandle p fr.data,
              { bm with mgmtData := some md2 }, some h) ∧
          md2.frames[t]? = some fr2 ∧ fr2.pageNum = fr.pageNum ∧
          fr2.fixCount = fr.fixCount ∧ fr2.loadTick = fr.loadTick ∧
          fr2.accessTick = fr.accessTick ∧ (∀ x ∈ md2.frames, x.pageNum ≠ p) ∧
          md2.numReadIO = md.numReadIO ∧ md2.tick = md.tick := by
  obtain ⟨md', hmd', hinv⟩ := hr.poolInv
  rw [hmd] at hmd'
  cases hmd'
  constructor
  · intro v fr he hv hfr hd hcode
    obtain ⟨hS, hRC, _, hvic⟩ := selectVictim_spec bm.strategy bm.numPages md
    obtain ⟨frS, hfrS, hev⟩ := hvic v hv
    obtain ⟨fr0, hfr0, hrel⟩ := hRC.get v frS hfrS
    rw [hfr] at hfr0
    cases hfr0
    have hsame : frS = { fr with ref := frS.ref } := by
      rcases hrel with e | ⟨_, e⟩
      · rw [e]
      · rw [e]; rfl
    have hgS : (selectVictim bm.strategy bm.numPages md).2.frames.getD v default = frS :=
      getD_of_getElem? _ _ _ _ hfrS
    have hfhS : (selectVictim bm.strategy bm.numPages md).2.fhandle = md.fhandle := by
      rw [hS]
    have hdS : ((selectVictim bm.strategy bm.numPages md).2.frames.getD v default).dirty = true := by
      rw [hgS, hsame]; exact hd
    have hcodeS : writeBackCode pf (selectVictim bm.strategy bm.numPages md).2.fhandle
        ((selectVictim bm.strategy bm.numPages md).2.frames.getD v default) =
        writeBackCode pf md.fhandle fr := by
      rw [hgS, hfhS, hsame]
      rfl
    have hwrc := writeBackIfDirty_rc pf (selectVictim bm.strategy bm.numPages md).2 v hdS
    rw [hcodeS] at hwrc
    have hpt := pickTarget_victim pf bm.strategy bm.numPages md v he hv
    have hfail : (writeBackIfDirty pf (selectVictim bm.strategy bm.numPages md).2 v).1 ≠
        RC.RC_OK := by rw [hwrc]; exact hcode
    obtain ⟨_, x, hx⟩ := writeBackIfDirty_fail pf _ v hfail
    have hpin := pinPage_miss_fail pf bm md h p hmd hp hmiss (by rw [hpt]; exact hfail)
    rw [hpt] at hpin
    simp only [hwrc, hx] at hpin
    refine ⟨_, frS, hpin, hfrS, hsame, ?_, ?_, ?_, ?_, ?_, ?_, ?_, ?_⟩
    · have := hev.1
      rw [hsame] at this
      exact this
    · have := hev.2
      rw [hsame] at this
      exact this
    · show BM_MgmtData.numReadIO (selectVictim bm.strategy bm.numPages md).2 = _
      rw [hS]
    · show BM_MgmtData.numWriteIO (selectVictim bm.strategy bm.numPages md).2 = _
      rw [hS]
    · show (selectVictim bm.strategy bm.numPages md).2.tick = _
      rw [hS]
    · show (selectVictim bm.strategy bm.numPages md).2.frameContents = _
      rw [hS]
    · show (selectVictim bm.strategy bm.numPages md).2.dirtyFlags = _
      rw [hS]
    · show (selectVictim bm.strategy bm.numPages md).2.fixCounts = _
      rw [hS]
  · intro t fr hok ht hfr hcode
    obtain ⟨fr1, hfr1, hshape, _, _⟩ := pickTarget_frame pf bm.strategy bm.numPages md hinv t fr hfr
    have hg1 : (pickTarget pf bm.strategy bm.numPages md).2.2.frames.getD t default = fr1 :=
      getD_of_getElem? _ _ _ _ hfr1
    have hdata : fr1.data = fr.data := by rw [hshape]
    have hrrc := readPageIntoFrame_rc pf (pickTarget pf bm.strategy bm.numPages md).2.2 t p
    rw [hg1, hdata] at hrrc
    have hrfail : (readPageIntoFrame pf (pickTarget pf bm.strategy bm.numPages md).2.2 t p).1 ≠
        RC.RC_OK := by rw [hrrc]; exact hcode
    have hpl := pinLoad_of_read_fail pf _ t p hrfail
    have hlfail : (pinLoad pf (pickTarget pf bm.strategy bm.numPages md).2.2 t p).1 ≠
        RC.RC_OK := by rw [hpl]; exact hrfail
    have hpin := pinPage_miss_load_fail pf bm md h p t hmd hp hmiss hok ht hlfail
    have hcodeL : (pinLoad pf (pickTarget pf bm.strategy bm.numPages md).2.2 t p).1 =
        loadCode pf (pickTarget pf bm.strategy bm.numPages md).2.2.fhandle p fr.data := by
      rw [hpl]; exact hrrc
    rw [hcodeL] at hpin
    obtain ⟨d, hd2, _⟩ := pinLoad_fail_frame pf _ t p hlfail t fr1 hfr1
    obtain ⟨_, x, d', hx⟩ := pinLoad_fail pf _ t p hlfail
    obtain ⟨htk, hrd, _, _⟩ := pickTarget_counters pf bm.strategy bm.numPages md hinv
    refine ⟨_, _, hpin, hd2, ?_, ?_, ?_, ?_, ?_, ?_, ?_⟩
    · show fr1.pageNum = _
      rw [hshape]
    · show fr1.fixCount = _
      rw [hshape]
    · show fr1.loadTick = _
      rw [hshape]
    · show fr1.accessTick = _
      rw [hshape]
    · intro y hy
      obtain ⟨j, hj⟩ := List.getElem?_of_mem hy
      have hjlt := getElem?_lt hj
      rw [hx] at hjlt
      have hlen1 := (pickTarget_inv pf bm.strategy bm.numPages md hinv).len
      have hjn : j < md.frames.length := by
        rw [hinv.len, ← hlen1]
        simpa using hjlt
      have hmj : md.frames[j]? = some md.frames[j] := List.getElem?_eq_getElem hjn
      obtain ⟨frj1, hfrj1, hsj, _, _⟩ :=
        pickTarget_frame pf bm.strategy bm.numPages md hinv j _ hmj
      obtain ⟨dj, hdj, _⟩ := pinLoad_fail_frame pf _ t p hlfail j frj1 hfrj1
      rw [hj] at hdj
      cases hdj
      have hpj : frj1.pageNum = md.frames[j].pageNum := by rw [hsj]
      show frj1.pageNum ≠ p
      rw [hpj]
      exact (findFrameByPageNP_none md _ p hinv.len).1 hmiss j md.frames[j] hmj
    · rw [hx]
      exact hrd
    · rw [hx]
      exact htk

theorem miss_path_error_atomicity_witness :
    (pinPage faultyFile
        (faultyPool 1 .RS_CLOCK
          [Op.pin (some { pageNum := 0, data := 0 }) 0,
            Op.dirty (some { pageNum := 0, data := 0 }),
            Op.unpin (some { pageNum := 0, data := 0 })])
        (some { pageNum := 0, data := 0 }) 1).1 = RC.other 3 ∧
      (pinPage faultyFile (faultyPool 1 .RS_LRU []) (some { pageNum := 0, data := 0 }) 9).1 =
        RC.other 4 := by
  constructor
  · obtain ⟨md1, fr1, hpin, _⟩ :=
      (miss_path_error_atomicity faultyFile
        (faultyPool 1 .RS_CLOCK
          [Op.pin (some { pageNum := 0, data := 0 }) 0,
            Op.dirty (some { pageNum := 0, data := 0 }),
            Op.unpin (some { pageNum := 0, data := 0 })])
        (mgmtOf (faultyPool 1 .RS_CLOCK
          [Op.pin (some { pageNum := 0, data := 0 }) 0,
            Op.dirty (some { pageNum := 0, data := 0 }),
            Op.unpin (some { pageNum := 0, data := 0 })]) { blocks := [] })
        { pageNum := 0, data := 0 } 1
        ⟨blankPool, "pages.bin", 1, .RS_CLOCK, fun _ => [], _, rfl, rfl⟩ rfl (by decide) rfl).1 0
        { pageNum := 0, fixCount := 0, dirty := true, data := [0, 0, 0, 0], loadTick := 1,
          accessTick := 2, ref := 1, hist0 := 2, hist1 := 0, kCount := 1, kPos := 1 }
        rfl rfl rfl rfl (by decide)
    exact congrArg Prod.fst hpin
  · obtain ⟨md2, fr2, hpin, _⟩ :=
      (miss_path_error_atomicity faultyFile (faultyPool 1 .RS_LRU [])
        (mgmtOf (faultyPool 1 .RS_LRU []) { blocks := [] })
        { pageNum := 0, data := 0 } 9
        ⟨blankPool, "pages.bin", 1, .RS_LRU, fun _ => [], [], rfl, rfl⟩ rfl (by decide) rfl).2 0
        (Frame.empty []) rfl rfl rfl (by decide)
    exact congrArg Prod.fst hpin

/-- C20. Frames fill in index order and never empty again.  In every pool reachable from
`initBufferPool` through `pinPage`, `unpinPage`, `markDirty`, `forcePage` and
`forceFlushPool` (and stores of the client through a handle): no call, whatever it
returns, resets the `pageNum` of a resident frame to `NO_PAGE`; the empty frames form a
suffix of the frame array; and every empty frame has `fixCount = 0`. -/
theorem frames_fill_in_order {σ : Type} (pf : StorageMgr σ) (bm : BM_BufferPool σ)
    (hr : Reachable pf bm) :
    (∀ (op : Op) (i : Nat) (fr : Frame), (framesOf bm)[i]? = some fr →
        fr.pageNum ≠ NO_PAGE →
        ∃ fr1, (framesOf (step pf bm op).2)[i]? = some fr1 ∧ fr1.pageNum ≠ NO_PAGE) ∧
      (∀ (i j : Nat) (fi fj : Frame), i < j → (framesOf bm)[i]? = some fi →
        (framesOf bm)[j]? = some fj → fi.pageNum = NO_PAGE → fj.pageNum = NO_PAGE) ∧
      ∀ fr ∈ framesOf bm, fr.pageNum = NO_PAGE → fr.fixCount = 0 := by
  refine ⟨?_, hr.emptySuffix, ?_⟩
  · intro op i fr hfr hne
    obtain ⟨fr1, h1, hc⟩ := step_pageNum pf bm op hr.poolInv i fr hfr
    refine ⟨fr1, h1, ?_⟩
    rcases hc with hc | ⟨hc, _⟩
    · rw [hc]; exact hne
    · exact hc
  · obtain ⟨md, hmd, hinv⟩ := hr.poolInv
    simp only [framesOf, hmd]
    intro fr hfr he
    obtain ⟨j, hj⟩ := List.getElem?_of_mem hfr
    exact hinv.ok.emptyFix j fr hj he

theorem frames_fill_in_order_witness :
    getFrameContents (freshPool 3 .RS_FIFO) = [NO_PAGE, NO_PAGE, NO_PAGE] ∧
      getFrameContents (run (idealFile 4) (freshPool 3 .RS_FIFO)
        [Op.pin (some { pageNum := 0, data := 0 }) 7,
          Op.pin (some { pageNum := 0, data := 0 }) 5]) = [7, 5, NO_PAGE] ∧
      ∀ fr ∈ framesOf (run (idealFile 4) (freshPool 3 .RS_FIFO)
        [Op.pin (some { pageNum := 0, data := 0 }) 7,
          Op.pin (some { pageNum := 0, data := 0 }) 5]),
        fr.pageNum = NO_PAGE → fr.fixCount = 0 :=
  ⟨rfl, rfl,
    (frames_fill_in_order (idealFile 4) _ (freshPool_reachable 3 .RS_FIFO _)).2.2⟩

end BufferManager
